import Mathlib

/-!
# ai-stdio: the conversation document model

A shallow embedding of `internal/conversation/conversation.go` (the parser
`ParseContent`, `GetLastUserMessage`, `AddResponse` and `String`), of the fetch
methods of `internal/conversation/resource.go` for files and globs, and of the
message assembly loop of `cmd/ai-stdio/send.go` (`sendLLMRequest`), with the
properties of the specification proved or refuted on it.

Modelling conventions.

* A Go `string` is modelled by a Lean `String`, that is a sequence of Unicode
  code points: the model covers the inputs that are valid UTF-8 text. Byte
  lengths are UTF-8 byte lengths.
* `Message.Timestamp` (`time.Now()`) is not modelled: no code path reads it.
* `map[string]interface{}` is modelled by an association list with distinct
  keys; every value the parser stores is a string. The order in which Go
  visits a map in `range` is unspecified, so `String` takes that order as an
  argument.
* `bufio.Scanner` with its default split function and its default buffer is
  modelled by `scanLines`: lines end at a newline, one trailing carriage return
  is dropped, an empty text after the last newline is no line, and scanning
  stops at the first line of 64 KiB or more (`ParseContent` does not look at
  `scanner.Err()`). The lines of the text itself are `documentLines`; the two
  agree when every line is shorter than 64 KiB. A property about the lines the
  loop reads is stated on `scanLines`, a property about a document of a given
  shape on `documentLines`.
* The calls of the fetch methods into `path/filepath` and `os` are taken from an
  `Environment` argument; an `error` is modelled by its message.
-/

namespace AiStdio

/-! ## Go library functions -/

/-- The predicate `unicode.IsSpace`: the characters that `strings.TrimSpace` removes. -/
def isSpace (c : Char) : Bool :=
  let n := c.toNat
  n = 0x09 || n = 0x0A || n = 0x0B || n = 0x0C || n = 0x0D || n = 0x20 ||
  n = 0x85 || n = 0xA0 || n = 0x1680 || (0x2000 ≤ n && n ≤ 0x200A) ||
  n = 0x2028 || n = 0x2029 || n = 0x202F || n = 0x205F || n = 0x3000

/-- Removal of the leading and trailing white space of a character list. -/
def trimChars (l : List Char) : List Char :=
  ((l.dropWhile isSpace).reverse.dropWhile isSpace).reverse

/-- The function `strings.TrimSpace`. -/
def TrimSpace (s : String) : String := ⟨trimChars s.data⟩

/-- The function `strings.HasPrefix`. -/
def HasPrefix (s p : String) : Bool := p.data.isPrefixOf s.data

/-- The function `strings.TrimPrefix`: `s` without the leading `p`, or `s` itself
when `s` does not begin with `p`. -/
def TrimPrefix (s p : String) : String :=
  if HasPrefix s p then ⟨s.data.drop p.data.length⟩ else s

/-- Whether `sub` occurs in `l` as a block of consecutive characters. -/
def containsChars (sub : List Char) : List Char → Bool
  | [] => sub.isPrefixOf []
  | c :: cs => sub.isPrefixOf (c :: cs) || containsChars sub cs

/-- The function `strings.Contains`. -/
def Contains (s sub : String) : Bool := containsChars sub.data s.data

/-- The call `strings.SplitN(s, ":", 2)`: the text before and after the first
colon, or `s` alone when it has no colon. -/
def SplitN (s : String) : List String :=
  match s.data.span (fun c => c != ':') with
  | (a, _ :: b) => [⟨a⟩, ⟨b⟩]
  | (_, []) => [s]

/-- The constant `bufio.MaxScanTokenSize`, the size of the largest buffer a
`bufio.Scanner` allocates by default. -/
def maxScanTokenSize : Nat := 64 * 1024

/-- The pieces of a text between its newline characters; a text that ends in a
newline has no empty last piece, as in `bufio.ScanLines`. -/
def rawLines : List Char → List (List Char)
  | [] => []
  | c :: cs =>
    if c = '\n' then [] :: rawLines cs
    else
      match rawLines cs with
      | [] => [[c]]
      | l :: ls => (c :: l) :: ls

/-- The helper `dropCR` of `bufio.ScanLines`: one trailing carriage return is removed. -/
def dropCR (l : List Char) : List Char :=
  if l.getLast? = some '\r' then l.dropLast else l

/-- Whether a raw line fits the scanner's buffer: a line of `maxScanTokenSize`
bytes or more (its line terminator not counted) fills the buffer before its end
is seen, `Scan` then returns false (`ErrTooLong`) and no later line is read. -/
def fitsBuffer (l : List Char) : Bool :=
  decide ((String.mk l).utf8ByteSize < maxScanTokenSize)

/-- The successive values of `scanner.Text()` in `for scanner.Scan()` over
`bufio.NewScanner(strings.NewReader(content))`. -/
def scanLines (content : String) : List String :=
  ((rawLines content.data).takeWhile fitsBuffer).map (fun l => String.mk (dropCR l))

/-! ## Data model -/

/-- The struct `ReferenceMaterial`. -/
structure ReferenceMaterial where
  Name : String
  Content : String
  Typ : String
  deriving DecidableEq, Repr

/-- The struct `Message`, without its `Timestamp`. -/
structure Message where
  Role : String
  Content : String
  deriving DecidableEq, Repr

/-- The three implementations of the interface `ResourceRequest`. -/
inductive ResourceRequest where
  | FileResourceRequest (Filename : String)
  | FileGlobResourceRequest (Pattern : String)
  | URLResourceRequest (URL : String)
  deriving DecidableEq, Repr

/-- The struct `Conversation`. -/
structure Conversation where
  Title : String
  Prompt : String
  Model : String
  ProjectDirectory : String
  Parameters : List (String × String)
  Messages : List Message
  ReferenceMaterial : List ReferenceMaterial
  IncludeFiles : Bool
  ResourceRequests : List ResourceRequest
  deriving DecidableEq, Repr

/-- The map assignment `m[key] = value`. -/
def mapSet (m : List (String × String)) (key value : String) : List (String × String) :=
  if m.any (fun p => p.1 == key) then
    m.map (fun p => if p.1 == key then (key, value) else p)
  else m ++ [(key, value)]

/-! ## ParseContent -/

/-- The local variables of `ParseContent` that live across loop iterations. -/
structure ParseState where
  conv : Conversation
  currentRole : String
  currentContent : String
  inFrontMatter : Bool
  deriving DecidableEq, Repr

/-- The state of `ParseContent` before the first line is read. -/
def initState : ParseState :=
  { conv :=
      { Title := "", Prompt := "", Model := "", ProjectDirectory := "",
        Parameters := [], Messages := [], ReferenceMaterial := [],
        IncludeFiles := false, ResourceRequests := [] },
    currentRole := "", currentContent := "", inFrontMatter := false }

/-- The body of `if inFrontMatter` (lines 85 to 96): a `key: value` line. -/
def frontMatterLine (conv : Conversation) (line : String) : Conversation :=
  match SplitN line with
  | [k, v] =>
    let key := TrimSpace k
    let value := TrimSpace v
    if key = "model" then { conv with Model := value }
    else if key = "project_directory" then { conv with ProjectDirectory := value }
    else { conv with Parameters := mapSet conv.Parameters key value }
  | _ => conv

/-- The resource-request block (lines 101 to 113). -/
def resourceLine (conv : Conversation) (line : String) : Conversation :=
  if HasPrefix line "+file " then
    { conv with ResourceRequests :=
        conv.ResourceRequests ++ [ResourceRequest.FileResourceRequest (TrimPrefix line "+file ")] }
  else if HasPrefix line "+url " then
    { conv with ResourceRequests :=
        conv.ResourceRequests ++ [ResourceRequest.URLResourceRequest (TrimPrefix line "+url ")] }
  else if HasPrefix line "+glob" then
    { conv with ResourceRequests :=
        conv.ResourceRequests ++ [ResourceRequest.FileGlobResourceRequest (TrimPrefix line "+glob ")] }
  else conv

/-- One iteration of the loop `for scanner.Scan()` of `ParseContent`. -/
def parseLine (st : ParseState) (line : String) : ParseState :=
  if line = "---" then
    if !st.inFrontMatter then { st with inFrontMatter := true }
    else { st with inFrontMatter := false }
  else if st.inFrontMatter then
    { st with conv := frontMatterLine st.conv line }
  else
    let conv := resourceLine st.conv line
    if HasPrefix line "# " then
      { st with conv := { conv with Title := TrimPrefix line "# " } }
    else if HasPrefix line "## You" then
      if st.currentRole ≠ "" ∧ st.currentContent.length > 0 then
        { st with
          conv := { conv with Messages := conv.Messages ++
            [{ Role := st.currentRole, Content := TrimSpace st.currentContent }] },
          currentContent := "",
          currentRole := "You" }
      else { st with conv := conv, currentRole := "You" }
    else if HasPrefix line "### Response" then
      if st.currentRole ≠ "" ∧ st.currentContent.length > 0 then
        let messageContent := TrimSpace st.currentContent
        let conv1 := { conv with Messages := conv.Messages ++
            [{ Role := st.currentRole, Content := messageContent }] }
        let conv2 :=
          if st.currentRole = "You" ∧ Contains messageContent "+files" = true then
            { conv1 with IncludeFiles := true }
          else conv1
        { st with conv := conv2, currentContent := "", currentRole := "Response" }
      else { st with conv := conv, currentRole := "Response" }
    else if st.currentRole ≠ "" then
      { st with conv := conv, currentContent := st.currentContent ++ (line ++ "\n") }
    else { st with conv := conv }

/-- The block "Add the last message if exists" of `ParseContent` (lines 162 to 174). -/
def closeLast (st : ParseState) : Conversation :=
  if st.currentRole ≠ "" ∧ st.currentContent.length > 0 then
    let messageContent := TrimSpace st.currentContent
    let conv1 := { st.conv with Messages := st.conv.Messages ++
        [{ Role := st.currentRole, Content := messageContent }] }
    if st.currentRole = "You" ∧ Contains messageContent "+files" = true then
      { conv1 with IncludeFiles := true }
    else conv1
  else st.conv

/-- The code of `ParseContent` after the loop (lines 162 to 180). -/
def finish (st : ParseState) : Except String Conversation :=
  let conv := closeLast st
  if conv.Messages.length = 0 then Except.error "no messages found in content"
  else Except.ok conv

/-- The state of `ParseContent` when the loop over the given lines ends. -/
def parseLoop (lines : List String) : ParseState := lines.foldl parseLine initState

/-- The function `ParseContent`. -/
def ParseContent (content : String) : Except String Conversation :=
  finish (parseLoop (scanLines content))

/-! ## GetLastUserMessage, String, sendLLMRequest -/

/-- The loop of `GetLastUserMessage`, about to run with index `i - 1`; `i = 0`
is the loop exit. -/
def lastUserLoop (msgs : List Message) : Nat → Except String String
  | 0 => Except.error "no user messages found"
  | i + 1 =>
    match msgs[i]? with
    | some m => if m.Role = "You" then Except.ok m.Content else lastUserLoop msgs i
    | none => lastUserLoop msgs i

/-- The method `(*Conversation).GetLastUserMessage`. -/
def GetLastUserMessage (c : Conversation) : Except String String :=
  lastUserLoop c.Messages c.Messages.length

/-- The method `(*Conversation).String`. The argument `iter` is the order in
which `range c.Parameters` visits the entries of the map. -/
def ConversationString (c : Conversation) (iter : List (String × String)) : String :=
  let sb := ""
  let sb :=
    if c.Model ≠ "" ∨ c.Parameters.length > 0 then
      let sb := sb ++ "---\n"
      let sb := if c.Model ≠ "" then sb ++ ("model: " ++ c.Model ++ "\n") else sb
      let sb := iter.foldl (fun sb kv => sb ++ (kv.1 ++ ": " ++ kv.2 ++ "\n")) sb
      sb ++ "---\n\n"
    else sb
  let sb := if c.Title ≠ "" then sb ++ ("# " ++ c.Title ++ "\n\n") else sb
  c.Messages.foldl
    (fun sb msg =>
      (if msg.Role = "You" then sb ++ "## You\n\n" else sb ++ "### Response\n\n")
        ++ (msg.Content ++ "\n\n"))
    sb

/-- The struct `llm.Message` (`types.Message`). -/
structure LLMMessage where
  Role : String
  Content : String
  deriving DecidableEq, Repr

/-- The string built in `filesSection` by `sendLLMRequest` (lines 111 to 120). -/
def filesSection (refs : List ReferenceMaterial) : String :=
  refs.foldl
    (fun sb file => sb ++ ("Reference Material Type: " ++ file.Typ ++ "\nName: " ++ file.Name
      ++ "\n```\n" ++ file.Content ++ "\n```\n\n"))
    "\n\n# Relevant Material\n\n"

/-- One iteration of the loop over `conv.Messages` in `sendLLMRequest`; the
state is the slice `messages` and the flag `filesInserted`. -/
def assembleStep (refs : List ReferenceMaterial) (acc : List LLMMessage × Bool)
    (msg : Message) : List LLMMessage × Bool :=
  let role := if msg.Role = "Response" then "assistant" else "user"
  if acc.2 = false ∧ role = "user" ∧ refs.length > 0 then
    (acc.1 ++ [{ Role := role, Content := msg.Content ++ filesSection refs }], true)
  else (acc.1 ++ [{ Role := role, Content := msg.Content }], acc.2)

/-- The slice `messages` that `sendLLMRequest` hands to `provider.Chat`. -/
def sendLLMRequestMessages (conv : Conversation) : List LLMMessage :=
  (conv.Messages.foldl (assembleStep conv.ReferenceMaterial) ([], false)).1

/-! ## Definitions used to state the properties -/

/-- The role that `sendLLMRequest` gives a message sent without reference material. -/
def plainMessage (msg : Message) : LLMMessage :=
  { Role := if msg.Role = "Response" then "assistant" else "user", Content := msg.Content }

/-- The text of one reference item in the reference-material block. -/
def referenceEntry (file : ReferenceMaterial) : String :=
  "Reference Material Type: " ++ file.Typ ++ "\nName: " ++ file.Name
    ++ "\n```\n" ++ file.Content ++ "\n```\n\n"

/-- The reference-material block as the specification words it: the heading
followed by one entry per reference item, in list order. -/
def referenceBlock (refs : List ReferenceMaterial) : String :=
  "\n\n# Relevant Material\n\n" ++ String.join (refs.map referenceEntry)

/-- The number of assembled messages that carry the reference-material block:
those whose content is the content of the conversation message at the same
index followed by the block. -/
def blockInsertions (conv : Conversation) : Nat :=
  ((sendLLMRequestMessages conv).zip conv.Messages).countP
    (fun p => decide (p.1.Content = p.2.Content ++ referenceBlock conv.ReferenceMaterial))

/-- The front-matter part of the serialised document as the specification words
it: present only if `Model` or `Parameters` is non-empty, `model: <value>` if
set, then each parameter as `<key>: <value>`, wrapped in `---` lines and
followed by a blank line. -/
def frontMatterPart (c : Conversation) (iter : List (String × String)) : String :=
  if c.Model ≠ "" ∨ c.Parameters ≠ [] then
    "---\n" ++ (if c.Model ≠ "" then "model: " ++ c.Model ++ "\n" else "")
      ++ String.join (iter.map (fun kv => kv.1 ++ ": " ++ kv.2 ++ "\n")) ++ "---\n\n"
  else ""

/-- The title part of the serialised document: `# <title>` and a blank line if
the title is non-empty. -/
def titlePart (c : Conversation) : String :=
  if c.Title ≠ "" then "# " ++ c.Title ++ "\n\n" else ""

/-- The part of the serialised document for one message: its heading and a
blank line, its content, and a blank line. -/
def messagePart (m : Message) : String :=
  (if m.Role = "You" then "## You\n\n" else "### Response\n\n") ++ m.Content ++ "\n\n"

/-- A line that is neither a front-matter delimiter, a title line nor a turn heading. -/
def contentLine (l : String) : Prop :=
  l ≠ "---" ∧ HasPrefix l "# " = false ∧ HasPrefix l "## You" = false ∧
    HasPrefix l "### Response" = false

/-- The message that closing the open turn appends, if any: the turn's role and
the trimmed buffer, when a role is open and the buffer is not empty. -/
def pending (st : ParseState) : List Message :=
  if st.currentRole ≠ "" ∧ st.currentContent.length > 0 then
    [{ Role := st.currentRole, Content := TrimSpace st.currentContent }]
  else []

/-- One turn of a document: whether its heading is `## You` (otherwise
`### Response`), and the lines that follow the heading. -/
structure Turn where
  user : Bool
  lines : List String
  deriving DecidableEq, Repr

/-- The heading line of a turn. -/
def Turn.heading (t : Turn) : String := if t.user then "## You" else "### Response"

/-- The role of the message of a turn. -/
def Turn.role (t : Turn) : String := if t.user then "You" else "Response"

/-- The message of a turn: its lines joined by newlines, with leading and
trailing white space trimmed. -/
def Turn.message (t : Turn) : Message :=
  { Role := t.role, Content := TrimSpace (String.intercalate "\n" t.lines) }

/-- The lines of a sequence of turns: each heading followed by the turn's lines. -/
def turnLines : List Turn → List String
  | [] => []
  | t :: ts => t.heading :: (t.lines ++ turnLines ts)

/-- The lines of an optional title line `# <title>`. -/
def titleLines : Option String → List String
  | none => []
  | some t => ["# " ++ t]

/-- The buffer `currentContent` after the given lines were accumulated into an
empty buffer: every line followed by a newline. -/
def bufferOf (ls : List String) : String := String.join (ls.map (fun l => l ++ "\n"))

/-- The states of the loop that are outside front matter and keep no buffer
without an open turn. -/
def wellFormed (st : ParseState) : Prop :=
  st.inFrontMatter = false ∧ (st.currentRole = "" → st.currentContent = "")

instance contentLineDecidable : DecidablePred contentLine := fun l => by
  unfold contentLine
  exact inferInstance

/-- The lines of a document that lie inside front matter: a line `---` opens or
closes front matter, and the other lines belong to it while it is open. The
flag tells whether front matter is open at the first line. -/
def frontMatterLines : Bool → List String → List String
  | _, [] => []
  | inFM, l :: ls =>
    if l = "---" then frontMatterLines (!inFM) ls
    else if inFM then l :: frontMatterLines inFM ls
    else frontMatterLines inFM ls

/-- The lines of a document that lie outside front matter, the `---` delimiters
left out. -/
def outsideLines : Bool → List String → List String
  | _, [] => []
  | inFM, l :: ls =>
    if l = "---" then outsideLines (!inFM) ls
    else if inFM then outsideLines inFM ls
    else l :: outsideLines inFM ls

/-- The key and the value of a front-matter line: a line that contains a colon
is split at its first colon, and both sides are trimmed. -/
def keyValue (l : String) : Option (String × String) :=
  if ':' ∈ l.data then
    some (TrimSpace ⟨l.data.takeWhile (fun c => c != ':')⟩,
      TrimSpace ⟨(l.data.dropWhile (fun c => c != ':')).tail⟩)
  else none

/-- The value of the last entry with the given key, if there is one. -/
def lastValue (entries : List (String × String)) (key : String) : Option String :=
  ((entries.filter (fun e => e.1 == key)).getLast?).map (fun e => e.2)

/-- The requests that the resource-request block of `ParseContent` appends for a line. -/
def lineRequests (line : String) : List ResourceRequest :=
  if HasPrefix line "+file " then [ResourceRequest.FileResourceRequest (TrimPrefix line "+file ")]
  else if HasPrefix line "+url " then [ResourceRequest.URLResourceRequest (TrimPrefix line "+url ")]
  else if HasPrefix line "+glob" then
    [ResourceRequest.FileGlobResourceRequest (TrimPrefix line "+glob ")]
  else []

/-- A directive line: a line that begins with `+file `, `+url ` or `+glob`. -/
def isDirective (l : String) : Bool :=
  HasPrefix l "+file " || HasPrefix l "+url " || HasPrefix l "+glob"

/-- The remainder of a line after its first `n` characters. -/
def remainder (l : String) (n : Nat) : String := ⟨l.data.drop n⟩

/-- The request of a directive line as the specification words it: a line that
begins with `+file ` yields a file request with the remainder of the line as
file name, one that begins with `+url ` a URL request with the remainder as
URL, one that begins with `+glob` a glob request, whose pattern for a line
`+glob <p>` is `p`. -/
def IsRequestOf (line : String) (req : ResourceRequest) : Prop :=
  (HasPrefix line "+file " = true ∧
    req = ResourceRequest.FileResourceRequest (remainder line 6)) ∨
  (HasPrefix line "+url " = true ∧
    req = ResourceRequest.URLResourceRequest (remainder line 5)) ∨
  (HasPrefix line "+glob" = true ∧
    ∃ p, req = ResourceRequest.FileGlobResourceRequest p ∧
      ∀ q : String, line = "+glob " ++ q → p = q)

/-- The turn with role `r` that was open with `n` messages closed before it has
the line `line` in its buffer, or has been closed into the message of index `n`,
whose content is the trimmed buffer with the line in it. -/
def lineKept (r line : String) (n : Nat) (st : ParseState) (msgs : List Message) : Prop :=
  (st.currentRole = r ∧ msgs.length = n ∧
    ∃ a b : String, st.currentContent = a ++ line ++ "\n" ++ b) ∨
  (∃ m, msgs[n]? = some m ∧ m.Role = r ∧
    ∃ a b : String, m.Content = TrimSpace (a ++ line ++ "\n" ++ b))

/-- The pieces of a text between its newline characters, the last piece included
even when it is empty. -/
def splitNL : List Char → List (List Char)
  | [] => [[]]
  | c :: cs =>
    if c = '\n' then [] :: splitNL cs
    else
      match splitNL cs with
      | [] => [[c]]
      | l :: ls => (c :: l) :: ls

/-- The non-blank pieces among the given ones, each with its leading and
trailing white space trimmed. -/
def trimmedPieces (pieces : List (List Char)) : List (List Char) :=
  (pieces.map trimChars).filter (fun l => decide (l ≠ []))

/-- The sequence of the non-blank lines among the given ones, each line trimmed. -/
def nonBlankTrimmed (ls : List String) : List String :=
  (ls.map TrimSpace).filter (fun s => decide (s ≠ ""))

/-- The raw lines of the part of the serialised document for one message: the
heading, a blank line, the lines of the content and a blank line. -/
def messageRawLines (m : Message) : List (List Char) :=
  (if m.Role = "You" then "## You" else "### Response").data :: [] ::
    (splitNL m.Content.data ++ [[]])

/-- The helper `normalizeSpace` of the test `TestContentRoundTrip`: the text is
split at its newlines, each piece is trimmed and the non-empty ones are kept.
The test joins them by newlines again; the model keeps the sequence. -/
def normalizeSpace (s : String) : List String :=
  (trimmedPieces (splitNL s.data)).map String.mk

/-- The properties of the state that every iteration of the parse loop keeps:
every message has role "You" or "Response" and a trimmed content, the open
role is one of these or none, and the title, the model and the parameters have
no newline. -/
def parsedInvariant (st : ParseState) : Prop :=
  (∀ m ∈ st.conv.Messages,
    (m.Role = "You" ∨ m.Role = "Response") ∧ TrimSpace m.Content = m.Content) ∧
  (st.currentRole = "" ∨ st.currentRole = "You" ∨ st.currentRole = "Response") ∧
  '\n' ∉ st.conv.Title.data ∧ '\n' ∉ st.conv.Model.data ∧
  ∀ p ∈ st.conv.Parameters, '\n' ∉ p.1.data ∧ '\n' ∉ p.2.data

/-- The raw lines of the front-matter part of the serialised document. -/
def frontMatterRawLines (c : Conversation) (iter : List (String × String)) :
    List (List Char) :=
  if c.Model ≠ "" ∨ c.Parameters ≠ [] then
    "---".data ::
      ((if c.Model ≠ "" then [("model: " ++ c.Model).data] else []) ++
        iter.map (fun kv => (kv.1 ++ ": " ++ kv.2).data) ++ ["---".data, []])
  else []

/-- The raw lines of the title part of the serialised document. -/
def titleRawLines (c : Conversation) : List (List Char) :=
  if c.Title ≠ "" then [("# " ++ c.Title).data, []] else []

/-- The turn that the serialised part of a message reads as: the heading of the
message's role, then a blank line, the lines of the content and a blank line. -/
def toTurn (m : Message) : Turn :=
  { user := decide (m.Role = "You"),
    lines := "" :: ((splitNL m.Content.data).map String.mk ++ [""]) }

/-- A run of 65530 letters: with it, the parameter line `a:x…x: c` has 65535
bytes and the line `a: x…x: c` has 65536. -/
@[irreducible]
def longRun : List Char := List.replicate 65530 'x'

/-- A conversation whose only parameter has the key `a:x…x`, with a colon in it. -/
def longKeyConversation : Conversation :=
  { Title := "", Prompt := "", Model := "", ProjectDirectory := "",
    Parameters := [(String.mk ('a' :: ':' :: longRun), "c")],
    Messages := [{ Role := "You", Content := "hi" }],
    ReferenceMaterial := [], IncludeFiles := false, ResourceRequests := [] }

/-! ## AddResponse -/

/-- The method `(*Conversation).AddResponse`: a message with role "Response" and
the given content is appended to `Messages`. -/
def AddResponse (c : Conversation) (content : String) : Conversation :=
  { c with Messages := c.Messages ++ [{ Role := "Response", Content := content }] }

/-- The title that the last of the given lines beginning with `# ` carries, the
text after the `# `; the given default when no line begins with `# `. -/
def lastTitle (lines : List String) (default : String) : String :=
  (((lines.filter (fun l => HasPrefix l "# ")).getLast?).map (fun l => remainder l 2)).getD default

/-- The title that the first of the given lines beginning with `# ` carries, the
text after the `# `; the given default when no line begins with `# `. -/
def firstTitle (lines : List String) (default : String) : String :=
  (((lines.filter (fun l => HasPrefix l "# ")).head?).map (fun l => remainder l 2)).getD default

/-- A turn heading: a line that begins with `## You` or with `### Response`. -/
def roleHeading (l : String) : Bool :=
  HasPrefix l "## You" || HasPrefix l "### Response"

/-- A heading line: a line that begins with `# `, `## You` or `### Response`. -/
def headingLine (l : String) : Bool :=
  HasPrefix l "# " || roleHeading l

/-- Whether a blank line comes after the first turn heading of the given lines. -/
def blankAfterHeading (lines : List String) : Bool :=
  (lines.dropWhile (fun l => !roleHeading l)).any (fun l => decide (TrimSpace l = ""))

/-- The states of the loop in which nothing was accumulated so far: outside front
matter, with no message and an empty buffer. -/
def quiet (st : ParseState) : Prop :=
  st.inFrontMatter = false ∧ st.conv.Messages = [] ∧ st.currentContent = ""

/-- The states of the loop that hold white space only: outside front matter, with
a buffer of white space and messages of empty content. -/
def blankState (st : ParseState) : Prop :=
  st.inFrontMatter = false ∧ (∀ c ∈ st.currentContent.data, isSpace c = true) ∧
    ∀ m ∈ st.conv.Messages, m.Content = ""

/-- Whether front matter is open after the given lines: every line `---` opens or
closes it. The flag tells whether front matter is open at the first line. -/
def frontMatterOpen : Bool → List String → Bool
  | inFM, [] => inFM
  | inFM, l :: ls => frontMatterOpen (if l = "---" then !inFM else inFM) ls

/-! ## Resource fetching -/

/-- The struct `Resource`. -/
structure Resource where
  ResourceType : String
  Name : String
  Content : String
  deriving DecidableEq, Repr

/-- The operations of `path/filepath` and `os` that the fetch methods call, with
the results the environment gives; an error is modelled by its message. -/
structure Environment where
  IsAbs : String → Bool
  Abs : String → Except String String
  Join : String → String → String
  Rel : String → String → Except String String
  ReadFile : String → Except String String
  Glob : String → Except String (List String)

/-- The method `FileResourceRequest.Fetch`: the file is read and returned as one
resource of type "file", named by its path relative to the project directory. -/
def FileResourceRequest.Fetch (env : Environment) (Filename projectDirectory : String) :
    Except String (List Resource) :=
  let full : Except String String :=
    if !env.IsAbs Filename then
      match env.Abs (env.Join projectDirectory Filename) with
      | Except.error e => Except.error ("failed to convert path to absolute: " ++ e)
      | Except.ok f => Except.ok f
    else Except.ok Filename
  match full with
  | Except.error e => Except.error e
  | Except.ok fullFilename =>
    match env.Rel projectDirectory fullFilename with
    | Except.error e => Except.error ("failed to convert file path to relative: " ++ e)
    | Except.ok relativePath =>
      match env.ReadFile fullFilename with
      | Except.error e => Except.error ("failed to read file: " ++ e)
      | Except.ok data =>
        Except.ok [{ ResourceType := "file", Name := relativePath, Content := data }]

/-- The loop `fileLoop` of `FileGlobResourceRequest.Fetch` over the matches that
are left, with the resources collected so far. A match that contains an entry
of `GlobIgnore` is skipped; of the result of a file fetch the element of index
0 is appended. -/
def fileLoop (env : Environment) (GlobIgnore : List String) (projectDirectory : String) :
    List String → List Resource → Except String (List Resource)
  | [], resourceRequests => Except.ok resourceRequests
  | filename :: rest, resourceRequests =>
    if GlobIgnore.any (fun ignore => Contains filename ignore) then
      fileLoop env GlobIgnore projectDirectory rest resourceRequests
    else
      match FileResourceRequest.Fetch env filename projectDirectory with
      | Except.error e => Except.error ("could not fetch file from glob: " ++ e)
      | Except.ok resource =>
        match resource[0]? with
        | some r => fileLoop env GlobIgnore projectDirectory rest (resourceRequests ++ [r])
        | none => Except.error "index out of range [0] with length 0"

/-- The method `FileGlobResourceRequest.Fetch`; `GlobIgnore` is the field
`cfg.LLM.GlobIgnore`. -/
def FileGlobResourceRequest.Fetch (env : Environment) (GlobIgnore : List String)
    (Pattern projectDirectory : String) : Except String (List Resource) :=
  let globPattern := env.Join projectDirectory Pattern
  match env.Glob globPattern with
  | Except.error e => Except.error ("could not glob: " ++ e)
  | Except.ok glob => fileLoop env GlobIgnore projectDirectory glob []

/-- The matched paths that contain no entry of the ignore list as a substring,
in match order. -/
def keptMatches (GlobIgnore : List String) (glob : List String) : List String :=
  glob.filter (fun f => GlobIgnore.all (fun ignore => !Contains f ignore))

/-- An environment with three matches for every pattern, in which every path is
absolute and every file holds its own name. -/
def sampleEnvironment : Environment :=
  { IsAbs := fun _ => true,
    Abs := fun p => Except.ok p,
    Join := fun a b => a ++ "/" ++ b,
    Rel := fun _ target => Except.ok target,
    ReadFile := fun p => Except.ok p,
    Glob := fun _ => Except.ok ["/p/a.go", "/p/vendor/b.go", "/p/c.go"] }

/-- The lines of a text: the pieces between its newlines, one trailing carriage
return dropped from each. They are the lines that the scanner delivers when no
line is too long for its buffer. -/
def documentLines (content : String) : List String :=
  (rawLines content.data).map (fun l => String.mk (dropCR l))

/-- The line `a: x…x: c` of 65536 bytes. -/
def tooLongLine : List Char := 'a' :: ':' :: ' ' :: (longRun ++ [':', ' ', 'c'])

/-- A document of one user turn whose only line has 65536 bytes. -/
def tooLongTurn : String := String.mk ("## You".data ++ '\n' :: tooLongLine)

/-- A document with the title line `# T` and one user turn with the lines `hi`,
a line of 65536 bytes and `after`. -/
def tooLongDocument : String :=
  String.mk ("# T".data ++ '\n' :: ("## You".data ++ '\n' :: ("hi".data ++ '\n' ::
    (tooLongLine ++ '\n' :: "after".data))))

/-! # Theorems -/

/-! ## C1: a parsed conversation has at least one message -/

/-- C1. For every input text, `ParseContent` returns an error exactly when the pass
over the lines, the closing of the last open turn included, produced zero
messages; hence every conversation it returns has at least one message, and
`ParseContent ""` returns an error. -/
theorem ParseContent_error_iff_no_message :
    (∀ content : String,
      (∃ e, ParseContent content = Except.error e) ↔
        (closeLast (parseLoop (scanLines content))).Messages.length = 0) ∧
    (∀ (content : String) (c : Conversation),
      ParseContent content = Except.ok c → 1 ≤ c.Messages.length) ∧
    (∃ e, ParseContent "" = Except.error e) := by
  refine ⟨?_, ?_, ⟨_, rfl⟩⟩
  · intro content
    unfold ParseContent finish
    by_cases h : (closeLast (parseLoop (scanLines content))).Messages.length = 0
    · simp [h]
    · simp [h]
  · intro content c
    unfold ParseContent finish
    by_cases h : (closeLast (parseLoop (scanLines content))).Messages.length = 0
    · simp [h]
    · simp only [h, if_false]
      intro hc
      cases hc
      omega

/-- Witness for C1: the document of one user turn parses to one message. -/
theorem ParseContent_error_iff_no_message_witness :
    ParseContent "## You\nA" =
      Except.ok
        { Title := "", Prompt := "", Model := "", ProjectDirectory := "", Parameters := [],
          Messages := [{ Role := "You", Content := "A" }], ReferenceMaterial := [],
          IncludeFiles := false, ResourceRequests := [] } ∧
    1 ≤ ([{ Role := "You", Content := "A" }] : List Message).length :=
  ⟨rfl, ParseContent_error_iff_no_message.2.1 "## You\nA"
    { Title := "", Prompt := "", Model := "", ProjectDirectory := "", Parameters := [],
      Messages := [{ Role := "You", Content := "A" }], ReferenceMaterial := [],
      IncludeFiles := false, ResourceRequests := [] } rfl⟩

/-! ## C4: GetLastUserMessage -/

/-- The loop of `GetLastUserMessage` started below index `n` returns `content`
exactly when `content` is the content of the last user message below `n`. -/
theorem lastUserLoop_ok (msgs : List Message) (content : String) :
    ∀ n, n ≤ msgs.length →
      (lastUserLoop msgs n = Except.ok content ↔
        ∃ i, ∃ h : i < msgs.length, i < n ∧ msgs[i].Role = "You" ∧ msgs[i].Content = content ∧
          ∀ j, ∀ hj : j < msgs.length, i < j → j < n → msgs[j].Role ≠ "You") := by
  intro n
  induction n with
  | zero =>
    intro _
    simp [lastUserLoop]
  | succ n ih =>
    intro hn
    have hlt : n < msgs.length := hn
    have ih := ih (Nat.le_of_lt hlt)
    simp only [lastUserLoop, List.getElem?_eq_getElem hlt]
    by_cases hr : msgs[n].Role = "You"
    · simp only [hr, if_true]
      constructor
      · intro h
        cases h
        exact ⟨n, hlt, Nat.lt_succ_self n, hr, rfl, fun j hj h1 h2 => by omega⟩
      · rintro ⟨i, hi, hin, hir, hic, hlast⟩
        have : i = n := by
          by_contra hne
          have : i < n := by omega
          exact hlast n hlt this (Nat.lt_succ_self n) hr
        subst this
        rw [hic]
    · simp only [hr, if_false]
      rw [ih]
      constructor
      · rintro ⟨i, hi, hin, hir, hic, hlast⟩
        refine ⟨i, hi, by omega, hir, hic, ?_⟩
        intro j hj h1 h2
        by_cases hjn : j = n
        · subst hjn; exact hr
        · exact hlast j hj h1 (by omega)
      · rintro ⟨i, hi, hin, hir, hic, hlast⟩
        have hne : i ≠ n := by
          intro h; subst h; exact hr hir
        exact ⟨i, hi, by omega, hir, hic, fun j hj h1 h2 => hlast j hj h1 (by omega)⟩

/-- The loop of `GetLastUserMessage` started below index `n` fails exactly when
no message below `n` is a user message. -/
theorem lastUserLoop_error (msgs : List Message) :
    ∀ n, n ≤ msgs.length →
      ((∃ e, lastUserLoop msgs n = Except.error e) ↔
        ∀ i, ∀ h : i < msgs.length, i < n → msgs[i].Role ≠ "You") := by
  intro n
  induction n with
  | zero => intro _; simp [lastUserLoop]
  | succ n ih =>
    intro hn
    have hlt : n < msgs.length := hn
    have ih := ih (Nat.le_of_lt hlt)
    simp only [lastUserLoop, List.getElem?_eq_getElem hlt]
    by_cases hr : msgs[n].Role = "You"
    · simp only [hr, if_true]
      constructor
      · rintro ⟨e, he⟩; cases he
      · intro h; exact absurd hr (h n hlt (Nat.lt_succ_self n))
    · simp only [hr, if_false]
      rw [ih]
      constructor
      · intro h i hi hin
        by_cases hin2 : i = n
        · subst hin2; exact hr
        · exact h i hi (by omega)
      · intro h i hi hin
        exact h i hi (by omega)

/-- C4. `GetLastUserMessage` returns the content of the message with the greatest
index whose role is "You"; it returns an error if and only if no message has
role "You", in particular for an empty message list; on
[You:"First", Response:"Reply", You:"Second"] it returns "Second". -/
theorem GetLastUserMessage_spec :
    (∀ (c : Conversation) (content : String),
      GetLastUserMessage c = Except.ok content ↔
        ∃ i, ∃ h : i < c.Messages.length,
          c.Messages[i].Role = "You" ∧ c.Messages[i].Content = content ∧
          ∀ j, ∀ hj : j < c.Messages.length, i < j → c.Messages[j].Role ≠ "You") ∧
    (∀ c : Conversation,
      (∃ e, GetLastUserMessage c = Except.error e) ↔ ∀ m ∈ c.Messages, m.Role ≠ "You") ∧
    (∀ c : Conversation, c.Messages = [] → ∃ e, GetLastUserMessage c = Except.error e) ∧
    (∀ c : Conversation,
      c.Messages = [{ Role := "You", Content := "First" }, { Role := "Response", Content := "Reply" },
        { Role := "You", Content := "Second" }] →
      GetLastUserMessage c = Except.ok "Second") := by
  refine ⟨?_, ?_, ?_, ?_⟩
  · intro c content
    unfold GetLastUserMessage
    rw [lastUserLoop_ok c.Messages content c.Messages.length (Nat.le_refl _)]
    constructor
    · rintro ⟨i, hi, _, h1, h2, h3⟩
      exact ⟨i, hi, h1, h2, fun j hj hij => h3 j hj hij hj⟩
    · rintro ⟨i, hi, h1, h2, h3⟩
      exact ⟨i, hi, hi, h1, h2, fun j hj hij _ => h3 j hj hij⟩
  · intro c
    unfold GetLastUserMessage
    rw [lastUserLoop_error c.Messages c.Messages.length (Nat.le_refl _)]
    constructor
    · intro h m hm
      obtain ⟨i, hi, rfl⟩ := List.getElem_of_mem hm
      exact h i hi hi
    · intro h i hi _
      exact h _ (List.getElem_mem hi)
  · intro c hc
    unfold GetLastUserMessage
    rw [hc]
    exact ⟨_, rfl⟩
  · intro c hc
    unfold GetLastUserMessage
    rw [hc]
    rfl

/-- Witness for C4: the conversation of the specification's example. -/
theorem GetLastUserMessage_spec_witness :
    GetLastUserMessage
      { Title := "", Prompt := "", Model := "", ProjectDirectory := "", Parameters := [],
        Messages := [{ Role := "You", Content := "First" },
          { Role := "Response", Content := "Reply" }, { Role := "You", Content := "Second" }],
        ReferenceMaterial := [], IncludeFiles := false, ResourceRequests := [] }
      = Except.ok "Second" :=
  GetLastUserMessage_spec.2.2.2 _ rfl

/-! ## C5: the message list assembled by sendLLMRequest -/

/-- A string builder that receives one piece per list element holds the
concatenation of the pieces. -/
theorem foldl_append_string {α : Type} (f : α → String) (l : List α) (sb : String) :
    l.foldl (fun sb a => sb ++ f a) sb = sb ++ String.join (l.map f) := by
  induction l generalizing sb with
  | nil => apply String.ext; simp [String.join_eq]
  | cons a l ih =>
    simp only [List.foldl_cons, List.map_cons]
    rw [ih]
    apply String.ext
    simp [String.join_eq]

/-- The string built by the loop over the reference material is the block of the specification. -/
theorem filesSection_eq (refs : List ReferenceMaterial) :
    filesSection refs = referenceBlock refs := by
  unfold filesSection referenceBlock
  exact foldl_append_string referenceEntry refs _

/-- The reference-material block is not empty: appending it changes a content. -/
theorem referenceBlock_ne (refs : List ReferenceMaterial) (s : String) :
    s ≠ s ++ referenceBlock refs := by
  intro h
  have h2 := congrArg String.data h
  rw [String.data_append] at h2
  have h3 : (referenceBlock refs).data = [] := List.self_eq_append_right.mp h2
  have h4 : (referenceBlock refs).data =
      '\n' :: ("\n# Relevant Material\n\n".data ++ (String.join (refs.map referenceEntry)).data) := by
    unfold referenceBlock
    rw [String.data_append]
    rfl
  rw [h4] at h3
  exact List.cons_ne_nil _ _ h3

/-- Once `filesInserted` is set, every message is passed through unchanged. -/
theorem assemble_flag_true (refs : List ReferenceMaterial) (msgs : List Message)
    (acc : List LLMMessage) :
    msgs.foldl (assembleStep refs) (acc, true) = (acc ++ msgs.map plainMessage, true) := by
  induction msgs generalizing acc with
  | nil => simp
  | cons m msgs ih =>
    simp only [List.foldl_cons, List.map_cons]
    have : assembleStep refs (acc, true) m = (acc ++ [plainMessage m], true) := by
      simp [assembleStep, plainMessage]
    rw [this, ih]
    simp

/-- Without reference material every message is passed through unchanged. -/
theorem assemble_no_refs (msgs : List Message) (acc : List LLMMessage) (b : Bool) :
    msgs.foldl (assembleStep []) (acc, b) = (acc ++ msgs.map plainMessage, b) := by
  induction msgs generalizing acc with
  | nil => simp
  | cons m msgs ih =>
    simp only [List.foldl_cons, List.map_cons]
    have : assembleStep [] (acc, b) m = (acc ++ [plainMessage m], b) := by
      simp [assembleStep, plainMessage]
    rw [this, ih]
    simp

/-- Messages with role "Response" are passed through unchanged and leave the flag as it is. -/
theorem assemble_all_response (refs : List ReferenceMaterial) (msgs : List Message)
    (acc : List LLMMessage) (b : Bool) (h : ∀ p ∈ msgs, p.Role = "Response") :
    msgs.foldl (assembleStep refs) (acc, b) = (acc ++ msgs.map plainMessage, b) := by
  induction msgs generalizing acc with
  | nil => simp
  | cons m msgs ih =>
    simp only [List.foldl_cons, List.map_cons]
    have hm : m.Role = "Response" := h m (List.mem_cons_self _ _)
    have : assembleStep refs (acc, b) m = (acc ++ [plainMessage m], b) := by
      simp [assembleStep, plainMessage, hm]
    rw [this, ih _ (fun p hp => h p (List.mem_cons_of_mem _ hp))]
    simp

/-- The block is appended to the first message whose role is not "Response". -/
theorem assemble_first_user (refs : List ReferenceMaterial) (hrefs : refs ≠ [])
    (pre post : List Message) (m : Message)
    (hpre : ∀ p ∈ pre, p.Role = "Response") (hm : m.Role ≠ "Response") :
    ((pre ++ m :: post).foldl (assembleStep refs) ([], false)).1 =
      pre.map plainMessage
        ++ { Role := "user", Content := m.Content ++ referenceBlock refs }
          :: post.map plainMessage := by
  rw [List.foldl_append, assemble_all_response refs pre [] false hpre, List.foldl_cons]
  have hlen : refs.length > 0 := List.length_pos.mpr hrefs
  have : assembleStep refs ([] ++ pre.map plainMessage, false) m =
      (pre.map plainMessage ++ [{ Role := "user", Content := m.Content ++ referenceBlock refs }],
        true) := by
    simp [assembleStep, hm, hlen, filesSection_eq]
  rw [this, assemble_flag_true]
  simp

/-- No message that was passed through unchanged carries the block. -/
theorem countP_zip_plain (block : String) (hb : ∀ s : String, s ≠ s ++ block)
    (l : List Message) :
    ((l.map plainMessage).zip l).countP
      (fun p => decide (p.1.Content = p.2.Content ++ block)) = 0 := by
  induction l with
  | nil => simp
  | cons m l ih =>
    simp only [List.map_cons, List.zip_cons_cons]
    rw [List.countP_cons_of_neg]
    · exact ih
    · simpa [plainMessage] using hb m.Content

/-- A message list has only "Response" messages or a first message with another role. -/
theorem first_user_split (l : List Message) :
    (∀ p ∈ l, p.Role = "Response") ∨
      ∃ pre m post, l = pre ++ m :: post ∧ (∀ p ∈ pre, p.Role = "Response") ∧
        m.Role ≠ "Response" := by
  induction l with
  | nil => left; simp
  | cons a l ih =>
    by_cases ha : a.Role = "Response"
    · rcases ih with h | ⟨pre, m, post, h1, h2, h3⟩
      · left
        intro p hp
        rcases List.mem_cons.mp hp with rfl | hp
        · exact ha
        · exact h p hp
      · right
        refine ⟨a :: pre, m, post, by rw [h1]; rfl, ?_, h3⟩
        intro p hp
        rcases List.mem_cons.mp hp with rfl | hp
        · exact ha
        · exact h2 p hp
    · right
      exact ⟨[], a, l, rfl, by simp, ha⟩

/-- The message list that `sendLLMRequest` assembles, by cases. It has the length and
order of the conversation's messages and maps role "Response" to "assistant" and
every other role to "user". With non-empty reference material, the block
"\n\n# Relevant Material\n\n" followed by one entry per reference item in
list order is appended to the content of the first user-role message and every
other content is passed through unchanged, so exactly one message carries the
block; if no message has a user role, every content is passed through unchanged
and no message carries the block. With empty reference material every content
is passed through unchanged. -/
theorem sendLLMRequest_messages_cases (conv : Conversation) :
    (sendLLMRequestMessages conv).length = conv.Messages.length ∧
    (sendLLMRequestMessages conv).map (fun m => m.Role) =
      conv.Messages.map (fun m => if m.Role = "Response" then "assistant" else "user") ∧
    (conv.ReferenceMaterial ≠ [] →
      ∀ pre m post, conv.Messages = pre ++ m :: post →
        (∀ p ∈ pre, p.Role = "Response") → m.Role ≠ "Response" →
        sendLLMRequestMessages conv =
          pre.map plainMessage
            ++ { Role := "user", Content := m.Content ++ referenceBlock conv.ReferenceMaterial }
              :: post.map plainMessage ∧
        blockInsertions conv = 1) ∧
    (conv.ReferenceMaterial ≠ [] → (∀ p ∈ conv.Messages, p.Role = "Response") →
      sendLLMRequestMessages conv = conv.Messages.map plainMessage ∧
      blockInsertions conv = 0) ∧
    (conv.ReferenceMaterial = [] →
      sendLLMRequestMessages conv = conv.Messages.map plainMessage) := by
  have hsplit : ∀ pre m post, conv.ReferenceMaterial ≠ [] → conv.Messages = pre ++ m :: post →
      (∀ p ∈ pre, p.Role = "Response") → m.Role ≠ "Response" →
      sendLLMRequestMessages conv =
        pre.map plainMessage
          ++ { Role := "user", Content := m.Content ++ referenceBlock conv.ReferenceMaterial }
            :: post.map plainMessage := by
    intro pre m post hrefs hmsgs hpre hm
    unfold sendLLMRequestMessages
    rw [hmsgs]
    exact assemble_first_user _ hrefs pre post m hpre hm
  have hall : (∀ p ∈ conv.Messages, p.Role = "Response") →
      sendLLMRequestMessages conv = conv.Messages.map plainMessage := by
    intro h
    unfold sendLLMRequestMessages
    rw [assemble_all_response _ _ _ _ h]
    simp
  have hnone : conv.ReferenceMaterial = [] →
      sendLLMRequestMessages conv = conv.Messages.map plainMessage := by
    intro h
    unfold sendLLMRequestMessages
    rw [h, assemble_no_refs]
    simp
  have hcases : sendLLMRequestMessages conv = conv.Messages.map plainMessage ∨
      ∃ pre m post, conv.Messages = pre ++ m :: post ∧ m.Role ≠ "Response" ∧
        sendLLMRequestMessages conv =
          pre.map plainMessage
            ++ { Role := "user", Content := m.Content ++ referenceBlock conv.ReferenceMaterial }
              :: post.map plainMessage := by
    by_cases hrefs : conv.ReferenceMaterial = []
    · exact Or.inl (hnone hrefs)
    · rcases first_user_split conv.Messages with h | ⟨pre, m, post, h1, h2, h3⟩
      · exact Or.inl (hall h)
      · exact Or.inr ⟨pre, m, post, h1, h3, hsplit pre m post hrefs h1 h2 h3⟩
  refine ⟨?_, ?_, ?_, ?_, hnone⟩
  · rcases hcases with h | ⟨pre, m, post, h1, _, h3⟩
    · rw [h]; simp
    · rw [h3, h1]; simp
  · rcases hcases with h | ⟨pre, m, post, h1, h2, h3⟩
    · rw [h]; simp [plainMessage]
    · have hfun : ((fun m : LLMMessage => m.Role) ∘ plainMessage) =
          (fun m : Message => if m.Role = "Response" then "assistant" else "user") := by
        funext x; simp [plainMessage]
      rw [h3, h1]; simp [h2, hfun]
  · intro hrefs pre m post hmsgs hpre hm
    have hout := hsplit pre m post hrefs hmsgs hpre hm
    refine ⟨hout, ?_⟩
    unfold blockInsertions
    rw [hout, hmsgs, List.zip_append (by simp), List.countP_append, List.zip_cons_cons,
      List.countP_cons_of_pos, countP_zip_plain _ (referenceBlock_ne _),
      countP_zip_plain _ (referenceBlock_ne _)]
    simp
  · intro _ h
    refine ⟨hall h, ?_⟩
    unfold blockInsertions
    rw [hall h]
    exact countP_zip_plain _ (referenceBlock_ne _) _

/-! ## C6: the serialiser -/

/-- The loop of `String` over the messages appends one message part per message. -/
theorem foldl_messages (msgs : List Message) (sb : String) :
    msgs.foldl
      (fun sb msg =>
        (if msg.Role = "You" then sb ++ "## You\n\n" else sb ++ "### Response\n\n")
          ++ (msg.Content ++ "\n\n"))
      sb = sb ++ String.join (msgs.map messagePart) := by
  have hf : (fun (sb : String) (msg : Message) =>
        (if msg.Role = "You" then sb ++ "## You\n\n" else sb ++ "### Response\n\n")
          ++ (msg.Content ++ "\n\n")) = (fun sb msg => sb ++ messagePart msg) := by
    funext sb msg
    unfold messagePart
    split <;> simp [String.append_assoc]
  rw [hf]
  exact foldl_append_string messagePart msgs sb

/-- The string that `String` builds is the front-matter part, the title part and
the message parts, in this order. -/
theorem ConversationString_parts (c : Conversation) (iter : List (String × String)) :
    ConversationString c iter =
      frontMatterPart c iter ++ titlePart c ++ String.join (c.Messages.map messagePart) := by
  unfold ConversationString
  simp only []
  rw [foldl_messages]
  congr 1
  have hlen : c.Parameters.length > 0 ↔ c.Parameters ≠ [] := List.length_pos
  unfold frontMatterPart titlePart
  rw [foldl_append_string (fun kv : String × String => kv.1 ++ ": " ++ kv.2 ++ "\n")]
  by_cases hfm : c.Model ≠ "" ∨ c.Parameters ≠ []
  · have hfm2 : c.Model ≠ "" ∨ c.Parameters.length > 0 := by rwa [hlen]
    rw [if_pos hfm, if_pos hfm2]
    by_cases hm : c.Model = "" <;> by_cases ht : c.Title = "" <;>
      simp only [hm, ht, ne_eq, not_true_eq_false, not_false_eq_true, if_true, if_false] <;>
      apply String.ext <;> simp [String.data_append]
  · have hfm2 : ¬ (c.Model ≠ "" ∨ c.Parameters.length > 0) := by rwa [hlen]
    rw [if_neg hfm, if_neg hfm2]
    by_cases ht : c.Title = ""
    · simp only [ht, ne_eq, not_true_eq_false, if_false]
      apply String.ext
      simp [String.data_append]
    · simp only [ht, ne_eq, not_false_eq_true, if_true]

/-- C6. `String` emits the front-matter part, then the title part, then one part per
message in order: heading "## You" for role "You" and "### Response"
otherwise, a blank line, the content and a blank line. The front-matter part is
a block delimited by `---` lines if `Model` or `Parameters` is non-empty and is
empty otherwise, in which case the output is exactly the title part followed by
the message parts. -/
theorem ConversationString_eq (c : Conversation) (iter : List (String × String)) :
    ConversationString c iter =
      frontMatterPart c iter ++ titlePart c ++ String.join (c.Messages.map messagePart) ∧
    ((c.Model ≠ "" ∨ c.Parameters ≠ []) →
      frontMatterPart c iter =
        "---\n" ++ (if c.Model ≠ "" then "model: " ++ c.Model ++ "\n" else "")
          ++ String.join (iter.map (fun kv => kv.1 ++ ": " ++ kv.2 ++ "\n")) ++ "---\n\n") ∧
    (¬ (c.Model ≠ "" ∨ c.Parameters ≠ []) →
      frontMatterPart c iter = "" ∧
      ConversationString c iter = titlePart c ++ String.join (c.Messages.map messagePart)) := by
  have hmain := ConversationString_parts c iter
  refine ⟨hmain, ?_, ?_⟩
  · intro h
    unfold frontMatterPart
    rw [if_pos h]
  · intro h
    have h0 : frontMatterPart c iter = "" := by
      unfold frontMatterPart
      rw [if_neg h]
    refine ⟨h0, ?_⟩
    rw [hmain, h0]
    apply String.ext
    simp [String.data_append]

/-- Witness for C6: a conversation with a model has the front-matter block, one
without model and parameters has none. -/
theorem ConversationString_eq_witness :
    frontMatterPart
        { Title := "T", Prompt := "", Model := "gpt-4", ProjectDirectory := "", Parameters := [],
          Messages := [{ Role := "You", Content := "A" }],
          ReferenceMaterial := [], IncludeFiles := false, ResourceRequests := [] } []
      = "---\n" ++ (if ("gpt-4" : String) ≠ "" then "model: " ++ "gpt-4" ++ "\n" else "")
          ++ String.join (([] : List (String × String)).map (fun kv => kv.1 ++ ": " ++ kv.2 ++ "\n"))
          ++ "---\n\n" :=
  (ConversationString_eq _ []).2.1 (by decide)

/-! ## The parse loop, line by line -/

/-- The resource-request block changes no field other than `ResourceRequests`. -/
theorem resourceLine_fields (conv : Conversation) (line : String) :
    (resourceLine conv line).Title = conv.Title ∧
    (resourceLine conv line).Model = conv.Model ∧
    (resourceLine conv line).ProjectDirectory = conv.ProjectDirectory ∧
    (resourceLine conv line).Parameters = conv.Parameters ∧
    (resourceLine conv line).Messages = conv.Messages ∧
    (resourceLine conv line).IncludeFiles = conv.IncludeFiles := by
  unfold resourceLine
  split_ifs <;> simp

/-- Closing the last turn appends the pending message. -/
theorem closeLast_messages (st : ParseState) :
    (closeLast st).Messages = st.conv.Messages ++ pending st := by
  unfold closeLast pending
  by_cases h : st.currentRole ≠ "" ∧ st.currentContent.length > 0
  · rw [if_pos h, if_pos h]
    simp only []
    split_ifs <;> rfl
  · rw [if_neg h, if_neg h, List.append_nil]

/-- Outside front matter, a line that is no delimiter, title or heading is
recorded as a resource request if it is one and accumulated if a turn is open. -/
theorem parseLine_content (st : ParseState) (line : String)
    (hfm : st.inFrontMatter = false) (hl : contentLine line) :
    parseLine st line =
      { st with conv := resourceLine st.conv line,
                currentContent :=
                  if st.currentRole ≠ "" then st.currentContent ++ (line ++ "\n")
                  else st.currentContent } := by
  obtain ⟨h1, h2, h3, h4⟩ := hl
  unfold parseLine
  simp only [h1, hfm, h2, h3, h4, if_false, Bool.false_eq_true]
  split_ifs <;> rfl

/-- Outside front matter a line that begins with `# ` sets the title. -/
theorem parseLine_title (st : ParseState) (line : String)
    (hfm : st.inFrontMatter = false) (h1 : line ≠ "---") (h2 : HasPrefix line "# " = true) :
    parseLine st line =
      { st with conv := { resourceLine st.conv line with Title := TrimPrefix line "# " } } := by
  unfold parseLine
  simp only [h1, hfm, h2, if_false, if_true, Bool.false_eq_true]

/-- Outside front matter a heading line closes the open turn, if it has content,
and opens the turn of its role. -/
theorem parseLine_heading (st : ParseState) (line : String) (role : String)
    (hfm : st.inFrontMatter = false) (h1 : line ≠ "---") (h2 : HasPrefix line "# " = false)
    (h3 : (HasPrefix line "## You" = true ∧ role = "You") ∨
      (HasPrefix line "## You" = false ∧ HasPrefix line "### Response" = true ∧ role = "Response")) :
    (parseLine st line).currentRole = role ∧
    (parseLine st line).currentContent =
      (if st.currentRole ≠ "" ∧ st.currentContent.length > 0 then "" else st.currentContent) ∧
    (parseLine st line).inFrontMatter = false ∧
    (parseLine st line).conv.Messages = st.conv.Messages ++ pending st ∧
    (parseLine st line).conv.Title = st.conv.Title ∧
    (parseLine st line).conv.Model = st.conv.Model ∧
    (parseLine st line).conv.ProjectDirectory = st.conv.ProjectDirectory ∧
    (parseLine st line).conv.Parameters = st.conv.Parameters := by
  have hr := resourceLine_fields st.conv line
  unfold parseLine pending
  rcases h3 with ⟨h3, rfl⟩ | ⟨h3, h4, rfl⟩
  · simp only [h1, hfm, h2, h3, if_false, if_true, Bool.false_eq_true]
    split_ifs <;> simp [hr]
  · simp only [h1, hfm, h2, h3, h4, if_false, if_true, Bool.false_eq_true]
    split_ifs <;> simp [hr]


/-- The newline character is white space. -/
theorem isSpace_newline : isSpace '\n' = true := by decide

/-- Trimming ignores one more white-space character at the end. -/
theorem trimChars_append_space (l : List Char) (c : Char) (hc : isSpace c = true) :
    trimChars (l ++ [c]) = trimChars l := by
  unfold trimChars
  by_cases hall : ∀ x ∈ l, isSpace x = true
  · have h1 : l.dropWhile isSpace = [] := List.dropWhile_eq_nil_iff.mpr hall
    have h2 : (l ++ [c]).dropWhile isSpace = [] := by
      apply List.dropWhile_eq_nil_iff.mpr
      intro x hx
      rcases List.mem_append.mp hx with hx | hx
      · exact hall x hx
      · rw [List.mem_singleton.mp hx]; exact hc
    rw [h1, h2]
  · have h1 : (l ++ [c]).dropWhile isSpace = l.dropWhile isSpace ++ [c] := by
      induction l with
      | nil => simp at hall
      | cons a l ih =>
        by_cases ha : isSpace a = true
        · simp only [List.cons_append, List.dropWhile_cons, ha, if_true]
          apply ih
          intro h
          apply hall
          intro x hx
          rcases List.mem_cons.mp hx with rfl | hx
          · exact ha
          · exact h x hx
        · simp [List.dropWhile_cons, ha]
    rw [h1, List.reverse_append, List.reverse_singleton, List.singleton_append,
      List.dropWhile_cons, if_pos hc]

/-- The characters of the accumulator loop of `String.intercalate`. -/
theorem intercalate_go_data (s acc : String) (l : List String) :
    (String.intercalate.go acc s l).data =
      acc.data ++ (l.map (fun a => s.data ++ a.data)).flatten := by
  induction l generalizing acc with
  | nil => simp [String.intercalate.go]
  | cons a l ih =>
    simp [String.intercalate.go, ih, String.data_append]

/-- The characters of the buffer of accumulated lines. -/
theorem bufferOf_data (ls : List String) :
    (bufferOf ls).data = (ls.map (fun l => l.data ++ ['\n'])).flatten := by
  unfold bufferOf
  rw [String.join_eq]
  simp only [List.map_map]
  congr 1

/-- The buffer of accumulated lines is the lines joined by newlines, followed by a newline. -/
theorem bufferOf_data_intercalate (ls : List String) (h : ls ≠ []) :
    (bufferOf ls).data = (String.intercalate "\n" ls).data ++ ['\n'] := by
  rw [bufferOf_data]
  cases ls with
  | nil => exact absurd rfl h
  | cons a l =>
    simp only [String.intercalate, intercalate_go_data, List.map_cons, List.flatten_cons]
    clear h
    induction l generalizing a with
    | nil => simp
    | cons b l ih =>
      have ih2 := ih b
      simp only [List.map_cons, List.flatten_cons, List.append_assoc] at ih2 ⊢
      rw [ih2]

/-- The trimmed buffer is the trimmed join of the lines. -/
theorem TrimSpace_bufferOf (ls : List String) (h : ls ≠ []) :
    TrimSpace (bufferOf ls) = TrimSpace (String.intercalate "\n" ls) := by
  unfold TrimSpace
  rw [bufferOf_data_intercalate ls h, trimChars_append_space _ _ isSpace_newline]

/-- The buffer is not empty once a line was accumulated. -/
theorem bufferOf_length_pos (ls : List String) (h : ls ≠ []) : (bufferOf ls).length > 0 := by
  have h1 : (bufferOf ls).length = (bufferOf ls).data.length := rfl
  rw [h1, bufferOf_data_intercalate ls h]
  simp

/-- No accumulated line, empty buffer. -/
theorem bufferOf_nil : bufferOf [] = "" := rfl

/-- The buffer begins with the first accumulated line and a newline. -/
theorem bufferOf_cons (l : String) (ls : List String) :
    bufferOf (l :: ls) = (l ++ "\n") ++ bufferOf ls := by
  apply String.ext
  simp [bufferOf_data, String.data_append]

/-- Inside an open turn and outside front matter, content lines are accumulated
into the buffer; role, messages, title and front-matter fields are unchanged. -/
theorem content_fold (ls : List String) (st : ParseState)
    (hfm : st.inFrontMatter = false) (hrole : st.currentRole ≠ "")
    (hls : ∀ l ∈ ls, contentLine l) :
    (ls.foldl parseLine st).currentRole = st.currentRole ∧
    (ls.foldl parseLine st).currentContent = st.currentContent ++ bufferOf ls ∧
    (ls.foldl parseLine st).inFrontMatter = false ∧
    (ls.foldl parseLine st).conv.Messages = st.conv.Messages ∧
    (ls.foldl parseLine st).conv.Title = st.conv.Title ∧
    (ls.foldl parseLine st).conv.Model = st.conv.Model ∧
    (ls.foldl parseLine st).conv.ProjectDirectory = st.conv.ProjectDirectory ∧
    (ls.foldl parseLine st).conv.Parameters = st.conv.Parameters := by
  induction ls generalizing st with
  | nil =>
    simp only [List.foldl_nil, bufferOf_nil, true_and, and_true, hfm]
    apply String.ext; simp [String.data_append]
  | cons l ls ih =>
    have hl : contentLine l := hls l (List.mem_cons_self _ _)
    have hr := resourceLine_fields st.conv l
    have hstep := parseLine_content st l hfm hl
    rw [if_pos hrole] at hstep
    have ih2 := ih (parseLine st l) (by rw [hstep]; exact hfm) (by rw [hstep]; exact hrole)
      (fun x hx => hls x (List.mem_cons_of_mem _ hx))
    simp only [List.foldl_cons]
    obtain ⟨h1, h2, h3, h4, h5, h6, h7, h8⟩ := ih2
    refine ⟨?_, ?_, h3, ?_, ?_, ?_, ?_, ?_⟩
    · rw [h1, hstep]
    · rw [h2, hstep, bufferOf_cons, String.append_assoc]
    · rw [h4, hstep]; exact hr.2.2.2.2.1
    · rw [h5, hstep]; exact hr.1
    · rw [h6, hstep]; exact hr.2.1
    · rw [h7, hstep]; exact hr.2.2.1
    · rw [h8, hstep]; exact hr.2.2.2.1

/-- The heading of a turn is a heading line of its role. -/
theorem heading_contentLine_facts (t : Turn) :
    t.heading ≠ "---" ∧ HasPrefix t.heading "# " = false ∧
    ((HasPrefix t.heading "## You" = true ∧ t.role = "You") ∨
      (HasPrefix t.heading "## You" = false ∧ HasPrefix t.heading "### Response" = true ∧
        t.role = "Response")) := by
  unfold Turn.heading Turn.role
  cases t.user
  · refine ⟨by decide, by decide, Or.inr ⟨by decide, by decide, ?_⟩⟩
    simp
  · refine ⟨by decide, by decide, Or.inl ⟨by decide, ?_⟩⟩
    simp

/-- The role of a turn is not the empty role. -/
theorem role_ne_empty (t : Turn) : t.role ≠ "" := by
  unfold Turn.role
  cases t.user <;> decide

/-- The pass over a sequence of turns with non-empty content appends one message
per turn to the messages closed or pending before it, and leaves the title and
the front-matter fields unchanged. -/
theorem turns_fold (ts : List Turn) (st : ParseState) (hwf : wellFormed st)
    (hts : ∀ t ∈ ts, t.lines ≠ [] ∧ ∀ l ∈ t.lines, contentLine l) :
    wellFormed ((turnLines ts).foldl parseLine st) ∧
    ((turnLines ts).foldl parseLine st).conv.Messages
        ++ pending ((turnLines ts).foldl parseLine st)
      = st.conv.Messages ++ pending st ++ ts.map Turn.message ∧
    ((turnLines ts).foldl parseLine st).conv.Title = st.conv.Title ∧
    ((turnLines ts).foldl parseLine st).conv.Model = st.conv.Model ∧
    ((turnLines ts).foldl parseLine st).conv.ProjectDirectory = st.conv.ProjectDirectory ∧
    ((turnLines ts).foldl parseLine st).conv.Parameters = st.conv.Parameters := by
  induction ts generalizing st with
  | nil => simp [turnLines, hwf]
  | cons t ts ih =>
    obtain ⟨hlines, hcontent⟩ := hts t (List.mem_cons_self _ _)
    obtain ⟨hne, hnt, hhead⟩ := heading_contentLine_facts t
    obtain ⟨a1, a2, a3, a4, a5, a6, a7, a8⟩ :=
      parseLine_heading st t.heading t.role hwf.1 hne hnt hhead
    have hbuf : (parseLine st t.heading).currentContent = "" := by
      rw [a2]
      by_cases hc : st.currentRole ≠ "" ∧ st.currentContent.length > 0
      · rw [if_pos hc]
      · rw [if_neg hc]
        by_cases hr : st.currentRole = ""
        · exact hwf.2 hr
        · have hlen : ¬ st.currentContent.length > 0 := fun h => hc ⟨hr, h⟩
          have h0 : st.currentContent.data.length = 0 := by
            have : st.currentContent.length = st.currentContent.data.length := rfl
            omega
          apply String.ext
          exact List.length_eq_zero.mp h0
    obtain ⟨b1, b2, b3, b4, b5, b6, b7, b8⟩ :=
      content_fold t.lines (parseLine st t.heading) a3 (by rw [a1]; exact role_ne_empty t)
        hcontent
    have hwf2 : wellFormed (t.lines.foldl parseLine (parseLine st t.heading)) := by
      refine ⟨b3, ?_⟩
      intro h
      rw [b1, a1] at h
      exact absurd h (role_ne_empty t)
    have hpend : pending (t.lines.foldl parseLine (parseLine st t.heading)) = [t.message] := by
      unfold pending Turn.message
      rw [b1, b2, a1, hbuf]
      have he : ("" : String) ++ bufferOf t.lines = bufferOf t.lines := by
        apply String.ext; simp [String.data_append]
      rw [he, if_pos ⟨role_ne_empty t, bufferOf_length_pos _ hlines⟩,
        TrimSpace_bufferOf _ hlines]
    obtain ⟨c1, c2, c3, c4, c5, c6⟩ :=
      ih (t.lines.foldl parseLine (parseLine st t.heading)) hwf2
        (fun x hx => hts x (List.mem_cons_of_mem _ hx))
    simp only [turnLines, List.foldl_cons, List.foldl_append, List.map_cons]
    refine ⟨c1, ?_, ?_, ?_, ?_, ?_⟩
    · rw [c2, hpend, b4, a4]
      simp
    · rw [c3, b5, a5]
    · rw [c4, b6, a6]
    · rw [c5, b7, a7]
    · rw [c6, b8, a8]

/-- A string begins with its first part. -/
theorem HasPrefix_append (p s : String) : HasPrefix (p ++ s) p = true := by
  unfold HasPrefix
  rw [String.data_append]
  exact List.isPrefixOf_iff_prefix.mpr (List.prefix_append _ _)

/-- Trimming the first part of a string leaves the rest. -/
theorem TrimPrefix_append (p s : String) : TrimPrefix (p ++ s) p = s := by
  unfold TrimPrefix
  rw [if_pos (HasPrefix_append p s)]
  apply String.ext
  simp [String.data_append]

/-- A title line is not the front-matter delimiter. -/
theorem title_line_ne (t : String) : "# " ++ t ≠ "---" := by
  intro h
  have h2 := congrArg String.data h
  rw [String.data_append] at h2
  have h3 : ("# " : String).data = ['#', ' '] := rfl
  have h4 : ("---" : String).data = ['-', '-', '-'] := rfl
  rw [h3, h4] at h2
  simp at h2

/-- The pass over an optional title line sets the title and nothing else. -/
theorem titleLines_fold (title : Option String) (st : ParseState) (hwf : wellFormed st) :
    wellFormed ((titleLines title).foldl parseLine st) ∧
    ((titleLines title).foldl parseLine st).conv.Messages = st.conv.Messages ∧
    pending ((titleLines title).foldl parseLine st) = pending st ∧
    ((titleLines title).foldl parseLine st).conv.Title = title.getD st.conv.Title ∧
    ((titleLines title).foldl parseLine st).conv.Model = st.conv.Model ∧
    ((titleLines title).foldl parseLine st).conv.ProjectDirectory = st.conv.ProjectDirectory ∧
    ((titleLines title).foldl parseLine st).conv.Parameters = st.conv.Parameters := by
  cases title with
  | none => simp [titleLines, hwf]
  | some t =>
    have hr := resourceLine_fields st.conv ("# " ++ t)
    simp only [titleLines, List.foldl_cons, List.foldl_nil, Option.getD_some]
    rw [parseLine_title st _ hwf.1 (title_line_ne t) (HasPrefix_append _ _)]
    refine ⟨hwf, hr.2.2.2.2.1, rfl, TrimPrefix_append _ _, hr.2.1, hr.2.2.1, hr.2.2.2.1⟩

/-- A list with a non-blank line is not empty. -/
theorem nonblank_ne_nil (ls : List String) (h : ∃ l ∈ ls, TrimSpace l ≠ "") : ls ≠ [] := by
  obtain ⟨l, hl, _⟩ := h
  exact List.ne_nil_of_mem hl

/-- Closing the last turn changes neither the title, the front-matter fields nor
the resource requests. -/
theorem closeLast_fields (st : ParseState) :
    (closeLast st).Title = st.conv.Title ∧
    (closeLast st).Model = st.conv.Model ∧
    (closeLast st).ProjectDirectory = st.conv.ProjectDirectory ∧
    (closeLast st).Parameters = st.conv.Parameters ∧
    (closeLast st).ResourceRequests = st.conv.ResourceRequests := by
  unfold closeLast
  by_cases h : st.currentRole ≠ "" ∧ st.currentContent.length > 0
  · rw [if_pos h]
    simp only []
    split_ifs <;> exact ⟨rfl, rfl, rfl, rfl, rfl⟩
  · rw [if_neg h]
    exact ⟨rfl, rfl, rfl, rfl, rfl⟩

/-- The initial state is outside front matter, with no turn open and an empty buffer. -/
theorem wellFormed_init : wellFormed initState := ⟨rfl, fun _ => rfl⟩

/-! ## C2: the scanned lines of a document of turns -/

/-- Let the lines that the scanner delivers for a document be an optional
title line `# <title>` followed by `k ≥ 1` turns, each a heading line `## You`
or `### Response` followed by content lines of which at least one is non-blank
and none equals `---` or begins with `# `, `## You` or `### Response`. Then
`ParseContent` succeeds with exactly `k` messages, whose roles follow the
headings and whose contents are each turn's lines joined by newlines and
trimmed, and with `Title` equal to the title text (empty without title line). -/
theorem turns_scanned (d : String) (title : Option String) (ts : List Turn)
    (hd : scanLines d = titleLines title ++ turnLines ts)
    (hk : 1 ≤ ts.length)
    (hts : ∀ t ∈ ts, (∃ l ∈ t.lines, TrimSpace l ≠ "") ∧ ∀ l ∈ t.lines, contentLine l) :
    ∃ c, ParseContent d = Except.ok c ∧
      c.Messages.length = ts.length ∧
      c.Messages.map (fun m => m.Role) = ts.map (fun t => if t.user then "You" else "Response") ∧
      c.Messages.map (fun m => m.Content) =
        ts.map (fun t => TrimSpace (String.intercalate "\n" t.lines)) ∧
      c.Title = title.getD "" := by
  obtain ⟨t1, t2, t3, t4, _, _, _⟩ := titleLines_fold title initState wellFormed_init
  obtain ⟨u1, u2, u3, _, _, _⟩ :=
    turns_fold ts ((titleLines title).foldl parseLine initState) t1
      (fun t ht => ⟨nonblank_ne_nil _ (hts t ht).1, (hts t ht).2⟩)
  have hmsgs : (closeLast (parseLoop (scanLines d))).Messages = ts.map Turn.message := by
    rw [closeLast_messages]
    unfold parseLoop
    rw [hd, List.foldl_append, u2, t2, t3]
    rfl
  have htitle : (closeLast (parseLoop (scanLines d))).Title = title.getD "" := by
    rw [(closeLast_fields _).1]
    unfold parseLoop
    rw [hd, List.foldl_append, u3, t4]
    rfl
  refine ⟨closeLast (parseLoop (scanLines d)), ?_, ?_, ?_, ?_, htitle⟩
  · unfold ParseContent finish
    have hlen : (closeLast (parseLoop (scanLines d))).Messages.length ≠ 0 := by
      rw [hmsgs, List.length_map]
      omega
    simp only [hlen, if_false]
  · rw [hmsgs, List.length_map]
  · rw [hmsgs, List.map_map]
    rfl
  · rw [hmsgs, List.map_map]
    rfl

/-! ## C9: the `+files` flag -/

/-- C9 fails on the code. A user turn whose content contains `+files` and that is
closed by a following `## You` heading leaves `IncludeFiles` false: the
`## You` branch does not make the check that the `### Response` branch and the
end-of-input block make. The same turn closed by `### Response` or by the end
of input sets the flag. -/
theorem ParseContent_files_closed_by_You :
    ParseContent "## You\n+files\n## You\nhi" =
      Except.ok
        { Title := "", Prompt := "", Model := "", ProjectDirectory := "", Parameters := [],
          Messages := [{ Role := "You", Content := "+files" }, { Role := "You", Content := "hi" }],
          ReferenceMaterial := [], IncludeFiles := false, ResourceRequests := [] } ∧
    ParseContent "## You\n+files\n### Response\nhi" =
      Except.ok
        { Title := "", Prompt := "", Model := "", ProjectDirectory := "", Parameters := [],
          Messages := [{ Role := "You", Content := "+files" },
            { Role := "Response", Content := "hi" }],
          ReferenceMaterial := [], IncludeFiles := true, ResourceRequests := [] } ∧
    ParseContent "## You\n+files" =
      Except.ok
        { Title := "", Prompt := "", Model := "", ProjectDirectory := "", Parameters := [],
          Messages := [{ Role := "You", Content := "+files" }],
          ReferenceMaterial := [], IncludeFiles := true, ResourceRequests := [] } :=
  ⟨rfl, rfl, rfl⟩

/-! ## C8: front matter -/

/-- The code for a front-matter line, in terms of the key and the value of the line. -/
theorem frontMatterLine_eq (conv : Conversation) (line : String) :
    frontMatterLine conv line =
      match keyValue line with
      | none => conv
      | some (key, value) =>
        if key = "model" then { conv with Model := value }
        else if key = "project_directory" then { conv with ProjectDirectory := value }
        else { conv with Parameters := mapSet conv.Parameters key value } := by
  unfold frontMatterLine SplitN keyValue
  have hspan : line.data.span (fun c => c != ':') =
      (line.data.takeWhile (fun c => c != ':'), line.data.dropWhile (fun c => c != ':')) :=
    List.span_eq_take_drop _ _
  rw [hspan]
  by_cases hmem : ':' ∈ line.data
  · rw [if_pos hmem]
    have hne : line.data.dropWhile (fun c => c != ':') ≠ [] := by
      intro h
      have := List.dropWhile_eq_nil_iff.mp h ':' hmem
      simp at this
    cases hd : line.data.dropWhile (fun c => c != ':') with
    | nil => exact absurd hd hne
    | cons x xs => simp
  · rw [if_neg hmem]
    have hnil : line.data.dropWhile (fun c => c != ':') = [] := by
      apply List.dropWhile_eq_nil_iff.mpr
      intro x hx
      have : x ≠ ':' := fun h => hmem (h ▸ hx)
      simpa using this
    rw [hnil]

/-- No entry, no value. -/
theorem lastValue_nil (key : String) : lastValue [] key = none := rfl

/-- The last value for a key, one entry further to the front. -/
theorem lastValue_cons (e : String × String) (es : List (String × String)) (key : String) :
    lastValue (e :: es) key =
      if e.1 = key then some ((lastValue es key).getD e.2) else lastValue es key := by
  unfold lastValue
  by_cases h : e.1 = key
  · have hb : (e.1 == key) = true := by simpa using h
    rw [if_pos h]
    simp only [List.filter_cons, hb, if_true, List.getLast?_cons]
    cases (es.filter (fun e => e.1 == key)).getLast? <;> simp
  · have hb : (e.1 == key) = false := by simpa using h
    rw [if_neg h]
    simp only [List.filter_cons, hb, Bool.false_eq_true, if_false]

/-- After every entry of a key is replaced, the key has the new value. -/
theorem lookup_replace_self (m : List (String × String)) (key value : String)
    (h : m.any (fun p => p.1 == key) = true) :
    (m.map (fun p => if p.1 == key then (key, value) else p)).lookup key = some value := by
  induction m with
  | nil => simp at h
  | cons p m ih =>
    obtain ⟨k, v⟩ := p
    by_cases hk : k = key
    · subst hk
      simp [List.lookup_cons]
    · have hb : (key == k) = false := by
        have : ¬ key = k := fun h => hk h.symm
        simpa using this
      have hany : m.any (fun p => p.1 == key) = true := by
        simpa [hk] using h
      have hstep : (List.map (fun p : String × String => if p.1 == key then (key, value) else p)
          ((k, v) :: m)) =
          (k, v) :: List.map (fun p : String × String => if p.1 == key then (key, value) else p) m := by
        simp [hk]
      rw [hstep, List.lookup_cons, hb]
      exact ih hany

/-- A key that no entry has is not found. -/
theorem lookup_none_of_not_any (m : List (String × String)) (key : String)
    (h : ¬ m.any (fun p => p.1 == key) = true) : m.lookup key = none := by
  induction m with
  | nil => rfl
  | cons p m ih =>
    obtain ⟨k, v⟩ := p
    have hk : ¬ k = key := by
      intro hk; apply h; simp [hk]
    have hb : (key == k) = false := by
      have : ¬ key = k := fun h => hk h.symm
      simpa using this
    rw [List.lookup_cons, hb]
    apply ih
    intro hany
    apply h
    simp only [List.any_cons, hany, Bool.or_true]

/-- After `m[key] = value` the key has the value. -/
theorem lookup_mapSet_self (m : List (String × String)) (key value : String) :
    (mapSet m key value).lookup key = some value := by
  unfold mapSet
  by_cases h : m.any (fun p => p.1 == key) = true
  · rw [if_pos h]
    exact lookup_replace_self m key value h
  · rw [if_neg h, List.lookup_append, lookup_none_of_not_any m key h]
    simp [List.lookup_cons]

/-- Replacing the entries of a key does not change the other keys. -/
theorem lookup_replace_ne (m : List (String × String)) (key value k : String) (hk : k ≠ key) :
    (m.map (fun p => if p.1 == key then (key, value) else p)).lookup k = m.lookup k := by
  have hb : (k == key) = false := by simpa using hk
  induction m with
  | nil => rfl
  | cons p m ih =>
    obtain ⟨k1, v1⟩ := p
    by_cases h1 : k1 = key
    · subst h1
      have hstep : (List.map (fun p : String × String => if p.1 == k1 then (k1, value) else p)
          ((k1, v1) :: m)) =
          (k1, value) :: List.map (fun p : String × String => if p.1 == k1 then (k1, value) else p) m := by
        simp
      rw [hstep, List.lookup_cons, List.lookup_cons, hb]
      exact ih
    · have hstep : (List.map (fun p : String × String => if p.1 == key then (key, value) else p)
          ((k1, v1) :: m)) =
          (k1, v1) :: List.map (fun p : String × String => if p.1 == key then (key, value) else p) m := by
        simp [h1]
      rw [hstep, List.lookup_cons, List.lookup_cons]
      cases (k == k1)
      · exact ih
      · rfl

/-- The assignment `m[key] = value` does not change the other keys. -/
theorem lookup_mapSet_ne (m : List (String × String)) (key value k : String) (hk : k ≠ key) :
    (mapSet m key value).lookup k = m.lookup k := by
  have hb : (k == key) = false := by simpa using hk
  unfold mapSet
  split_ifs
  · exact lookup_replace_ne m key value k hk
  · rw [List.lookup_append]
    simp [List.lookup_cons, hb]

/-- Every entry after `m[key] = value` was there before or is the new entry. -/
theorem mem_mapSet (m : List (String × String)) (key value : String) (p : String × String)
    (hp : p ∈ mapSet m key value) : p ∈ m ∨ p = (key, value) := by
  unfold mapSet at hp
  split_ifs at hp
  · obtain ⟨q, hq, rfl⟩ := List.mem_map.mp hp
    by_cases h : (q.1 == key) = true
    · right; simp [h]
    · left; simpa [h] using hq
  · rcases List.mem_append.mp hp with h | h
    · exact Or.inl h
    · exact Or.inr (List.mem_singleton.mp h)

/-- A line `---` toggles `inFrontMatter` and does nothing else. -/
theorem parseLine_delimiter (st : ParseState) :
    parseLine st "---" = { st with inFrontMatter := !st.inFrontMatter } := by
  unfold parseLine
  cases h : st.inFrontMatter <;> simp [h]

/-- Inside front matter a line other than `---` is read as a key and a value. -/
theorem parseLine_inside (st : ParseState) (line : String)
    (hfm : st.inFrontMatter = true) (hl : line ≠ "---") :
    parseLine st line = { st with conv := frontMatterLine st.conv line } := by
  unfold parseLine
  simp [hl, hfm]

/-- Outside front matter a line other than `---` leaves the front-matter fields unchanged. -/
theorem parseLine_outside (st : ParseState) (line : String)
    (hfm : st.inFrontMatter = false) (hl : line ≠ "---") :
    (parseLine st line).inFrontMatter = false ∧
    (parseLine st line).conv.Model = st.conv.Model ∧
    (parseLine st line).conv.ProjectDirectory = st.conv.ProjectDirectory ∧
    (parseLine st line).conv.Parameters = st.conv.Parameters := by
  have hr := resourceLine_fields st.conv line
  unfold parseLine
  simp only [hl, hfm, if_false, Bool.false_eq_true]
  split_ifs <;> simp [hr]

/-- After the pass over the lines, the model, the project directory and the
parameters hold the last values that the front-matter lines give them. -/
theorem frontMatter_fold (lines : List String) (st : ParseState) :
    (lines.foldl parseLine st).conv.Model =
      (lastValue ((frontMatterLines st.inFrontMatter lines).filterMap keyValue) "model").getD
        st.conv.Model ∧
    (lines.foldl parseLine st).conv.ProjectDirectory =
      (lastValue ((frontMatterLines st.inFrontMatter lines).filterMap keyValue)
        "project_directory").getD st.conv.ProjectDirectory ∧
    (∀ k, k ≠ "model" → k ≠ "project_directory" →
      (lines.foldl parseLine st).conv.Parameters.lookup k =
        (lastValue ((frontMatterLines st.inFrontMatter lines).filterMap keyValue) k).or
          (st.conv.Parameters.lookup k)) ∧
    ((∀ p ∈ st.conv.Parameters, p.1 ≠ "model" ∧ p.1 ≠ "project_directory") →
      ∀ p ∈ (lines.foldl parseLine st).conv.Parameters,
        p.1 ≠ "model" ∧ p.1 ≠ "project_directory") := by
  induction lines generalizing st with
  | nil => simp [frontMatterLines, lastValue_nil]
  | cons l ls ih =>
    simp only [List.foldl_cons]
    by_cases hl : l = "---"
    · subst hl
      have ih2 := ih (parseLine st "---")
      rw [parseLine_delimiter] at ih2
      rw [parseLine_delimiter]
      simpa [frontMatterLines] using ih2
    · cases hfm : st.inFrontMatter with
      | false =>
        obtain ⟨o1, o2, o3, o4⟩ := parseLine_outside st l hfm hl
        have ih2 := ih (parseLine st l)
        rw [o1, o2, o3, o4] at ih2
        simpa [frontMatterLines, hl] using ih2
      | true =>
        have hstep := parseLine_inside st l hfm hl
        have ih2 := ih (parseLine st l)
        have hfm2 : (parseLine st l).inFrontMatter = true := by rw [hstep]; exact hfm
        rw [hfm2] at ih2
        have hconv : (parseLine st l).conv = frontMatterLine st.conv l := by rw [hstep]
        rw [hconv, frontMatterLine_eq] at ih2
        simp only [frontMatterLines, hl, if_false, if_true]
        cases hkv : keyValue l with
        | none =>
          rw [hkv] at ih2
          simpa [List.filterMap_cons, hkv] using ih2
        | some kv =>
          obtain ⟨key, value⟩ := kv
          rw [hkv] at ih2
          simp only [List.filterMap_cons, hkv]
          obtain ⟨i1, i2, i3, i4⟩ := ih2
          by_cases hm : key = "model"
          · subst hm
            simp only [if_true] at i1 i2 i3 i4
            refine ⟨?_, ?_, ?_, i4⟩
            · rw [i1, lastValue_cons]; simp
            · rw [i2, lastValue_cons]; simp
            · intro k h1 h2
              rw [i3 k h1 h2, lastValue_cons]
              simp [Ne.symm h1]
          · by_cases hp : key = "project_directory"
            · subst hp
              simp only [hm, if_false, if_true] at i1 i2 i3 i4
              refine ⟨?_, ?_, ?_, i4⟩
              · rw [i1, lastValue_cons]; simp
              · rw [i2, lastValue_cons]; simp
              · intro k h1 h2
                rw [i3 k h1 h2, lastValue_cons]
                simp [Ne.symm h2]
            · simp only [hm, hp, if_false] at i1 i2 i3 i4
              refine ⟨?_, ?_, ?_, ?_⟩
              · rw [i1, lastValue_cons]; simp [hm]
              · rw [i2, lastValue_cons]; simp [hp]
              · intro k h1 h2
                rw [i3 k h1 h2, lastValue_cons]
                by_cases hk : key = k
                · subst hk
                  rw [lookup_mapSet_self]
                  cases lastValue (List.filterMap keyValue (frontMatterLines true ls)) key <;>
                    simp
                · rw [lookup_mapSet_ne _ _ _ _ (Ne.symm hk)]
                  simp [hk]
              · intro hst
                apply i4
                intro p hp2
                rcases mem_mapSet _ _ _ _ hp2 with h | h
                · exact hst p h
                · rw [h]; exact ⟨hm, hp⟩

/-- A successful parse returns the conversation left by the pass, the last turn closed. -/
theorem ParseContent_ok (d : String) (c : Conversation) (h : ParseContent d = Except.ok c) :
    c = closeLast (parseLoop (scanLines d)) ∧ c.Messages.length ≠ 0 := by
  unfold ParseContent finish at h
  by_cases h0 : (closeLast (parseLoop (scanLines d))).Messages.length = 0
  · simp [h0] at h
  · simp only [h0, if_false] at h
    cases h
    exact ⟨rfl, h0⟩

/-- A line `a:b` whose part `a` has no colon has key `a` and value `b`, trimmed. -/
theorem keyValue_split (a b : String) (ha : ':' ∉ a.data) :
    keyValue (a ++ ":" ++ b) = some (TrimSpace a, TrimSpace b) := by
  have hdata : (a ++ ":" ++ b).data = a.data ++ ':' :: b.data := by
    simp [String.data_append]
  have hall : ∀ x ∈ a.data, (x != ':') = true := by
    intro x hx
    have : x ≠ ':' := fun h => ha (h ▸ hx)
    simpa using this
  unfold keyValue
  rw [hdata, if_pos (by simp)]
  have h1 : (a.data ++ ':' :: b.data).takeWhile (fun c => c != ':') = a.data := by
    rw [List.takeWhile_append_of_pos hall]
    simp
  have h2 : (a.data ++ ':' :: b.data).dropWhile (fun c => c != ':') = ':' :: b.data := by
    rw [List.dropWhile_append_of_pos hall]
    simp
  rw [h1, h2]
  rfl

/-- C8. For every document that parses successfully: a front-matter line that
contains a colon is split at its first colon into a trimmed key and a trimmed
value; `Model` is the value of the last front-matter line with key `model`,
`ProjectDirectory` that of the last with key `project_directory` (empty when
there is none); every other key is stored in `Parameters` with the value of the
last line that has it, as a string; and `Parameters` never contains the key
`model` or `project_directory`. -/
theorem ParseContent_frontMatter (d : String) (c : Conversation)
    (h : ParseContent d = Except.ok c) :
    c.Model =
      (lastValue ((frontMatterLines false (scanLines d)).filterMap keyValue) "model").getD "" ∧
    c.ProjectDirectory =
      (lastValue ((frontMatterLines false (scanLines d)).filterMap keyValue)
        "project_directory").getD "" ∧
    (∀ k, k ≠ "model" → k ≠ "project_directory" →
      c.Parameters.lookup k =
        lastValue ((frontMatterLines false (scanLines d)).filterMap keyValue) k) ∧
    (∀ p ∈ c.Parameters, p.1 ≠ "model" ∧ p.1 ≠ "project_directory") ∧
    (∀ a b : String, ':' ∉ a.data → keyValue (a ++ ":" ++ b) = some (TrimSpace a, TrimSpace b)) := by
  obtain ⟨hc, _⟩ := ParseContent_ok d c h
  obtain ⟨f1, f2, f3, f4⟩ := frontMatter_fold (scanLines d) initState
  obtain ⟨c1, c2, c3, c4, _⟩ := closeLast_fields (parseLoop (scanLines d))
  unfold parseLoop at c1 c2 c3 c4 hc
  refine ⟨?_, ?_, ?_, ?_, keyValue_split⟩
  · rw [hc, c2, f1]; rfl
  · rw [hc, c3, f2]; rfl
  · intro k h1 h2
    rw [hc, c4, f3 k h1 h2]
    have hinit : initState.inFrontMatter = false := rfl
    have hlook : List.lookup k initState.conv.Parameters = none := rfl
    rw [hinit, hlook]
    cases lastValue (List.filterMap keyValue (frontMatterLines false (scanLines d))) k <;> rfl
  · rw [hc, c4]
    apply f4
    intro p hp
    exact absurd hp (List.not_mem_nil p)

/-- Witness for C8: `model: gpt-4` in the opening block sets `Model` and leaves
"model" out of the parameters. -/
theorem ParseContent_frontMatter_witness :
    ({ Title := "", Prompt := "", Model := "gpt-4", ProjectDirectory := "",
       Parameters := [("temperature", "0.7")],
       Messages := [{ Role := "You", Content := "hi" }], ReferenceMaterial := [],
       IncludeFiles := false, ResourceRequests := [] } : Conversation).Model = "gpt-4" ∧
    ∀ p ∈ [(("temperature", "0.7") : String × String)],
      p.1 ≠ "model" ∧ p.1 ≠ "project_directory" :=
  ⟨(ParseContent_frontMatter "---\nmodel: gpt-4\ntemperature: 0.7\n---\n## You\nhi" _ rfl).1,
   (ParseContent_frontMatter "---\nmodel: gpt-4\ntemperature: 0.7\n---\n## You\nhi"
      { Title := "", Prompt := "", Model := "gpt-4", ProjectDirectory := "",
        Parameters := [("temperature", "0.7")],
        Messages := [{ Role := "You", Content := "hi" }], ReferenceMaterial := [],
        IncludeFiles := false, ResourceRequests := [] } rfl).2.2.2.1⟩

/-! ## C10: resource requests -/

/-- The resource-request block appends the requests of the line. -/
theorem resourceLine_requests (conv : Conversation) (line : String) :
    (resourceLine conv line).ResourceRequests = conv.ResourceRequests ++ lineRequests line := by
  unfold resourceLine lineRequests
  split_ifs <;> simp

/-- A front-matter line records no request. -/
theorem frontMatterLine_requests (conv : Conversation) (line : String) :
    (frontMatterLine conv line).ResourceRequests = conv.ResourceRequests := by
  rw [frontMatterLine_eq]
  cases keyValue line with
  | none => rfl
  | some kv =>
    obtain ⟨k, v⟩ := kv
    simp only []
    split_ifs <;> rfl

/-- Outside front matter a line other than `---` appends its requests. -/
theorem parseLine_requests (st : ParseState) (line : String)
    (hfm : st.inFrontMatter = false) (hl : line ≠ "---") :
    (parseLine st line).conv.ResourceRequests = st.conv.ResourceRequests ++ lineRequests line ∧
    (parseLine st line).inFrontMatter = false := by
  have hr := resourceLine_requests st.conv line
  unfold parseLine
  simp only [hl, hfm, if_false, Bool.false_eq_true]
  split_ifs <;> simp [hr]

/-- After the pass, the requests are those of the lines outside front matter, in line order. -/
theorem requests_fold (lines : List String) (st : ParseState) :
    (lines.foldl parseLine st).conv.ResourceRequests =
      st.conv.ResourceRequests ++ (outsideLines st.inFrontMatter lines).flatMap lineRequests := by
  induction lines generalizing st with
  | nil => simp [outsideLines]
  | cons l ls ih =>
    simp only [List.foldl_cons]
    rw [ih]
    by_cases hl : l = "---"
    · subst hl
      rw [parseLine_delimiter]
      simp [outsideLines]
    · cases hfm : st.inFrontMatter with
      | false =>
        obtain ⟨h1, h2⟩ := parseLine_requests st l hfm hl
        rw [h1, h2]
        simp [outsideLines, hl, List.flatMap_cons]
      | true =>
        rw [parseLine_inside st l hfm hl]
        simp [outsideLines, hl, hfm, frontMatterLine_requests]

/-- Trimming a leading part that is there leaves the remainder of the line. -/
theorem TrimPrefix_eq_remainder (line p : String) (h : HasPrefix line p = true) :
    TrimPrefix line p = remainder line p.data.length := by
  unfold TrimPrefix remainder
  rw [if_pos h]

/-- A line that is no directive yields no request; a directive line yields one
request, the one the specification describes. -/
theorem lineRequests_spec (line : String) :
    (isDirective line = false ∧ lineRequests line = []) ∨
    (isDirective line = true ∧ ∃ req, lineRequests line = [req] ∧ IsRequestOf line req) := by
  unfold isDirective lineRequests IsRequestOf
  by_cases h1 : HasPrefix line "+file " = true
  · right
    refine ⟨by simp [h1], _, by rw [if_pos h1], Or.inl ⟨h1, ?_⟩⟩
    rw [TrimPrefix_eq_remainder line _ h1]
    rfl
  · by_cases h2 : HasPrefix line "+url " = true
    · right
      refine ⟨by simp [h2], _, by rw [if_neg h1, if_pos h2], Or.inr (Or.inl ⟨h2, ?_⟩)⟩
      rw [TrimPrefix_eq_remainder line _ h2]
      rfl
    · by_cases h3 : HasPrefix line "+glob" = true
      · right
        refine ⟨by simp [h3], _, by rw [if_neg h1, if_neg h2, if_pos h3],
          Or.inr (Or.inr ⟨h3, _, rfl, ?_⟩)⟩
        intro q hq
        rw [hq]
        exact TrimPrefix_append _ _
      · left
        simp [h1, h2, h3]

/-- The requests of a list of lines match the directive lines among them one by one. -/
theorem requests_forall2 (ls : List String) :
    List.Forall₂ IsRequestOf (ls.filter isDirective) (ls.flatMap lineRequests) := by
  induction ls with
  | nil => simp
  | cons l ls ih =>
    rw [List.flatMap_cons]
    rcases lineRequests_spec l with ⟨h1, h2⟩ | ⟨h1, req, h2, h3⟩
    · rw [h2, List.filter_cons_of_neg (by simp [h1])]
      simpa using ih
    · rw [h2, List.filter_cons_of_pos h1]
      exact List.Forall₂.cons h3 ih

/-- A line that begins with a non-empty text begins with the first character of that text. -/
theorem HasPrefix_head (l p : String) (c : Char) (t : List Char) (hp : p.data = c :: t)
    (h : HasPrefix l p = true) : ∃ u, l.data = c :: u := by
  unfold HasPrefix at h
  rw [hp] at h
  cases hl : l.data with
  | nil => rw [hl] at h; simp [List.isPrefixOf] at h
  | cons x u =>
    rw [hl] at h
    simp only [List.isPrefixOf, Bool.and_eq_true, beq_iff_eq] at h
    exact ⟨u, by rw [h.1]⟩

/-- A directive line begins with a plus sign. -/
theorem directive_plus (line : String) (h : isDirective line = true) :
    ∃ u, line.data = '+' :: u := by
  unfold isDirective at h
  simp only [Bool.or_eq_true] at h
  rcases h with (h | h) | h
  · exact HasPrefix_head line _ '+' _ rfl h
  · exact HasPrefix_head line _ '+' _ rfl h
  · exact HasPrefix_head line _ '+' _ rfl h

/-- A line whose first character is neither a dash nor a hash is no delimiter,
title or heading. -/
theorem contentLine_of_head (line : String) (c : Char) (u : List Char)
    (h : line.data = c :: u) (h1 : c ≠ '-') (h2 : c ≠ '#') : contentLine line := by
  refine ⟨?_, ?_, ?_, ?_⟩
  · intro he
    rw [he] at h
    have : ("---" : String).data = '-' :: ['-', '-'] := rfl
    rw [this] at h
    exact h1 (List.cons.inj h).1.symm
  · unfold HasPrefix
    rw [h]
    have : ("# " : String).data = '#' :: [' '] := rfl
    rw [this]
    simp [List.isPrefixOf, Ne.symm h2]
  · unfold HasPrefix
    rw [h]
    have : ("## You" : String).data = '#' :: ['#', ' ', 'Y', 'o', 'u'] := rfl
    rw [this]
    simp [List.isPrefixOf, Ne.symm h2]
  · unfold HasPrefix
    rw [h]
    have : ("### Response" : String).data =
        '#' :: ['#', '#', ' ', 'R', 'e', 's', 'p', 'o', 'n', 's', 'e'] := rfl
    rw [this]
    simp [List.isPrefixOf, Ne.symm h2]

/-- A directive line is no delimiter, title or heading. -/
theorem directive_contentLine (line : String) (h : isDirective line = true) :
    contentLine line := by
  obtain ⟨u, hu⟩ := directive_plus line h
  exact contentLine_of_head line '+' u hu (by decide) (by decide)

/-- What one iteration does to the role, the buffer and the messages: nothing, or
it accumulates the line into the open turn, or it closes the open turn and
opens a turn. -/
theorem parseLine_cases (st : ParseState) (line : String) :
    ((parseLine st line).currentRole = st.currentRole ∧
      (parseLine st line).currentContent = st.currentContent ∧
      (parseLine st line).conv.Messages = st.conv.Messages) ∨
    (st.currentRole ≠ "" ∧ (parseLine st line).currentRole = st.currentRole ∧
      (parseLine st line).currentContent = st.currentContent ++ (line ++ "\n") ∧
      (parseLine st line).conv.Messages = st.conv.Messages) ∨
    (((parseLine st line).currentRole = "You" ∨ (parseLine st line).currentRole = "Response") ∧
      (parseLine st line).conv.Messages = st.conv.Messages ++ pending st ∧
      (parseLine st line).currentContent =
        if st.currentRole ≠ "" ∧ st.currentContent.length > 0 then "" else st.currentContent) := by
  by_cases hl : line = "---"
  · left
    rw [hl, parseLine_delimiter]
    exact ⟨rfl, rfl, rfl⟩
  · cases hfm : st.inFrontMatter with
    | true =>
      left
      rw [parseLine_inside st line hfm hl]
      refine ⟨rfl, rfl, ?_⟩
      rw [frontMatterLine_eq]
      cases keyValue line with
      | none => rfl
      | some kv =>
        obtain ⟨k, v⟩ := kv
        simp only []
        split_ifs <;> rfl
    | false =>
      have hr := resourceLine_fields st.conv line
      by_cases h2 : HasPrefix line "# " = true
      · left
        rw [parseLine_title st line hfm hl h2]
        exact ⟨rfl, rfl, hr.2.2.2.2.1⟩
      · have h2f : HasPrefix line "# " = false := by simpa using h2
        by_cases h3 : HasPrefix line "## You" = true
        · right; right
          obtain ⟨a1, a2, _, a4, _⟩ :=
            parseLine_heading st line "You" hfm hl h2f (Or.inl ⟨h3, rfl⟩)
          exact ⟨Or.inl a1, a4, a2⟩
        · have h3f : HasPrefix line "## You" = false := by simpa using h3
          by_cases h4 : HasPrefix line "### Response" = true
          · right; right
            obtain ⟨a1, a2, _, a4, _⟩ :=
              parseLine_heading st line "Response" hfm hl h2f (Or.inr ⟨h3f, h4, rfl⟩)
            exact ⟨Or.inr a1, a4, a2⟩
          · have h4f : HasPrefix line "### Response" = false := by simpa using h4
            rw [parseLine_content st line hfm ⟨hl, h2f, h3f, h4f⟩]
            by_cases hrole : st.currentRole ≠ ""
            · right; left
              rw [if_pos hrole]
              exact ⟨hrole, rfl, rfl, hr.2.2.2.2.1⟩
            · left
              rw [if_neg hrole]
              exact ⟨rfl, rfl, hr.2.2.2.2.1⟩

/-- A buffer that holds a line and its newline is not empty. -/
theorem length_pos_of_line (a line b : String) : (a ++ line ++ "\n" ++ b).length > 0 := by
  have h : (a ++ line ++ "\n" ++ b).length = (a ++ line ++ "\n" ++ b).data.length := rfl
  rw [h]
  simp [String.data_append]

/-- One iteration keeps an accumulated line: in the buffer, or in the message the
turn was closed into. -/
theorem lineKept_step (r line : String) (n : Nat) (hr : r ≠ "") (st : ParseState)
    (l : String) (h : lineKept r line n st st.conv.Messages) :
    lineKept r line n (parseLine st l) (parseLine st l).conv.Messages := by
  rcases h with ⟨q1, q2, a, b, q3⟩ | ⟨m, r1, r2, r3⟩
  · rcases parseLine_cases st l with ⟨c1, c2, c3⟩ | ⟨_, c1, c2, c3⟩ | ⟨_, c2, _⟩
    · left
      exact ⟨by rw [c1, q1], by rw [c3, q2], a, b, by rw [c2, q3]⟩
    · left
      refine ⟨by rw [c1, q1], by rw [c3, q2], a, b ++ (l ++ "\n"), ?_⟩
      rw [c2, q3]
      simp only [String.append_assoc]
    · right
      have hp : pending st = [{ Role := r, Content := TrimSpace (a ++ line ++ "\n" ++ b) }] := by
        unfold pending
        rw [q1, q3, if_pos ⟨hr, length_pos_of_line a line b⟩]
      refine ⟨{ Role := r, Content := TrimSpace (a ++ line ++ "\n" ++ b) }, ?_, rfl, a, b, rfl⟩
      rw [c2, hp, ← q2]
      simp
  · right
    refine ⟨m, ?_, r2, r3⟩
    have hlt : n < st.conv.Messages.length := by
      by_contra hge
      rw [List.getElem?_eq_none (by omega)] at r1
      cases r1
    rcases parseLine_cases st l with ⟨_, _, c3⟩ | ⟨_, _, _, c3⟩ | ⟨_, c2, _⟩
    · rw [c3]; exact r1
    · rw [c3]; exact r1
    · rw [c2, List.getElem?_append_left hlt]; exact r1

/-- The pass over further lines keeps an accumulated line. -/
theorem lineKept_fold (r line : String) (n : Nat) (hr : r ≠ "") (lines : List String)
    (st : ParseState) (h : lineKept r line n st st.conv.Messages) :
    lineKept r line n (lines.foldl parseLine st) (lines.foldl parseLine st).conv.Messages := by
  induction lines generalizing st with
  | nil => exact h
  | cons l ls ih =>
    simp only [List.foldl_cons]
    exact ih _ (lineKept_step r line n hr st l h)

/-- After the last turn is closed, an accumulated line is in the message of its turn. -/
theorem lineKept_close (r line : String) (n : Nat) (hr : r ≠ "") (st : ParseState)
    (h : lineKept r line n st st.conv.Messages) :
    ∃ m, (closeLast st).Messages[n]? = some m ∧ m.Role = r ∧
      ∃ a b : String, m.Content = TrimSpace (a ++ line ++ "\n" ++ b) := by
  rw [closeLast_messages]
  rcases h with ⟨q1, q2, a, b, q3⟩ | ⟨m, r1, r2, r3⟩
  · have hp : pending st = [{ Role := r, Content := TrimSpace (a ++ line ++ "\n" ++ b) }] := by
      unfold pending
      rw [q1, q3, if_pos ⟨hr, length_pos_of_line a line b⟩]
    refine ⟨{ Role := r, Content := TrimSpace (a ++ line ++ "\n" ++ b) }, ?_, rfl, a, b, rfl⟩
    rw [hp, ← q2]
    simp
  · have hlt : n < st.conv.Messages.length := by
      by_contra hge
      rw [List.getElem?_eq_none (by omega)] at r1
      cases r1
    exact ⟨m, by rw [List.getElem?_append_left hlt]; exact r1, r2, r3⟩

/-- What is left after dropping a run of characters is empty or begins with a
character outside the run. -/
theorem dropWhile_head (p : Char → Bool) (l : List Char) :
    l.dropWhile p = [] ∨ ∃ c t, l.dropWhile p = c :: t ∧ p c = false := by
  induction l with
  | nil => left; rfl
  | cons x l ih =>
    by_cases hx : p x = true
    · rw [List.dropWhile_cons, if_pos hx]; exact ih
    · right
      refine ⟨x, l, ?_, by simpa using hx⟩
      rw [List.dropWhile_cons, if_neg hx]

/-- Dropping a leading run of characters stops at the latest at a character
outside the run. -/
theorem dropWhile_append_head (p : Char → Bool) (a y : List Char) (c : Char) (t : List Char)
    (hy : y = c :: t) (hc : p c = false) : ∃ a', (a ++ y).dropWhile p = a' ++ y := by
  induction a with
  | nil =>
    refine ⟨[], ?_⟩
    rw [hy, List.nil_append, List.dropWhile_cons]
    simp [hc]
  | cons x a ih =>
    by_cases hx : p x = true
    · rw [List.cons_append, List.dropWhile_cons, if_pos hx]
      exact ih
    · refine ⟨x :: a, ?_⟩
      rw [List.cons_append, List.dropWhile_cons, if_neg hx]

/-- A text that begins with a character that is no white space is its trimmed
text followed by white space; the trimmed text begins with that character and
ends with a character that is no white space. -/
theorem trimChars_decompose (x : List Char) (c : Char) (u : List Char) (hx : x = c :: u)
    (hc : isSpace c = false) :
    ∃ s t c' t', x = trimChars x ++ s ∧ trimChars x = c :: t ∧
      (trimChars x).reverse = c' :: t' ∧ isSpace c' = false := by
  have h1 : x.dropWhile isSpace = x := by
    rw [hx, List.dropWhile_cons]
    simp [hc]
  have htrim : trimChars x = (x.reverse.dropWhile isSpace).reverse := by
    unfold trimChars
    rw [h1]
  have hsplit : x = (x.reverse.dropWhile isSpace).reverse ++ (x.reverse.takeWhile isSpace).reverse := by
    have := List.takeWhile_append_dropWhile isSpace x.reverse
    have h2 := congrArg List.reverse this
    rw [List.reverse_append, List.reverse_reverse] at h2
    exact h2.symm
  rcases dropWhile_head isSpace x.reverse with hnil | ⟨c', t', hd, hc'⟩
  · exfalso
    have hall := List.dropWhile_eq_nil_iff.mp hnil c (by rw [hx]; simp)
    rw [hc] at hall
    exact Bool.false_ne_true hall
  · have hne : trimChars x ≠ [] := by
      rw [htrim, hd]
      simp
    have hhead : ∃ t, trimChars x = c :: t := by
      cases htr : trimChars x with
      | nil => exact absurd htr hne
      | cons y t =>
        refine ⟨t, ?_⟩
        have h3 : x = (y :: t) ++ (x.reverse.takeWhile isSpace).reverse := by
          rw [← htr, htrim]; exact hsplit
        rw [hx, List.cons_append] at h3
        rw [(List.cons.inj h3).1]
    obtain ⟨t, ht⟩ := hhead
    refine ⟨(x.reverse.takeWhile isSpace).reverse, t, c', t', ?_, ht, ?_, hc'⟩
    · rw [htrim]; exact hsplit
    · rw [htrim, List.reverse_reverse, hd]

/-- Trimming a text around a part that begins with a character that is no white
space keeps the trimmed part. -/
theorem trimChars_around (a x b : List Char) (c : Char) (u : List Char) (hx : x = c :: u)
    (hc : isSpace c = false) :
    ∃ a' b', trimChars (a ++ x ++ b) = a' ++ trimChars x ++ b' := by
  obtain ⟨s, t, c', t', h1, h2, h3, h4⟩ := trimChars_decompose x c u hx hc
  have hX : a ++ x ++ b = a ++ (trimChars x ++ (s ++ b)) := by
    conv_lhs => rw [h1]
    simp [List.append_assoc]
  obtain ⟨a', ha'⟩ := dropWhile_append_head isSpace a (trimChars x ++ (s ++ b)) c (t ++ (s ++ b))
    (by rw [h2]; rfl) hc
  have hrev : (a' ++ (trimChars x ++ (s ++ b))).reverse =
      (s ++ b).reverse ++ ((trimChars x).reverse ++ a'.reverse) := by
    simp [List.reverse_append, List.append_assoc]
  obtain ⟨r', hr'⟩ := dropWhile_append_head isSpace (s ++ b).reverse
    ((trimChars x).reverse ++ a'.reverse) c' (t' ++ a'.reverse) (by rw [h3]; rfl) h4
  refine ⟨a', r'.reverse, ?_⟩
  unfold trimChars at *
  rw [hX, ha', hrev, hr']
  simp [List.reverse_append, List.append_assoc]

/-- A text contains each of its blocks of consecutive characters. -/
theorem containsChars_block (sub pre post : List Char) :
    containsChars sub (pre ++ sub ++ post) = true := by
  induction pre with
  | nil =>
    have hp : sub.isPrefixOf (sub ++ post) = true :=
      List.isPrefixOf_iff_prefix.mpr (List.prefix_append _ _)
    rw [List.nil_append]
    cases hsp : sub ++ post with
    | nil =>
      rw [hsp] at hp
      simpa [containsChars] using hp
    | cons y ys =>
      rw [hsp] at hp
      simp [containsChars, hp]
  | cons x pre ih =>
    simp only [List.cons_append, containsChars, Bool.or_eq_true]
    right
    simpa [List.append_assoc] using ih

/-- The plus sign is no white space. -/
theorem isSpace_plus : isSpace '+' = false := by decide

/-- The trimmed buffer contains each directive line that was accumulated, up to
the line's trailing white space. -/
theorem Contains_trimmed_line (a line b : String) (h : isDirective line = true) :
    Contains (TrimSpace (a ++ line ++ "\n" ++ b)) (TrimSpace line) = true := by
  obtain ⟨u, hu⟩ := directive_plus line h
  unfold Contains TrimSpace
  have hdata : (a ++ line ++ "\n" ++ b).data = a.data ++ line.data ++ ('\n' :: b.data) := by
    simp [String.data_append]
  obtain ⟨a', b', hab⟩ := trimChars_around a.data line.data ('\n' :: b.data) '+' u hu isSpace_plus
  simp only []
  rw [hdata, hab]
  exact containsChars_block _ _ _

/-- Inside front matter no line records a request. -/
theorem parseLine_inFrontMatter_requests (st : ParseState) (line : String)
    (hfm : st.inFrontMatter = true) :
    (parseLine st line).conv.ResourceRequests = st.conv.ResourceRequests := by
  by_cases hl : line = "---"
  · rw [hl, parseLine_delimiter]
  · rw [parseLine_inside st line hfm hl]
    exact frontMatterLine_requests _ _

/-- C10. For every document that parses successfully, `ResourceRequests` matches, one
by one and in line order, the lines outside front matter that begin with
`+file ` (a file request whose file name is the remainder of the line), `+url `
(a URL request whose URL is the remainder) or `+glob` (a glob request, whose
pattern for a line `+glob <p>` is `p`); inside front matter no line records a
request; and a directive line read while a turn is open is part of that turn's
message: the message closed for the turn has the turn's role, its content is
the trimmed buffer with the line in it, and it contains the line (up to the
line's trailing white space, which trimming may remove). -/
theorem ParseContent_requests (d : String) (c : Conversation)
    (h : ParseContent d = Except.ok c) :
    List.Forall₂ IsRequestOf ((outsideLines false (scanLines d)).filter isDirective)
      c.ResourceRequests ∧
    (∀ (st : ParseState) (line : String), st.inFrontMatter = true →
      (parseLine st line).conv.ResourceRequests = st.conv.ResourceRequests) ∧
    (∀ (pre post : List String) (line : String),
      scanLines d = pre ++ line :: post →
      (parseLoop pre).inFrontMatter = false → (parseLoop pre).currentRole ≠ "" →
      isDirective line = true →
      ∃ m, c.Messages[(parseLoop pre).conv.Messages.length]? = some m ∧
        m.Role = (parseLoop pre).currentRole ∧
        (∃ a b : String, m.Content = TrimSpace (a ++ line ++ "\n" ++ b)) ∧
        Contains m.Content (TrimSpace line) = true) := by
  obtain ⟨hc, _⟩ := ParseContent_ok d c h
  refine ⟨?_, parseLine_inFrontMatter_requests, ?_⟩
  · rw [hc, (closeLast_fields _).2.2.2.2]
    unfold parseLoop
    rw [requests_fold]
    exact requests_forall2 _
  · intro pre post line hd hfm hrole hdir
    have hstep := parseLine_content (parseLoop pre) line hfm (directive_contentLine line hdir)
    rw [if_pos hrole] at hstep
    have hkept : lineKept (parseLoop pre).currentRole line (parseLoop pre).conv.Messages.length
        (parseLine (parseLoop pre) line) (parseLine (parseLoop pre) line).conv.Messages := by
      left
      rw [hstep]
      refine ⟨rfl, ?_, (parseLoop pre).currentContent, "", ?_⟩
      · exact congrArg List.length (resourceLine_fields _ _).2.2.2.2.1
      · apply String.ext
        simp [String.data_append]
    have hfold := lineKept_fold _ _ _ hrole post _ hkept
    obtain ⟨m, m1, m2, a, b, m3⟩ := lineKept_close _ _ _ hrole _ hfold
    have hloop : parseLoop (scanLines d) = post.foldl parseLine (parseLine (parseLoop pre) line) := by
      unfold parseLoop
      rw [hd, List.foldl_append, List.foldl_cons]
    refine ⟨m, ?_, m2, ⟨a, b, m3⟩, ?_⟩
    · rw [hc, hloop]; exact m1
    · rw [m3]; exact Contains_trimmed_line a line b hdir

/-- Witness for C10: a `+file` line inside a user turn is recorded as a request and
stays in the content of the turn's message. -/
theorem ParseContent_requests_witness :
    List.Forall₂ IsRequestOf
      ((outsideLines false (scanLines "## You\nsee\n+file a.go\n### Response\nok")).filter
        isDirective)
      [ResourceRequest.FileResourceRequest "a.go"] ∧
    ∃ m, ([{ Role := "You", Content := "see\n+file a.go" },
        { Role := "Response", Content := "ok" }] : List Message)[
          (parseLoop ["## You", "see"]).conv.Messages.length]? = some m ∧
      m.Role = (parseLoop ["## You", "see"]).currentRole ∧
      (∃ a b : String, m.Content = TrimSpace (a ++ "+file a.go" ++ "\n" ++ b)) ∧
      Contains m.Content (TrimSpace "+file a.go") = true :=
  ⟨(ParseContent_requests "## You\nsee\n+file a.go\n### Response\nok"
      { Title := "", Prompt := "", Model := "", ProjectDirectory := "", Parameters := [],
        Messages := [{ Role := "You", Content := "see\n+file a.go" },
          { Role := "Response", Content := "ok" }],
        ReferenceMaterial := [], IncludeFiles := false,
        ResourceRequests := [ResourceRequest.FileResourceRequest "a.go"] } rfl).1,
   (ParseContent_requests "## You\nsee\n+file a.go\n### Response\nok"
      { Title := "", Prompt := "", Model := "", ProjectDirectory := "", Parameters := [],
        Messages := [{ Role := "You", Content := "see\n+file a.go" },
          { Role := "Response", Content := "ok" }],
        ReferenceMaterial := [], IncludeFiles := false,
        ResourceRequests := [ResourceRequest.FileResourceRequest "a.go"] } rfl).2.2
      ["## You", "see"] ["### Response", "ok"] "+file a.go" rfl rfl (by decide) rfl⟩

/-! ## Lines of a text -/

/-- A text has at least one piece. -/
theorem splitNL_ne_nil (x : List Char) : splitNL x ≠ [] := by
  cases x with
  | nil => simp [splitNL]
  | cons c cs =>
    unfold splitNL
    split_ifs
    · simp
    · cases splitNL cs <;> simp

/-- A leading newline starts a new piece. -/
theorem splitNL_cons_newline (x : List Char) : splitNL ('\n' :: x) = [] :: splitNL x := by
  simp [splitNL]

/-- A leading character other than a newline joins the first piece. -/
theorem splitNL_cons_other (c : Char) (x : List Char) (hc : c ≠ '\n') :
    ∃ q qs, splitNL x = q :: qs ∧ splitNL (c :: x) = (c :: q) :: qs := by
  cases h : splitNL x with
  | nil => exact absurd h (splitNL_ne_nil x)
  | cons q qs =>
    refine ⟨q, qs, rfl, ?_⟩
    simp [splitNL, hc, h]

/-- The scanner's raw lines of a text that is followed by a newline and more
text: the pieces of the text, then the raw lines of the rest. -/
theorem rawLines_append_newline (x rest : List Char) :
    rawLines (x ++ '\n' :: rest) = splitNL x ++ rawLines rest := by
  induction x with
  | nil => simp [rawLines, splitNL]
  | cons c x ih =>
    by_cases hc : c = '\n'
    · subst hc
      rw [splitNL_cons_newline]
      simp [rawLines, ih]
    · obtain ⟨q, qs, h1, h2⟩ := splitNL_cons_other c x hc
      rw [h2]
      have ih2 : rawLines (x ++ '\n' :: rest) = q :: (qs ++ rawLines rest) := by
        rw [ih, h1]; rfl
      show rawLines (c :: (x ++ '\n' :: rest)) = _
      simp only [rawLines, hc, if_false, ih2]
      rfl

/-- A text without newline is its only piece. -/
theorem splitNL_no_newline (x : List Char) (h : '\n' ∉ x) : splitNL x = [x] := by
  induction x with
  | nil => rfl
  | cons c x ih =>
    have hc : c ≠ '\n' := fun hc => h (by rw [hc]; exact List.mem_cons_self _ _)
    have hx : '\n' ∉ x := fun hx => h (List.mem_cons_of_mem _ hx)
    obtain ⟨q, qs, h1, h2⟩ := splitNL_cons_other c x hc
    rw [ih hx] at h1
    rw [h2]
    cases h1
    rfl

/-- No piece of a text has a newline. -/
theorem splitNL_pieces_no_newline (x : List Char) : ∀ l ∈ splitNL x, '\n' ∉ l := by
  induction x with
  | nil => simp [splitNL]
  | cons c x ih =>
    by_cases hc : c = '\n'
    · subst hc
      rw [splitNL_cons_newline]
      intro l hl
      rcases List.mem_cons.mp hl with rfl | hl
      · simp
      · exact ih l hl
    · obtain ⟨q, qs, h1, h2⟩ := splitNL_cons_other c x hc
      rw [h2]
      rw [h1] at ih
      intro l hl
      rcases List.mem_cons.mp hl with rfl | hl
      · intro hm
        rcases List.mem_cons.mp hm with hm | hm
        · exact hc hm.symm
        · exact ih q (List.mem_cons_self _ _) hm
      · exact ih l (List.mem_cons_of_mem _ hl)

/-- No raw line has a newline. -/
theorem rawLines_pieces_no_newline (x : List Char) : ∀ l ∈ rawLines x, '\n' ∉ l := by
  induction x with
  | nil => simp [rawLines]
  | cons c x ih =>
    by_cases hc : c = '\n'
    · subst hc
      simp only [rawLines, if_true]
      intro l hl
      rcases List.mem_cons.mp hl with rfl | hl
      · simp
      · exact ih l hl
    · simp only [rawLines, hc, if_false]
      cases h : rawLines x with
      | nil =>
        intro l hl
        simp only [List.mem_singleton] at hl
        subst hl
        simpa using Ne.symm hc
      | cons q qs =>
        rw [h] at ih
        intro l hl
        simp only [] at hl
        rcases List.mem_cons.mp hl with rfl | hl
        · intro hm
          rcases List.mem_cons.mp hm with hm | hm
          · exact hc hm.symm
          · exact ih q (List.mem_cons_self _ _) hm
        · exact ih l (List.mem_cons_of_mem _ hl)

/-- Dropping a trailing carriage return leaves a sublist. -/
theorem dropCR_sublist (l : List Char) : (dropCR l).Sublist l := by
  unfold dropCR
  split_ifs
  · exact List.dropLast_sublist l
  · exact List.Sublist.refl l

/-- A sublist of a line that fits the buffer fits the buffer. -/
theorem fitsBuffer_of_sublist (l l' : List Char) (h : l.Sublist l') (hf : fitsBuffer l' = true) :
    fitsBuffer l = true := by
  unfold fitsBuffer at *
  simp only [String.utf8ByteSize_mk, decide_eq_true_eq] at *
  exact Nat.lt_of_le_of_lt (String.utf8Len_le_of_sublist h) hf

/-- A scanned line has no newline and fits the buffer. -/
theorem scanLines_mem (d l : String) (h : l ∈ scanLines d) :
    '\n' ∉ l.data ∧ fitsBuffer l.data = true := by
  unfold scanLines at h
  obtain ⟨raw, hraw, rfl⟩ := List.mem_map.mp h
  have hmem : raw ∈ rawLines d.data := (List.takeWhile_sublist _).subset hraw
  have hfit : fitsBuffer raw = true := by
    have := List.mem_takeWhile_imp hraw
    simpa using this
  refine ⟨?_, fitsBuffer_of_sublist _ _ (dropCR_sublist raw) hfit⟩
  intro hn
  exact rawLines_pieces_no_newline d.data raw hmem ((dropCR_sublist raw).subset hn)

/-- When every raw line fits the buffer, the scanner delivers every raw line,
without its trailing carriage return. -/
theorem scanLines_of_fit (x : String) (h : ∀ l ∈ rawLines x.data, fitsBuffer l = true) :
    scanLines x = (rawLines x.data).map (fun l => String.mk (dropCR l)) := by
  unfold scanLines
  rw [List.takeWhile_eq_self_iff.mpr h]

/-- Trimming ignores one more white-space character at the front. -/
theorem trimChars_cons_space (c : Char) (l : List Char) (hc : isSpace c = true) :
    trimChars (c :: l) = trimChars l := by
  unfold trimChars
  rw [List.dropWhile_cons, if_pos hc]

/-- The empty text trimmed is empty. -/
theorem trimChars_nil : trimChars [] = [] := rfl

/-- The trimmed non-blank pieces, one piece further to the front. -/
theorem trimmedPieces_cons (p : List Char) (ps : List (List Char)) :
    trimmedPieces (p :: ps) =
      if trimChars p ≠ [] then trimChars p :: trimmedPieces ps else trimmedPieces ps := by
  unfold trimmedPieces
  by_cases h : trimChars p = []
  · simp [h]
  · simp [h]

/-- The trimmed non-blank pieces of two lists of pieces. -/
theorem trimmedPieces_append (ps qs : List (List Char)) :
    trimmedPieces (ps ++ qs) = trimmedPieces ps ++ trimmedPieces qs := by
  unfold trimmedPieces
  simp

/-- A white-space character in front of a text adds no non-blank line and changes
no trimmed line. -/
theorem trimmedPieces_splitNL_cons (c : Char) (x : List Char) (hc : isSpace c = true) :
    trimmedPieces (splitNL (c :: x)) = trimmedPieces (splitNL x) := by
  by_cases hn : c = '\n'
  · subst hn
    rw [splitNL_cons_newline, trimmedPieces_cons]
    simp [trimChars_nil]
  · obtain ⟨q, qs, h1, h2⟩ := splitNL_cons_other c x hn
    rw [h2, h1, trimmedPieces_cons, trimmedPieces_cons, trimChars_cons_space c q hc]

/-- White space in front of a text adds no non-blank line and changes no trimmed line. -/
theorem trimmedPieces_splitNL_left (ws x : List Char) (hws : ∀ c ∈ ws, isSpace c = true) :
    trimmedPieces (splitNL (ws ++ x)) = trimmedPieces (splitNL x) := by
  induction ws with
  | nil => rfl
  | cons c ws ih =>
    rw [List.cons_append, trimmedPieces_splitNL_cons c _ (hws c (List.mem_cons_self _ _))]
    exact ih (fun c hc => hws c (List.mem_cons_of_mem _ hc))

/-- A newline at the end of a text adds an empty last piece. -/
theorem splitNL_snoc_newline (x : List Char) : splitNL (x ++ ['\n']) = splitNL x ++ [[]] := by
  induction x with
  | nil => rfl
  | cons c x ih =>
    by_cases hn : c = '\n'
    · subst hn
      rw [List.cons_append, splitNL_cons_newline, splitNL_cons_newline, ih]
      rfl
    · obtain ⟨q, qs, h1, h2⟩ := splitNL_cons_other c x hn
      obtain ⟨q', qs', h1', h2'⟩ := splitNL_cons_other c (x ++ ['\n']) hn
      rw [List.cons_append, h2', h2]
      rw [ih, h1] at h1'
      cases h1'
      rfl

/-- A character other than a newline at the end of a text joins the last piece. -/
theorem splitNL_snoc_other (x : List Char) (c : Char) (hc : c ≠ '\n') :
    ∃ init last, splitNL x = init ++ [last] ∧ splitNL (x ++ [c]) = init ++ [last ++ [c]] := by
  induction x with
  | nil =>
    refine ⟨[], [], rfl, ?_⟩
    simp [splitNL, hc]
  | cons a x ih =>
    obtain ⟨init, last, i1, i2⟩ := ih
    by_cases hn : a = '\n'
    · subst hn
      refine ⟨[] :: init, last, ?_, ?_⟩
      · rw [splitNL_cons_newline, i1]; rfl
      · rw [List.cons_append, splitNL_cons_newline, i2]; rfl
    · obtain ⟨q, qs, h1, h2⟩ := splitNL_cons_other a x hn
      obtain ⟨q', qs', h1', h2'⟩ := splitNL_cons_other a (x ++ [c]) hn
      rw [List.cons_append, h2', h2]
      rw [i1] at h1
      rw [i2] at h1'
      cases init with
      | nil =>
        simp only [List.nil_append, List.cons.injEq] at h1 h1'
        obtain ⟨rfl, rfl⟩ := h1
        obtain ⟨rfl, rfl⟩ := h1'
        exact ⟨[], a :: last, rfl, rfl⟩
      | cons i is =>
        simp only [List.cons_append, List.cons.injEq] at h1 h1'
        obtain ⟨rfl, rfl⟩ := h1
        obtain ⟨rfl, rfl⟩ := h1'
        exact ⟨(a :: i) :: is, last, rfl, rfl⟩

/-- A white-space character behind a text adds no non-blank line and changes no
trimmed line. -/
theorem trimmedPieces_splitNL_snoc (x : List Char) (c : Char) (hc : isSpace c = true) :
    trimmedPieces (splitNL (x ++ [c])) = trimmedPieces (splitNL x) := by
  by_cases hn : c = '\n'
  · subst hn
    rw [splitNL_snoc_newline, trimmedPieces_append]
    simp [trimmedPieces, trimChars_nil]
  · obtain ⟨init, last, h1, h2⟩ := splitNL_snoc_other x c hn
    rw [h1, h2, trimmedPieces_append, trimmedPieces_append, trimmedPieces_cons,
      trimmedPieces_cons, trimChars_append_space last c hc]

/-- White space behind a text adds no non-blank line and changes no trimmed line. -/
theorem trimmedPieces_splitNL_right (x ws : List Char) (hws : ∀ c ∈ ws, isSpace c = true) :
    trimmedPieces (splitNL (x ++ ws)) = trimmedPieces (splitNL x) := by
  induction ws generalizing x with
  | nil => simp
  | cons c ws ih =>
    have : x ++ c :: ws = (x ++ [c]) ++ ws := by simp
    rw [this, ih (x ++ [c]) (fun c hc => hws c (List.mem_cons_of_mem _ hc)),
      trimmedPieces_splitNL_snoc x c (hws c (List.mem_cons_self _ _))]

/-- A text is its trimmed text between two runs of white space. -/
theorem trimChars_split (x : List Char) :
    ∃ wl wr, x = wl ++ trimChars x ++ wr ∧ (∀ c ∈ wl, isSpace c = true) ∧
      (∀ c ∈ wr, isSpace c = true) := by
  refine ⟨x.takeWhile isSpace, ((x.dropWhile isSpace).reverse.takeWhile isSpace).reverse,
    ?_, ?_, ?_⟩
  · have h1 := List.takeWhile_append_dropWhile isSpace x
    have h2 := List.takeWhile_append_dropWhile isSpace (x.dropWhile isSpace).reverse
    have h3 := congrArg List.reverse h2
    rw [List.reverse_append, List.reverse_reverse] at h3
    unfold trimChars
    rw [List.append_assoc, h3, h1]
  · intro c hc
    exact List.mem_takeWhile_imp hc
  · intro c hc
    exact List.mem_takeWhile_imp (List.mem_reverse.mp hc)

/-- A text and its trimmed text have the same non-blank trimmed lines. -/
theorem trimmedPieces_splitNL_trim (x : List Char) :
    trimmedPieces (splitNL (trimChars x)) = trimmedPieces (splitNL x) := by
  obtain ⟨wl, wr, h, hl, hr⟩ := trimChars_split x
  conv_rhs => rw [h]
  rw [trimmedPieces_splitNL_right _ wr hr, trimmedPieces_splitNL_left wl _ hl]

/-- A text without newline, followed by a newline and more text, is the first piece. -/
theorem splitNL_append_newline (x rest : List Char) (hx : '\n' ∉ x) :
    splitNL (x ++ '\n' :: rest) = x :: splitNL rest := by
  induction x with
  | nil => exact splitNL_cons_newline rest
  | cons c x ih =>
    have hc : c ≠ '\n' := fun hc => hx (by rw [hc]; exact List.mem_cons_self _ _)
    have hx2 : '\n' ∉ x := fun h => hx (List.mem_cons_of_mem _ h)
    obtain ⟨q, qs, h1, h2⟩ := splitNL_cons_other c (x ++ '\n' :: rest) hc
    rw [List.cons_append, h2]
    rw [ih hx2] at h1
    cases h1
    rfl

/-- The pieces of lines joined by newlines are the lines. -/
theorem splitNL_join (a : List Char) (as : List (List Char)) (ha : '\n' ∉ a)
    (has : ∀ b ∈ as, '\n' ∉ b) :
    splitNL (a ++ (as.map (fun b => '\n' :: b)).flatten) = a :: as := by
  induction as generalizing a with
  | nil => simpa using splitNL_no_newline a ha
  | cons b bs ih =>
    simp only [List.map_cons, List.flatten_cons, List.cons_append]
    rw [splitNL_append_newline a _ ha, ih b (has b (List.mem_cons_self _ _))
      (fun x hx => has x (List.mem_cons_of_mem _ hx))]

/-- The first piece of a text is the beginning of the text. -/
theorem splitNL_head_begins (y : List Char) : ∃ q qs, splitNL y = q :: qs ∧ q <+: y := by
  induction y with
  | nil => exact ⟨[], [], rfl, List.prefix_refl _⟩
  | cons c y ih =>
    by_cases hc : c = '\n'
    · subst hc
      exact ⟨[], splitNL y, splitNL_cons_newline y, List.nil_prefix⟩
    · obtain ⟨q, qs, h1, h2⟩ := splitNL_cons_other c y hc
      obtain ⟨q', qs', h1', hp⟩ := ih
      rw [h1] at h1'
      cases h1'
      exact ⟨c :: q, qs, h2, (List.prefix_cons_inj c).mpr hp⟩

/-- Every piece of a text is a block of consecutive characters of the text. -/
theorem splitNL_mem_block (y l : List Char) (h : l ∈ splitNL y) : l <:+: y := by
  induction y generalizing l with
  | nil =>
    simp only [splitNL, List.mem_singleton] at h
    subst h
    exact List.infix_refl _
  | cons c y ih =>
    by_cases hc : c = '\n'
    · subst hc
      rw [splitNL_cons_newline] at h
      rcases List.mem_cons.mp h with rfl | h
      · exact List.nil_infix
      · exact (ih l h).trans (List.suffix_cons _ _).isInfix
    · obtain ⟨q, qs, h1, h2⟩ := splitNL_cons_other c y hc
      rw [h2] at h
      rcases List.mem_cons.mp h with rfl | h
      · obtain ⟨q', qs', h1', hp⟩ := splitNL_head_begins y
        rw [h1] at h1'
        cases h1'
        exact ((List.prefix_cons_inj c).mpr hp).isInfix
      · exact (ih l (by rw [h1]; exact List.mem_cons_of_mem _ h)).trans
          (List.suffix_cons _ _).isInfix

/-- A beginning of a text that has no newline is a beginning of the first piece. -/
theorem begins_head_piece (l x : List Char) (hp : l <+: x) (hl : '\n' ∉ l) :
    ∃ q qs, splitNL x = q :: qs ∧ l <+: q := by
  induction l generalizing x with
  | nil =>
    cases h : splitNL x with
    | nil => exact absurd h (splitNL_ne_nil x)
    | cons q qs => exact ⟨q, qs, rfl, List.nil_prefix⟩
  | cons c l ih =>
    obtain ⟨t, ht⟩ := hp
    have hc : c ≠ '\n' := fun hc => hl (by rw [hc]; exact List.mem_cons_self _ _)
    have hl2 : '\n' ∉ l := fun h => hl (List.mem_cons_of_mem _ h)
    subst ht
    obtain ⟨q, qs, h1, hq⟩ := ih (l ++ t) (List.prefix_append _ _) hl2
    obtain ⟨q', qs', h1', h2'⟩ := splitNL_cons_other c (l ++ t) hc
    rw [h1] at h1'
    cases h1'
    exact ⟨c :: q, qs, h2', (List.prefix_cons_inj c).mpr hq⟩

/-- A block of consecutive characters of a text that has no newline lies within
one piece of the text. -/
theorem block_of_piece (l x : List Char) (hi : l <:+: x) (hl : '\n' ∉ l) :
    ∃ p ∈ splitNL x, l <:+: p := by
  induction x with
  | nil =>
    have : l = [] := List.eq_nil_of_infix_nil hi
    subst this
    exact ⟨[], by simp [splitNL], List.infix_refl _⟩
  | cons c x ih =>
    rcases List.infix_cons_iff.mp hi with hp | hi2
    · obtain ⟨q, qs, h1, hq⟩ := begins_head_piece l (c :: x) hp hl
      exact ⟨q, by rw [h1]; exact List.mem_cons_self _ _, hq.isInfix⟩
    · obtain ⟨p, hp, hlp⟩ := ih hi2
      by_cases hc : c = '\n'
      · subst hc
        exact ⟨p, by rw [splitNL_cons_newline]; exact List.mem_cons_of_mem _ hp, hlp⟩
      · obtain ⟨q, qs, h1, h2⟩ := splitNL_cons_other c x hc
        rw [h1] at hp
        rcases List.mem_cons.mp hp with rfl | hp
        · exact ⟨c :: p, by rw [h2]; exact List.mem_cons_self _ _,
            hlp.trans (List.suffix_cons _ _).isInfix⟩
        · exact ⟨p, by rw [h2]; exact List.mem_cons_of_mem _ hp, hlp⟩

/-- If every piece of a text fits the buffer, so does every piece of each of its
blocks of consecutive characters. -/
theorem fits_of_block (x y : List Char) (hxy : y <:+: x)
    (hx : ∀ p ∈ splitNL x, fitsBuffer p = true) : ∀ l ∈ splitNL y, fitsBuffer l = true := by
  intro l hl
  have h1 : l <:+: x := (splitNL_mem_block y l hl).trans hxy
  obtain ⟨p, hp, hlp⟩ := block_of_piece l x h1 (splitNL_pieces_no_newline y l hl)
  exact fitsBuffer_of_sublist l p hlp.sublist (hx p hp)

/-- The trimmed text is a block of consecutive characters of the text. -/
theorem trimChars_block_self (x : List Char) : trimChars x <:+: x := by
  obtain ⟨wl, wr, h, _, _⟩ := trimChars_split x
  exact ⟨wl, wr, h.symm⟩

/-! ## Lines of the serialised document -/

/-- A leading newline is an empty raw line. -/
theorem rawLines_cons_newline (rest : List Char) : rawLines ('\n' :: rest) = [] :: rawLines rest := by
  simp [rawLines]

/-- A heading has no newline. -/
theorem heading_no_newline (m : Message) :
    '\n' ∉ (if m.Role = "You" then "## You" else "### Response").data := by
  split_ifs <;> decide

/-- The characters of the part of one message. -/
theorem messagePart_data (m : Message) :
    (messagePart m).data =
      (if m.Role = "You" then "## You" else "### Response").data ++
        '\n' :: '\n' :: (m.Content.data ++ '\n' :: '\n' :: []) := by
  unfold messagePart
  split_ifs <;> simp [String.data_append]

/-- The raw lines of the message parts. -/
theorem rawLines_messages (msgs : List Message) :
    rawLines (String.join (msgs.map messagePart)).data = msgs.flatMap messageRawLines := by
  rw [String.join_eq]
  simp only [List.map_map]
  induction msgs with
  | nil => rfl
  | cons m msgs ih =>
    simp only [List.map_cons, List.flatten_cons, List.flatMap_cons, Function.comp_apply]
    have hshape : (messagePart m).data ++ (List.map (String.data ∘ messagePart) msgs).flatten =
        (if m.Role = "You" then "## You" else "### Response").data ++
          '\n' :: ('\n' :: (m.Content.data ++
            '\n' :: ('\n' :: (List.map (String.data ∘ messagePart) msgs).flatten))) := by
      rw [messagePart_data]
      simp [List.append_assoc]
    rw [hshape, rawLines_append_newline, splitNL_no_newline _ (heading_no_newline m),
      rawLines_cons_newline, rawLines_append_newline, rawLines_cons_newline, ih]
    simp [messageRawLines]

/-- The raw lines of the title part, followed by more text: the title line and a
blank line. -/
theorem rawLines_title (t : String) (rest : List Char) (ht : '\n' ∉ t.data) :
    rawLines (("# " ++ t ++ "\n\n").data ++ rest) = ("# " ++ t).data :: [] :: rawLines rest := by
  have hdata : ("# " ++ t ++ "\n\n").data ++ rest = ("# " ++ t).data ++ '\n' :: ('\n' :: rest) := by
    simp [String.data_append]
  have hno : '\n' ∉ ("# " ++ t).data := by
    rw [String.data_append]
    intro h
    rcases List.mem_append.mp h with h | h
    · revert h; decide
    · exact ht h
  rw [hdata, rawLines_append_newline, splitNL_no_newline _ hno, rawLines_cons_newline]
  rfl

/-! ## C7: the scanned lines of a parsed and serialised document -/

/-- A blank line is empty or begins with white space. -/
theorem blank_head (l : String) (h : TrimSpace l = "") :
    l.data = [] ∨ ∃ c u, l.data = c :: u ∧ isSpace c = true := by
  cases hd : l.data with
  | nil => left; rfl
  | cons c u =>
    right
    refine ⟨c, u, rfl, ?_⟩
    by_contra hc
    have hc2 : isSpace c = false := by simpa using hc
    obtain ⟨_, t, _, _, _, h2, _, _⟩ := trimChars_decompose l.data c u hd hc2
    have h3 : trimChars l.data = [] := by
      have := congrArg String.data h
      simpa [TrimSpace] using this
    rw [h3] at h2
    cases h2

/-- A blank line does not begin with a text whose first character is no white space. -/
theorem blank_not_begins (l p : String) (c : Char) (t : List Char) (hp : p.data = c :: t)
    (hc : isSpace c = false) (h : TrimSpace l = "") : HasPrefix l p = false := by
  by_contra hpre
  have hpre2 : HasPrefix l p = true := by simpa using hpre
  obtain ⟨u, hu⟩ := HasPrefix_head l p c t hp hpre2
  rcases blank_head l h with h0 | ⟨c', u', h1, h2⟩
  · rw [h0] at hu; cases hu
  · rw [h1] at hu
    cases hu
    rw [hc] at h2
    cases h2

/-- A blank line is not the front-matter delimiter. -/
theorem blank_ne_delimiter (l : String) (h : TrimSpace l = "") : l ≠ "---" := by
  intro he
  rw [he] at h
  revert h
  decide

/-- A blank line is no delimiter, title or heading. -/
theorem blank_contentLine (l : String) (h : TrimSpace l = "") : contentLine l :=
  ⟨blank_ne_delimiter l h, blank_not_begins l _ '#' _ rfl (by decide) h,
    blank_not_begins l _ '#' _ rfl (by decide) h, blank_not_begins l _ '#' _ rfl (by decide) h⟩

/-- A blank line records no request. -/
theorem resourceLine_blank (conv : Conversation) (l : String) (h : TrimSpace l = "") :
    resourceLine conv l = conv := by
  unfold resourceLine
  rw [blank_not_begins l "+file " '+' _ rfl (by decide) h,
    blank_not_begins l "+url " '+' _ rfl (by decide) h,
    blank_not_begins l "+glob" '+' _ rfl (by decide) h]
  simp

/-- Outside front matter and outside any turn a blank line changes nothing. -/
theorem parseLine_blank (st : ParseState) (l : String) (hfm : st.inFrontMatter = false)
    (hrole : st.currentRole = "") (h : TrimSpace l = "") : parseLine st l = st := by
  rw [parseLine_content st l hfm (blank_contentLine l h), resourceLine_blank _ _ h,
    if_neg (by simp [hrole])]

/-- Outside front matter and outside any turn blank lines change nothing. -/
theorem blank_fold (ls : List String) (st : ParseState) (hfm : st.inFrontMatter = false)
    (hrole : st.currentRole = "") (h : ∀ l ∈ ls, TrimSpace l = "") :
    ls.foldl parseLine st = st := by
  induction ls with
  | nil => rfl
  | cons l ls ih =>
    rw [List.foldl_cons, parseLine_blank st l hfm hrole (h l (List.mem_cons_self _ _))]
    exact ih (fun x hx => h x (List.mem_cons_of_mem _ hx))

/-- Outside front matter a title line sets the title and nothing else. -/
theorem title_step (st : ParseState) (t : String) (hfm : st.inFrontMatter = false) :
    (parseLine st ("# " ++ t)).currentRole = st.currentRole ∧
    (parseLine st ("# " ++ t)).currentContent = st.currentContent ∧
    (parseLine st ("# " ++ t)).inFrontMatter = false ∧
    (parseLine st ("# " ++ t)).conv.Messages = st.conv.Messages ∧
    (parseLine st ("# " ++ t)).conv.Title = t ∧
    (parseLine st ("# " ++ t)).conv.Model = st.conv.Model ∧
    (parseLine st ("# " ++ t)).conv.ProjectDirectory = st.conv.ProjectDirectory ∧
    (parseLine st ("# " ++ t)).conv.Parameters = st.conv.Parameters := by
  have hr := resourceLine_fields st.conv ("# " ++ t)
  rw [parseLine_title st _ hfm (title_line_ne t) (HasPrefix_append _ _)]
  exact ⟨rfl, rfl, hfm, hr.2.2.2.2.1, TrimPrefix_append _ _, hr.2.1, hr.2.2.1, hr.2.2.2.1⟩

/-- The conversation parsed from blank lines, a title line, blank lines and turns
with content: one message per turn, the title, no model and no parameters. -/
theorem titled_document (blanks1 blanks2 : List String) (t : String) (ts : List Turn)
    (hb1 : ∀ l ∈ blanks1, TrimSpace l = "") (hb2 : ∀ l ∈ blanks2, TrimSpace l = "")
    (hts : ∀ tn ∈ ts, tn.lines ≠ [] ∧ ∀ l ∈ tn.lines, contentLine l) :
    (closeLast (parseLoop (blanks1 ++ ["# " ++ t] ++ blanks2 ++ turnLines ts))).Messages =
      ts.map Turn.message ∧
    (closeLast (parseLoop (blanks1 ++ ["# " ++ t] ++ blanks2 ++ turnLines ts))).Title = t ∧
    (closeLast (parseLoop (blanks1 ++ ["# " ++ t] ++ blanks2 ++ turnLines ts))).Model = "" ∧
    (closeLast (parseLoop (blanks1 ++ ["# " ++ t] ++ blanks2 ++ turnLines ts))).Parameters = [] := by
  have h1 : blanks1.foldl parseLine initState = initState := blank_fold _ _ rfl rfl hb1
  obtain ⟨s1, s2, s3, s4, s5, s6, _, s8⟩ := title_step initState t rfl
  have h2 : blanks2.foldl parseLine (parseLine initState ("# " ++ t)) =
      parseLine initState ("# " ++ t) := blank_fold _ _ s3 s1 hb2
  have hwf : wellFormed (parseLine initState ("# " ++ t)) := ⟨s3, fun _ => s2⟩
  obtain ⟨u1, u2, u3, u4, _, u6⟩ := turns_fold ts _ hwf hts
  have hloop : parseLoop (blanks1 ++ ["# " ++ t] ++ blanks2 ++ turnLines ts) =
      (turnLines ts).foldl parseLine (parseLine initState ("# " ++ t)) := by
    unfold parseLoop
    rw [List.foldl_append, List.foldl_append, List.foldl_append, h1, List.foldl_cons,
      List.foldl_nil, h2]
  have hpend : pending (parseLine initState ("# " ++ t)) = [] := by
    unfold pending
    rw [s1]
    simp [initState]
  obtain ⟨c1, c2, _, c4, _⟩ := closeLast_fields (parseLoop
    (blanks1 ++ ["# " ++ t] ++ blanks2 ++ turnLines ts))
  refine ⟨?_, ?_, ?_, ?_⟩
  · rw [closeLast_messages, hloop, u2, s4, hpend]; rfl
  · rw [c1, hloop, u3, s5]
  · rw [c2, hloop, u4, s6]; rfl
  · rw [c4, hloop, u6, s8]; rfl

/-- The carriage return is white space. -/
theorem isSpace_cr : isSpace '\r' = true := by decide

/-- Trimming does not see the carriage return that the scanner drops. -/
theorem trimChars_dropCR (l : List Char) : trimChars (dropCR l) = trimChars l := by
  unfold dropCR
  split_ifs with h
  · have h2 : l.dropLast ++ ['\r'] = l := List.dropLast_append_getLast? '\r' (by rw [h]; rfl)
    conv_rhs => rw [← h2]
    rw [trimChars_append_space _ _ isSpace_cr]
  · rfl

/-- A string is non-empty exactly when it has a character. -/
theorem mk_ne_empty (l : List Char) : (String.mk l ≠ "") ↔ l ≠ [] := by
  constructor
  · intro h hl
    apply h
    rw [hl]
  · intro h hs
    apply h
    have := congrArg String.data hs
    exact this

/-- The non-blank trimmed lines of scanned lines, from their raw lines. -/
theorem nonBlankTrimmed_scanned (raws : List (List Char)) :
    nonBlankTrimmed (raws.map (fun l => String.mk (dropCR l))) =
      (trimmedPieces raws).map String.mk := by
  induction raws with
  | nil => rfl
  | cons l raws ih =>
    unfold nonBlankTrimmed at ih ⊢
    rw [trimmedPieces_cons]
    simp only [List.map_cons, List.filter_cons]
    have ht : TrimSpace (String.mk (dropCR l)) = String.mk (trimChars l) := by
      unfold TrimSpace
      rw [trimChars_dropCR]
    rw [ht, ih]
    by_cases hl : trimChars l = []
    · have : ¬ (String.mk (trimChars l) ≠ "") := by
        rw [mk_ne_empty]; simpa using hl
      simp [hl, this]
    · have : String.mk (trimChars l) ≠ "" := (mk_ne_empty _).mpr hl
      simp [hl, this]

/-- The non-blank trimmed lines of a list of lines, from their characters. -/
theorem nonBlankTrimmed_data (ls : List String) :
    nonBlankTrimmed ls = (trimmedPieces (ls.map String.data)).map String.mk := by
  induction ls with
  | nil => rfl
  | cons l ls ih =>
    unfold nonBlankTrimmed at ih ⊢
    simp only [List.map_cons, List.filter_cons]
    rw [trimmedPieces_cons]
    have ht : TrimSpace l = String.mk (trimChars l.data) := rfl
    rw [ht, ih]
    by_cases hl : trimChars l.data = []
    · have : ¬ (String.mk (trimChars l.data) ≠ "") := by
        rw [mk_ne_empty]; simpa using hl
      simp [hl, this]
    · have : String.mk (trimChars l.data) ≠ "" := (mk_ne_empty _).mpr hl
      simp [hl, this]

/-- Blank lines have no non-blank trimmed line. -/
theorem trimmedPieces_blanks (ls : List String) (h : ∀ l ∈ ls, TrimSpace l = "") :
    trimmedPieces (ls.map String.data) = [] := by
  induction ls with
  | nil => rfl
  | cons l ls ih =>
    have hl : trimChars l.data = [] := by
      have := congrArg String.data (h l (List.mem_cons_self _ _))
      simpa [TrimSpace] using this
    rw [List.map_cons, trimmedPieces_cons, hl]
    simpa using ih (fun x hx => h x (List.mem_cons_of_mem _ hx))

/-- The non-blank trimmed pieces of pieces given group by group. -/
theorem trimmedPieces_flatMap {α : Type} (l : List α) (f : α → List (List Char)) :
    trimmedPieces (l.flatMap f) = l.flatMap (fun a => trimmedPieces (f a)) := by
  induction l with
  | nil => rfl
  | cons a l ih => simp [List.flatMap_cons, trimmedPieces_append, ih]

/-- The characters of the lines of a sequence of turns. -/
theorem turnLines_data (ts : List Turn) :
    (turnLines ts).map String.data =
      ts.flatMap (fun tn => tn.heading.data :: tn.lines.map String.data) := by
  induction ts with
  | nil => rfl
  | cons tn ts ih => simp [turnLines, List.flatMap_cons, ih]

/-- A line of a turn is a line of the sequence of turns. -/
theorem mem_turnLines (ts : List Turn) (tn : Turn) (l : String) (htn : tn ∈ ts)
    (hl : l ∈ tn.lines) : l ∈ turnLines ts := by
  induction ts with
  | nil => cases htn
  | cons a ts ih =>
    simp only [turnLines, List.mem_cons, List.mem_append]
    rcases List.mem_cons.mp htn with rfl | h
    · exact Or.inr (Or.inl hl)
    · exact Or.inr (Or.inr (ih h))

/-- The pieces of lines joined by newlines are the lines, unless a line has a newline. -/
theorem intercalate_data (ls : List String) (h : ls ≠ []) :
    splitNL (String.intercalate "\n" ls).data = ls.map String.data ∨
      ∃ l ∈ ls, '\n' ∈ l.data := by
  by_cases hall : ∀ l ∈ ls, '\n' ∉ l.data
  · left
    cases ls with
    | nil => exact absurd rfl h
    | cons a as =>
      simp only [String.intercalate, intercalate_go_data]
      have hmap : (as.map (fun b : String => ("\n" : String).data ++ b.data)) =
          (as.map String.data).map (fun b => '\n' :: b) := by
        simp [List.map_map]
      rw [hmap, splitNL_join a.data (as.map String.data) (hall a (List.mem_cons_self _ _))]
      · rfl
      · intro b hb
        obtain ⟨s, hs, rfl⟩ := List.mem_map.mp hb
        exact hall s (List.mem_cons_of_mem _ hs)
  · right
    push_neg at hall
    exact hall

/-- The heading that `String` writes for the message of a turn is the turn's heading. -/
theorem turn_message_heading (tn : Turn) :
    (if tn.message.Role = "You" then "## You" else "### Response") = tn.heading := by
  unfold Turn.message Turn.role Turn.heading
  cases tn.user <;> simp

/-- The serialised message of a turn and the turn itself have the same non-blank
trimmed lines. -/
theorem turn_trimmedPieces (tn : Turn) (hne : tn.lines ≠ [])
    (hnl : ∀ l ∈ tn.lines, '\n' ∉ l.data) :
    trimmedPieces (messageRawLines tn.message) =
      trimmedPieces (tn.heading.data :: tn.lines.map String.data) := by
  have hsplit : splitNL (String.intercalate "\n" tn.lines).data = tn.lines.map String.data := by
    rcases intercalate_data tn.lines hne with h | ⟨l, hl, hn⟩
    · exact h
    · exact absurd hn (hnl l hl)
  unfold messageRawLines
  rw [turn_message_heading]
  have hcontent : tn.message.Content.data = trimChars (String.intercalate "\n" tn.lines).data := rfl
  rw [hcontent]
  have e1 : tn.heading.data :: [] :: (splitNL (trimChars (String.intercalate "\n" tn.lines).data) ++ [[]])
      = [tn.heading.data, []] ++ splitNL (trimChars (String.intercalate "\n" tn.lines).data) ++ [[]] := by
    simp
  have e2 : tn.heading.data :: tn.lines.map String.data =
      [tn.heading.data] ++ tn.lines.map String.data := rfl
  rw [e1, e2, trimmedPieces_append, trimmedPieces_append, trimmedPieces_append,
    trimmedPieces_splitNL_trim, hsplit]
  have h2 : trimmedPieces [([] : List Char)] = [] := by decide
  have h1 : trimmedPieces [tn.heading.data, []] = trimmedPieces [tn.heading.data] := by
    have : [tn.heading.data, []] = [tn.heading.data] ++ [[]] := rfl
    rw [this, trimmedPieces_append, h2, List.append_nil]
  rw [h1, h2, List.append_nil]

/-- Every raw line of the serialised message of a turn fits the buffer if the
lines of the turn do. -/
theorem turn_fits (tn : Turn) (hne : tn.lines ≠ [])
    (hnl : ∀ l ∈ tn.lines, '\n' ∉ l.data ∧ fitsBuffer l.data = true) :
    ∀ l ∈ messageRawLines tn.message, fitsBuffer l = true := by
  have hsplit : splitNL (String.intercalate "\n" tn.lines).data = tn.lines.map String.data := by
    rcases intercalate_data tn.lines hne with h | ⟨l, hl, hn⟩
    · exact h
    · exact absurd hn (hnl l hl).1
  have hpieces : ∀ l ∈ splitNL tn.message.Content.data, fitsBuffer l = true := by
    apply fits_of_block (String.intercalate "\n" tn.lines).data
    · exact trimChars_block_self _
    · rw [hsplit]
      intro p hp
      obtain ⟨s, hs, rfl⟩ := List.mem_map.mp hp
      exact (hnl s hs).2
  intro l hl
  unfold messageRawLines at hl
  rw [turn_message_heading] at hl
  simp only [List.mem_cons, List.mem_append, List.mem_singleton, List.not_mem_nil,
    or_false] at hl
  rcases hl with rfl | rfl | hl | rfl
  · unfold Turn.heading
    cases tn.user <;> decide
  · decide
  · exact hpieces l hl
  · decide

/-- A non-blank text is not empty. -/
theorem nonblank_ne_empty (t : String) (h : TrimSpace t ≠ "") : t ≠ "" := by
  intro ht
  apply h
  rw [ht]
  rfl

/-- Without model and parameters there is no front-matter part. -/
theorem untitled_frontMatterPart (c : Conversation) (iter : List (String × String))
    (hm : c.Model = "") (hp : c.Parameters = []) : frontMatterPart c iter = "" := by
  unfold frontMatterPart
  rw [if_neg (by simp [hm, hp])]

/-- The raw lines of the serialised document of a conversation with a title and
without front matter. -/
theorem rawLines_titled (c : Conversation) (iter : List (String × String))
    (hm : c.Model = "") (hp : c.Parameters = []) (ht : c.Title ≠ "")
    (hnl : '\n' ∉ c.Title.data) :
    rawLines (ConversationString c iter).data =
      ("# " ++ c.Title).data :: [] :: c.Messages.flatMap messageRawLines := by
  rw [ConversationString_parts, untitled_frontMatterPart c iter hm hp]
  unfold titlePart
  rw [if_pos ht]
  have hdata : ("" ++ ("# " ++ c.Title ++ "\n\n") ++ String.join (c.Messages.map messagePart)).data
      = ("# " ++ c.Title ++ "\n\n").data ++ (String.join (c.Messages.map messagePart)).data := by
    simp [String.data_append]
  rw [hdata, rawLines_title _ _ hnl, rawLines_messages]

/-- The pieces of a text are its raw lines, with an empty last piece more when
the text is empty or ends in a newline. -/
theorem splitNL_rawLines (x : List Char) :
    splitNL x = rawLines x ∨ splitNL x = rawLines x ++ [[]] := by
  induction x with
  | nil => right; rfl
  | cons c x ih =>
    by_cases hc : c = '\n'
    · subst hc
      rw [splitNL_cons_newline, rawLines_cons_newline]
      rcases ih with h | h
      · left; rw [h]
      · right; rw [h]; rfl
    · obtain ⟨q, qs, h1, h2⟩ := splitNL_cons_other c x hc
      rw [h2]
      cases hr : rawLines x with
      | nil =>
        left
        rw [hr, h1] at ih
        rcases ih with h | h
        · cases h
        · simp only [List.nil_append, List.cons.injEq] at h
          obtain ⟨rfl, rfl⟩ := h
          simp [rawLines, hc, hr]
      | cons l ls =>
        rw [hr, h1] at ih
        have hraw : rawLines (c :: x) = (c :: l) :: ls := by
          simp [rawLines, hc, hr]
        rw [hraw]
        rcases ih with h | h
        · left
          cases h
          rfl
        · right
          simp only [List.cons_append, List.cons.injEq] at h
          obtain ⟨rfl, rfl⟩ := h
          rfl

/-- The pieces and the raw lines of a text have the same non-blank trimmed lines. -/
theorem trimmedPieces_splitNL_rawLines (x : List Char) :
    trimmedPieces (splitNL x) = trimmedPieces (rawLines x) := by
  have h2 : trimmedPieces [([] : List Char)] = [] := by decide
  rcases splitNL_rawLines x with h | h
  · rw [h]
  · rw [h, trimmedPieces_append, h2, List.append_nil]

/-- For a text whose raw lines all fit the buffer, the non-blank trimmed scanned
lines are the lines that `normalizeSpace` keeps. -/
theorem nonBlankTrimmed_scanLines (s : String)
    (h : ∀ l ∈ rawLines s.data, fitsBuffer l = true) :
    nonBlankTrimmed (scanLines s) = normalizeSpace s := by
  unfold normalizeSpace
  rw [scanLines_of_fit s h, nonBlankTrimmed_scanned, trimmedPieces_splitNL_rawLines]

/-- Let the lines that the scanner delivers for a document have no `---`
line, let the only non-blank line before the first turn heading be one line
`# <title>` with non-blank title, and let each of the `k ≥ 1` turns be a line
`## You` or `### Response` followed by content lines of which at least one is
non-blank and none begins with `# `, `## You` or `### Response`. Then the
document parses and the text `String(ParseContent(d))` has the same sequence of
non-blank trimmed lines as `d`; when no line of `d` is too long for the scanner
this is the equality of `normalizeSpace` that `TestContentRoundTrip` checks. -/
theorem roundTrip_scanned (d : String) (blanks1 blanks2 : List String) (t : String)
    (ts : List Turn)
    (hd : scanLines d = blanks1 ++ ["# " ++ t] ++ blanks2 ++ turnLines ts)
    (hb1 : ∀ l ∈ blanks1, TrimSpace l = "") (hb2 : ∀ l ∈ blanks2, TrimSpace l = "")
    (ht : TrimSpace t ≠ "") (hk : 1 ≤ ts.length)
    (hts : ∀ tn ∈ ts, (∃ l ∈ tn.lines, TrimSpace l ≠ "") ∧ ∀ l ∈ tn.lines, contentLine l) :
    ∃ c, ParseContent d = Except.ok c ∧
      ∀ iter : List (String × String),
        nonBlankTrimmed (scanLines (ConversationString c iter)) =
          nonBlankTrimmed (scanLines d) ∧
        ((∀ l ∈ rawLines d.data, fitsBuffer l = true) →
          normalizeSpace (ConversationString c iter) = normalizeSpace d) := by
  obtain ⟨p1, p2, p3, p4⟩ := titled_document blanks1 blanks2 t ts hb1 hb2
    (fun tn htn => ⟨nonblank_ne_nil _ (hts tn htn).1, (hts tn htn).2⟩)
  rw [← hd] at p1 p2 p3 p4
  have hok : ParseContent d = Except.ok (closeLast (parseLoop (scanLines d))) := by
    unfold ParseContent finish
    have hlen : (closeLast (parseLoop (scanLines d))).Messages.length ≠ 0 := by
      rw [p1, List.length_map]
      omega
    simp only [hlen, if_false]
  refine ⟨_, hok, ?_⟩
  intro iter
  have htitle_mem : ("# " ++ t) ∈ scanLines d := by
    rw [hd]; simp
  have hline : ∀ tn ∈ ts, ∀ l ∈ tn.lines, '\n' ∉ l.data ∧ fitsBuffer l.data = true := by
    intro tn htn l hl
    apply scanLines_mem d
    rw [hd]
    exact List.mem_append_right _ (mem_turnLines ts tn l htn hl)
  have hnl_title : '\n' ∉ t.data := by
    intro h
    apply (scanLines_mem d _ htitle_mem).1
    rw [String.data_append]
    exact List.mem_append_right _ h
  have hraw := rawLines_titled (closeLast (parseLoop (scanLines d))) iter p3 p4
    (by rw [p2]; exact nonblank_ne_empty t ht) (by rw [p2]; exact hnl_title)
  rw [p1, p2] at hraw
  have hfit : ∀ l ∈ rawLines (ConversationString (closeLast (parseLoop (scanLines d))) iter).data,
      fitsBuffer l = true := by
    rw [hraw]
    intro l hl
    rcases List.mem_cons.mp hl with rfl | hl
    · exact (scanLines_mem d _ htitle_mem).2
    · rcases List.mem_cons.mp hl with rfl | hl
      · decide
      · obtain ⟨m, hm, hlm⟩ := List.mem_flatMap.mp hl
        obtain ⟨tn, htn, rfl⟩ := List.mem_map.mp hm
        exact turn_fits tn (nonblank_ne_nil _ (hts tn htn).1) (hline tn htn) l hlm
  have hmain : nonBlankTrimmed
      (scanLines (ConversationString (closeLast (parseLoop (scanLines d))) iter)) =
      nonBlankTrimmed (scanLines d) := ?_
  · refine ⟨hmain, ?_⟩
    intro hdfit
    rw [← nonBlankTrimmed_scanLines _ hfit, ← nonBlankTrimmed_scanLines _ hdfit]
    exact hmain
  rw [scanLines_of_fit _ hfit, nonBlankTrimmed_scanned, hraw, nonBlankTrimmed_data, hd]
  congr 1
  have hleft : trimmedPieces (("# " ++ t).data :: [] ::
      (ts.map Turn.message).flatMap messageRawLines) =
      trimmedPieces [("# " ++ t).data] ++
        ts.flatMap (fun tn => trimmedPieces (tn.heading.data :: tn.lines.map String.data)) := by
    have e : ("# " ++ t).data :: [] :: (ts.map Turn.message).flatMap messageRawLines =
        [("# " ++ t).data] ++ [[]] ++ (ts.map Turn.message).flatMap messageRawLines := rfl
    have h2 : trimmedPieces [([] : List Char)] = [] := by decide
    rw [e, trimmedPieces_append, trimmedPieces_append, h2, List.append_nil, List.flatMap_map,
      trimmedPieces_flatMap]
    congr 1
    apply List.flatMap_congr
    intro tn htn
    exact turn_trimmedPieces tn (nonblank_ne_nil _ (hts tn htn).1)
      (fun l hl => (hline tn htn l hl).1)
  have hright : trimmedPieces ((blanks1 ++ ["# " ++ t] ++ blanks2 ++ turnLines ts).map String.data) =
      trimmedPieces [("# " ++ t).data] ++
        ts.flatMap (fun tn => trimmedPieces (tn.heading.data :: tn.lines.map String.data)) := by
    simp only [List.map_append, trimmedPieces_append, trimmedPieces_blanks _ hb1,
      trimmedPieces_blanks _ hb2, turnLines_data, trimmedPieces_flatMap, List.nil_append,
      List.append_nil, List.map_cons, List.map_nil]
  rw [hleft, hright]

/-! ## C3: parsing a serialised conversation -/

/-- A trimmed text is empty or begins and ends with characters that are no white space. -/
theorem trimChars_ends (x : List Char) :
    trimChars x = [] ∨
      ∃ c t c' t', trimChars x = c :: t ∧ isSpace c = false ∧
        (trimChars x).reverse = c' :: t' ∧ isSpace c' = false := by
  rcases dropWhile_head isSpace x with h | ⟨c, t, h, hc⟩
  · left
    unfold trimChars
    rw [h]
    rfl
  · right
    have hy : trimChars x = trimChars (x.dropWhile isSpace) := by
      unfold trimChars
      congr 3
      rw [h, List.dropWhile_cons]
      simp [hc]
    obtain ⟨_, t2, c', t', _, h2, h3, h4⟩ := trimChars_decompose (x.dropWhile isSpace) c t h hc
    exact ⟨c, t2, c', t', by rw [hy, h2], hc, by rw [hy, h3], h4⟩

/-- Trimming a trimmed text changes nothing. -/
theorem trimChars_idem (x : List Char) : trimChars (trimChars x) = trimChars x := by
  rcases trimChars_ends x with h | ⟨c, t, c', t', h1, h2, h3, h4⟩
  · rw [h]; rfl
  · have e1 : (trimChars x).dropWhile isSpace = trimChars x := by
      rw [h1, List.dropWhile_cons]
      simp [h2]
    have e2 : (trimChars x).reverse.dropWhile isSpace = (trimChars x).reverse := by
      rw [h3, List.dropWhile_cons]
      simp [h4]
    have e3 : ∀ y : List Char, trimChars y =
        ((y.dropWhile isSpace).reverse.dropWhile isSpace).reverse := fun _ => rfl
    rw [e3 (trimChars x), e1, e2, List.reverse_reverse]

/-- The function `strings.TrimSpace` is idempotent. -/
theorem TrimSpace_idem (s : String) : TrimSpace (TrimSpace s) = TrimSpace s := by
  unfold TrimSpace
  rw [trimChars_idem]

/-- The characters of a trimmed string are characters of the string. -/
theorem TrimSpace_sublist (s : String) : (TrimSpace s).data.Sublist s.data :=
  (trimChars_block_self s.data).sublist

/-- The characters of the key and of the value of a line are characters of the line. -/
theorem keyValue_sublist (line key value : String) (h : keyValue line = some (key, value)) :
    key.data.Sublist line.data ∧ value.data.Sublist line.data := by
  unfold keyValue at h
  split_ifs at h
  simp only [Option.some.injEq, Prod.mk.injEq] at h
  obtain ⟨rfl, rfl⟩ := h
  constructor
  · exact (TrimSpace_sublist _).trans (List.takeWhile_sublist _)
  · exact (TrimSpace_sublist _).trans ((List.tail_sublist _).trans (List.dropWhile_sublist _))

/-- The characters of a line without its leading part are characters of the line. -/
theorem TrimPrefix_sublist (line p : String) : (TrimPrefix line p).data.Sublist line.data := by
  unfold TrimPrefix
  split_ifs
  · exact List.drop_sublist _ _
  · exact List.Sublist.refl _

/-- One iteration leaves the title as it is or sets it to the line without `# `. -/
theorem parseLine_title_cases (st : ParseState) (line : String) :
    (parseLine st line).conv.Title = st.conv.Title ∨
      (parseLine st line).conv.Title = TrimPrefix line "# " := by
  by_cases hl : line = "---"
  · left; rw [hl, parseLine_delimiter]
  · cases hfm : st.inFrontMatter with
    | true =>
      left
      rw [parseLine_inside st line hfm hl, frontMatterLine_eq]
      cases keyValue line with
      | none => rfl
      | some kv =>
        obtain ⟨k, v⟩ := kv
        simp only []
        split_ifs <;> rfl
    | false =>
      have hr := resourceLine_fields st.conv line
      by_cases h2 : HasPrefix line "# " = true
      · right
        rw [parseLine_title st line hfm hl h2]
      · have h2f : HasPrefix line "# " = false := by simpa using h2
        left
        by_cases h3 : HasPrefix line "## You" = true
        · exact (parseLine_heading st line "You" hfm hl h2f (Or.inl ⟨h3, rfl⟩)).2.2.2.2.1
        · have h3f : HasPrefix line "## You" = false := by simpa using h3
          by_cases h4 : HasPrefix line "### Response" = true
          · exact (parseLine_heading st line "Response" hfm hl h2f
              (Or.inr ⟨h3f, h4, rfl⟩)).2.2.2.2.1
          · have h4f : HasPrefix line "### Response" = false := by simpa using h4
            rw [parseLine_content st line hfm ⟨hl, h2f, h3f, h4f⟩]
            exact hr.1

/-- One iteration leaves the model and the parameters as they are, or stores the
value of the line as the model or under the key of the line. -/
theorem parseLine_frontMatter_cases (st : ParseState) (line : String) :
    ((parseLine st line).conv.Model = st.conv.Model ∧
      (parseLine st line).conv.Parameters = st.conv.Parameters) ∨
    ∃ key value, keyValue line = some (key, value) ∧
      (((parseLine st line).conv.Model = value ∧
          (parseLine st line).conv.Parameters = st.conv.Parameters) ∨
        ((parseLine st line).conv.Model = st.conv.Model ∧
          (parseLine st line).conv.Parameters = st.conv.Parameters) ∨
        ((parseLine st line).conv.Model = st.conv.Model ∧
          (parseLine st line).conv.Parameters = mapSet st.conv.Parameters key value)) := by
  by_cases hl : line = "---"
  · left; rw [hl, parseLine_delimiter]; exact ⟨rfl, rfl⟩
  · cases hfm : st.inFrontMatter with
    | false =>
      left
      obtain ⟨_, h2, _, h4⟩ := parseLine_outside st line hfm hl
      exact ⟨h2, h4⟩
    | true =>
      rw [parseLine_inside st line hfm hl, frontMatterLine_eq]
      cases hkv : keyValue line with
      | none => left; exact ⟨rfl, rfl⟩
      | some kv =>
        obtain ⟨k, v⟩ := kv
        right
        refine ⟨k, v, rfl, ?_⟩
        simp only []
        split_ifs
        · left; exact ⟨rfl, rfl⟩
        · right; left; exact ⟨rfl, rfl⟩
        · right; right; exact ⟨rfl, rfl⟩

/-- The initial state has the invariant. -/
theorem parsedInvariant_init : parsedInvariant initState := by
  refine ⟨?_, Or.inl rfl, ?_, ?_, ?_⟩
  · intro m hm; cases hm
  · decide
  · decide
  · intro p hp; cases hp

/-- The pending message has role "You" or "Response" and a trimmed content. -/
theorem pending_ok (st : ParseState)
    (hrole : st.currentRole = "" ∨ st.currentRole = "You" ∨ st.currentRole = "Response") :
    ∀ m ∈ pending st,
      (m.Role = "You" ∨ m.Role = "Response") ∧ TrimSpace m.Content = m.Content := by
  intro m hm
  unfold pending at hm
  split_ifs at hm with h
  · rw [List.mem_singleton.mp hm]
    refine ⟨?_, TrimSpace_idem _⟩
    rcases hrole with h0 | h1
    · exact absurd h0 h.1
    · exact h1
  · cases hm

/-- One iteration over a line without newline keeps the invariant. -/
theorem parsedInvariant_step (st : ParseState) (line : String) (hline : '\n' ∉ line.data)
    (h : parsedInvariant st) : parsedInvariant (parseLine st line) := by
  obtain ⟨i1, i2, i3, i4, i5⟩ := h
  refine ⟨?_, ?_, ?_, ?_, ?_⟩
  · rcases parseLine_cases st line with ⟨_, _, c3⟩ | ⟨_, _, _, c3⟩ | ⟨_, c2, _⟩
    · rw [c3]; exact i1
    · rw [c3]; exact i1
    · rw [c2]
      intro m hm
      rcases List.mem_append.mp hm with hm | hm
      · exact i1 m hm
      · exact pending_ok st i2 m hm
  · rcases parseLine_cases st line with ⟨c1, _, _⟩ | ⟨_, c1, _, _⟩ | ⟨c1, _, _⟩
    · rw [c1]; exact i2
    · rw [c1]; exact i2
    · exact Or.inr c1
  · rcases parseLine_title_cases st line with ht | ht
    · rw [ht]; exact i3
    · rw [ht]
      exact fun hn => hline ((TrimPrefix_sublist line _).subset hn)
  · rcases parseLine_frontMatter_cases st line with ⟨hm, _⟩ |
      ⟨k, v, hkv, ⟨hm, _⟩ | ⟨hm, _⟩ | ⟨hm, _⟩⟩
    · rw [hm]; exact i4
    · rw [hm]
      exact fun hn => hline ((keyValue_sublist line k v hkv).2.subset hn)
    · rw [hm]; exact i4
    · rw [hm]; exact i4
  · rcases parseLine_frontMatter_cases st line with ⟨_, hp⟩ |
      ⟨k, v, hkv, ⟨_, hp⟩ | ⟨_, hp⟩ | ⟨_, hp⟩⟩
    · rw [hp]; exact i5
    · rw [hp]; exact i5
    · rw [hp]; exact i5
    · rw [hp]
      intro p hpm
      rcases mem_mapSet _ _ _ _ hpm with h | h
      · exact i5 p h
      · rw [h]
        exact ⟨fun hn => hline ((keyValue_sublist line k v hkv).1.subset hn),
          fun hn => hline ((keyValue_sublist line k v hkv).2.subset hn)⟩

/-- The pass over lines without newline keeps the invariant. -/
theorem parsedInvariant_fold (lines : List String) (st : ParseState)
    (hlines : ∀ l ∈ lines, '\n' ∉ l.data) (h : parsedInvariant st) :
    parsedInvariant (lines.foldl parseLine st) := by
  induction lines generalizing st with
  | nil => exact h
  | cons l ls ih =>
    rw [List.foldl_cons]
    exact ih _ (fun x hx => hlines x (List.mem_cons_of_mem _ hx))
      (parsedInvariant_step st l (hlines l (List.mem_cons_self _ _)) h)

/-- A parsed conversation has messages with role "You" or "Response" and
trimmed content, at least one of them, and no newline in its title, its model
and its parameters. -/
theorem parsed_properties (d : String) (c : Conversation) (h : ParseContent d = Except.ok c) :
    (∀ m ∈ c.Messages,
      (m.Role = "You" ∨ m.Role = "Response") ∧ TrimSpace m.Content = m.Content) ∧
    '\n' ∉ c.Title.data ∧ '\n' ∉ c.Model.data ∧
    (∀ p ∈ c.Parameters, '\n' ∉ p.1.data ∧ '\n' ∉ p.2.data) ∧
    c.Messages ≠ [] := by
  obtain ⟨hc, hlen⟩ := ParseContent_ok d c h
  obtain ⟨i1, i2, i3, i4, i5⟩ := parsedInvariant_fold (scanLines d) initState
    (fun l hl => (scanLines_mem d l hl).1) parsedInvariant_init
  obtain ⟨c1, c2, _, c4, _⟩ := closeLast_fields (parseLoop (scanLines d))
  have hne : c.Messages ≠ [] := fun he => hlen (by rw [he]; rfl)
  rw [hc]
  refine ⟨?_, by rw [c1]; exact i3, by rw [c2]; exact i4, by rw [c4]; exact i5, by rw [← hc]; exact hne⟩
  rw [closeLast_messages]
  intro m hm
  rcases List.mem_append.mp hm with hm | hm
  · exact i1 m hm
  · exact pending_ok _ i2 m hm

/-- A line without newline, followed by a newline and more text, is the first raw line. -/
theorem rawLines_line (l rest : List Char) (hl : '\n' ∉ l) :
    rawLines (l ++ '\n' :: rest) = l :: rawLines rest := by
  rw [rawLines_append_newline, splitNL_no_newline l hl]
  rfl

/-- The raw lines of the parameter lines of the front matter. -/
theorem rawLines_parameters (iter : List (String × String)) (rest : List Char)
    (hiter : ∀ p ∈ iter, '\n' ∉ p.1.data ∧ '\n' ∉ p.2.data) :
    rawLines ((String.join (iter.map (fun kv => kv.1 ++ ": " ++ kv.2 ++ "\n"))).data ++ rest) =
      iter.map (fun kv => (kv.1 ++ ": " ++ kv.2).data) ++ rawLines rest := by
  rw [String.join_eq]
  induction iter with
  | nil => rfl
  | cons kv iter ih =>
    have hno : '\n' ∉ (kv.1 ++ ": " ++ kv.2).data := by
      simp only [String.data_append, List.mem_append, not_or]
      exact ⟨⟨(hiter kv (List.mem_cons_self _ _)).1, by decide⟩,
        (hiter kv (List.mem_cons_self _ _)).2⟩
    have hshape : (List.map String.data
        (List.map (fun kv : String × String => kv.1 ++ ": " ++ kv.2 ++ "\n") (kv :: iter))).flatten
          ++ rest =
        (kv.1 ++ ": " ++ kv.2).data ++ '\n' :: ((List.map String.data
          (List.map (fun kv : String × String => kv.1 ++ ": " ++ kv.2 ++ "\n") iter)).flatten
            ++ rest) := by
      simp [String.data_append, List.append_assoc]
    rw [hshape, rawLines_line _ _ hno, ih (fun p hp => hiter p (List.mem_cons_of_mem _ hp))]
    rfl

/-- The raw lines of the front-matter part, followed by more text. -/
theorem rawLines_frontMatterPart (c : Conversation) (iter : List (String × String))
    (rest : List Char) (hmodel : '\n' ∉ c.Model.data)
    (hiter : ∀ p ∈ iter, '\n' ∉ p.1.data ∧ '\n' ∉ p.2.data) :
    rawLines ((frontMatterPart c iter).data ++ rest) =
      frontMatterRawLines c iter ++ rawLines rest := by
  unfold frontMatterPart frontMatterRawLines
  by_cases hfm : c.Model ≠ "" ∨ c.Parameters ≠ []
  · rw [if_pos hfm, if_pos hfm]
    have hdash : '\n' ∉ ("---" : String).data := by decide
    by_cases hm : c.Model ≠ ""
    · rw [if_pos hm, if_pos hm]
      have hno : '\n' ∉ ("model: " ++ c.Model).data := by
        simp only [String.data_append, List.mem_append, not_or]
        exact ⟨by decide, hmodel⟩
      have hshape : ("---\n" ++ ("model: " ++ c.Model ++ "\n") ++
          String.join (iter.map (fun kv => kv.1 ++ ": " ++ kv.2 ++ "\n")) ++ "---\n\n").data ++ rest =
          ("---" : String).data ++ '\n' :: (("model: " ++ c.Model).data ++ '\n' ::
            ((String.join (iter.map (fun kv => kv.1 ++ ": " ++ kv.2 ++ "\n"))).data ++
              (("---" : String).data ++ '\n' :: ('\n' :: rest)))) := by
        simp [String.data_append, List.append_assoc]
      rw [hshape, rawLines_line _ _ hdash, rawLines_line _ _ hno,
        rawLines_parameters iter _ hiter, rawLines_line _ _ hdash, rawLines_cons_newline]
      simp
    · rw [if_neg hm, if_neg hm]
      have hshape : ("---\n" ++ "" ++
          String.join (iter.map (fun kv => kv.1 ++ ": " ++ kv.2 ++ "\n")) ++ "---\n\n").data ++ rest =
          ("---" : String).data ++ '\n' ::
            ((String.join (iter.map (fun kv => kv.1 ++ ": " ++ kv.2 ++ "\n"))).data ++
              (("---" : String).data ++ '\n' :: ('\n' :: rest))) := by
        simp [String.data_append, List.append_assoc]
      rw [hshape, rawLines_line _ _ hdash,
        rawLines_parameters iter _ hiter, rawLines_line _ _ hdash, rawLines_cons_newline]
      simp
  · rw [if_neg hfm, if_neg hfm]
    rfl

/-- The raw lines of the title part, followed by more text. -/
theorem rawLines_titlePart (c : Conversation) (rest : List Char) (ht : '\n' ∉ c.Title.data) :
    rawLines ((titlePart c).data ++ rest) = titleRawLines c ++ rawLines rest := by
  unfold titlePart titleRawLines
  by_cases h : c.Title ≠ ""
  · rw [if_pos h, if_pos h, rawLines_title _ _ ht]
    rfl
  · rw [if_neg h, if_neg h]
    rfl

/-- The raw lines of the serialised document: those of the front matter, of the
title and of the messages. -/
theorem rawLines_ConversationString (c : Conversation) (iter : List (String × String))
    (hmodel : '\n' ∉ c.Model.data) (ht : '\n' ∉ c.Title.data)
    (hiter : ∀ p ∈ iter, '\n' ∉ p.1.data ∧ '\n' ∉ p.2.data) :
    rawLines (ConversationString c iter).data =
      frontMatterRawLines c iter ++ titleRawLines c ++ c.Messages.flatMap messageRawLines := by
  rw [ConversationString_parts]
  have hdata : (frontMatterPart c iter ++ titlePart c ++
      String.join (c.Messages.map messagePart)).data =
      (frontMatterPart c iter).data ++ ((titlePart c).data ++
        (String.join (c.Messages.map messagePart)).data) := by
    simp [String.data_append, List.append_assoc]
  rw [hdata, rawLines_frontMatterPart c iter _ hmodel hiter, rawLines_titlePart c _ ht,
    rawLines_messages, List.append_assoc]

/-- A raw line that does not end in a carriage return is delivered as it is. -/
theorem dropCR_of_not_cr (l : List Char) (h : l.getLast? ≠ some '\r') : dropCR l = l := by
  unfold dropCR
  rw [if_neg h]

/-- Dropping a trailing carriage return keeps a colon. -/
theorem colon_dropCR (l : List Char) (h : ':' ∈ l) : ':' ∈ dropCR l := by
  unfold dropCR
  split_ifs with hl
  · have h2 : l.dropLast ++ ['\r'] = l := List.dropLast_append_getLast? '\r' (by rw [hl]; rfl)
    rw [← h2] at h
    rcases List.mem_append.mp h with h | h
    · exact h
    · simp at h
  · exact h

/-- A raw line with a colon is not delivered as the front-matter delimiter. -/
theorem colon_ne_delimiter (l : List Char) (h : ':' ∈ l) : String.mk (dropCR l) ≠ "---" := by
  intro he
  have h2 := colon_dropCR l h
  have h3 : dropCR l = ("---" : String).data := congrArg String.data he
  rw [h3] at h2
  revert h2
  decide

/-- The scanned lines of the front-matter part: none, or a `---` line, lines
other than `---`, a `---` line and a blank line. -/
theorem frontMatter_scanned (c : Conversation) (iter : List (String × String)) :
    (frontMatterRawLines c iter).map (fun l => String.mk (dropCR l)) = [] ∨
      ∃ L : List String, (∀ l ∈ L, l ≠ "---") ∧
        (frontMatterRawLines c iter).map (fun l => String.mk (dropCR l)) =
          "---" :: (L ++ ["---", ""]) := by
  unfold frontMatterRawLines
  by_cases hfm : c.Model ≠ "" ∨ c.Parameters ≠ []
  · right
    rw [if_pos hfm]
    refine ⟨((if c.Model ≠ "" then [("model: " ++ c.Model).data] else []) ++
        iter.map (fun kv => (kv.1 ++ ": " ++ kv.2).data)).map (fun l => String.mk (dropCR l)),
      ?_, ?_⟩
    · intro l hl
      obtain ⟨raw, hraw, rfl⟩ := List.mem_map.mp hl
      apply colon_ne_delimiter
      rcases List.mem_append.mp hraw with h | h
      · split_ifs at h
        · rw [List.mem_singleton.mp h, String.data_append]
          exact List.mem_append_left _ (by decide)
        · cases h
      · obtain ⟨kv, _, rfl⟩ := List.mem_map.mp h
        simp only [String.data_append]
        exact List.mem_append_left _ (List.mem_append_right _ (by decide))
    · simp only [List.map_cons, List.map_append, List.map_nil]
      rfl
  · left
    rw [if_neg hfm]
    rfl

/-- A front-matter line changes neither the title nor the messages. -/
theorem frontMatterLine_fields (conv : Conversation) (line : String) :
    (frontMatterLine conv line).Title = conv.Title ∧
    (frontMatterLine conv line).Messages = conv.Messages := by
  rw [frontMatterLine_eq]
  cases keyValue line with
  | none => exact ⟨rfl, rfl⟩
  | some kv =>
    obtain ⟨k, v⟩ := kv
    simp only []
    split_ifs <;> exact ⟨rfl, rfl⟩

/-- Inside front matter, lines other than `---` change neither the role, the
buffer, the messages nor the title. -/
theorem frontMatter_lines_fold (L : List String) (st : ParseState)
    (hfm : st.inFrontMatter = true) (hL : ∀ l ∈ L, l ≠ "---") :
    (L.foldl parseLine st).inFrontMatter = true ∧
    (L.foldl parseLine st).currentRole = st.currentRole ∧
    (L.foldl parseLine st).currentContent = st.currentContent ∧
    (L.foldl parseLine st).conv.Messages = st.conv.Messages ∧
    (L.foldl parseLine st).conv.Title = st.conv.Title := by
  induction L generalizing st with
  | nil => exact ⟨hfm, rfl, rfl, rfl, rfl⟩
  | cons l L ih =>
    rw [List.foldl_cons]
    have hstep := parseLine_inside st l hfm (hL l (List.mem_cons_self _ _))
    have hf := frontMatterLine_fields st.conv l
    obtain ⟨a1, a2, a3, a4, a5⟩ := ih (parseLine st l) (by rw [hstep]; exact hfm)
      (fun x hx => hL x (List.mem_cons_of_mem _ hx))
    refine ⟨a1, ?_, ?_, ?_, ?_⟩
    · rw [a2, hstep]
    · rw [a3, hstep]
    · rw [a4, hstep]; exact hf.2
    · rw [a5, hstep]; exact hf.1

/-- After the pass over the scanned front-matter part, the state is outside front
matter, with no turn open, no message and no title. -/
theorem frontMatter_block_fold (F : List String)
    (hF : F = [] ∨ ∃ L : List String, (∀ l ∈ L, l ≠ "---") ∧ F = "---" :: (L ++ ["---", ""])) :
    (F.foldl parseLine initState).inFrontMatter = false ∧
    (F.foldl parseLine initState).currentRole = "" ∧
    (F.foldl parseLine initState).currentContent = "" ∧
    (F.foldl parseLine initState).conv.Messages = [] ∧
    (F.foldl parseLine initState).conv.Title = "" := by
  rcases hF with rfl | ⟨L, hL, rfl⟩
  · exact ⟨rfl, rfl, rfl, rfl, rfl⟩
  · have e : ("---" :: (L ++ ["---", ""])).foldl parseLine initState =
        parseLine (parseLine (L.foldl parseLine (parseLine initState "---")) "---") "" := by
      simp [List.foldl_append]
    rw [e]
    have h0 : parseLine initState "---" =
        { initState with inFrontMatter := !initState.inFrontMatter } := parseLine_delimiter _
    obtain ⟨a1, a2, a3, a4, a5⟩ := frontMatter_lines_fold L (parseLine initState "---")
      (by rw [h0]; rfl) hL
    rw [h0] at a2 a3 a4 a5
    have h2 := parseLine_delimiter (L.foldl parseLine (parseLine initState "---"))
    have b1 : (parseLine (L.foldl parseLine (parseLine initState "---")) "---").inFrontMatter
        = false := by rw [h2]; simp [a1]
    have b2 : (parseLine (L.foldl parseLine (parseLine initState "---")) "---").currentRole
        = "" := by rw [h2]; exact a2
    have b3 : (parseLine (L.foldl parseLine (parseLine initState "---")) "---").currentContent
        = "" := by rw [h2]; exact a3
    have b4 : (parseLine (L.foldl parseLine (parseLine initState "---")) "---").conv.Messages
        = [] := by rw [h2]; exact a4
    have b5 : (parseLine (L.foldl parseLine (parseLine initState "---")) "---").conv.Title
        = "" := by rw [h2]; exact a5
    have hblank : TrimSpace "" = "" := rfl
    rw [parseLine_blank _ "" b1 b2 hblank]
    exact ⟨b1, b2, b3, b4, b5⟩

/-- The scanned lines of the title part, for a title that does not end in a
carriage return. -/
theorem title_scanned (c : Conversation) (h : c.Title.data.getLast? ≠ some '\r') :
    (titleRawLines c).map (fun l => String.mk (dropCR l)) =
      if c.Title ≠ "" then ["# " ++ c.Title, ""] else [] := by
  unfold titleRawLines
  by_cases ht : c.Title ≠ ""
  · rw [if_pos ht, if_pos ht]
    have hne : c.Title.data ≠ [] := fun he => ht (String.ext he)
    have hlast : ("# " ++ c.Title).data.getLast? ≠ some '\r' := by
      rw [String.data_append, List.getLast?_append_of_ne_nil _ hne]
      exact h
    simp only [List.map_cons, List.map_nil, dropCR_of_not_cr _ hlast]
    rfl
  · rw [if_neg ht, if_neg ht]
    rfl

/-- The scanned lines of the part of a message whose content lines do not end in a
carriage return: the heading and the lines of the message's turn. -/
theorem message_scanned (m : Message)
    (h : ∀ l ∈ splitNL m.Content.data, l.getLast? ≠ some '\r') :
    (messageRawLines m).map (fun l => String.mk (dropCR l)) =
      (toTurn m).heading :: (toTurn m).lines := by
  unfold messageRawLines toTurn Turn.heading
  have hpieces : (splitNL m.Content.data).map (fun l => String.mk (dropCR l)) =
      (splitNL m.Content.data).map String.mk := by
    apply List.map_congr_left
    intro l hl
    rw [dropCR_of_not_cr l (h l hl)]
  simp only [List.map_cons, List.map_append, List.map_nil, hpieces]
  by_cases hr : m.Role = "You"
  · simp only [hr, if_true, decide_True]
    rfl
  · simp only [hr, if_false, decide_False]
    rfl

/-- The scanned lines of the message parts are the lines of the messages' turns. -/
theorem messages_scanned (msgs : List Message)
    (h : ∀ m ∈ msgs, ∀ l ∈ splitNL m.Content.data, l.getLast? ≠ some '\r') :
    (msgs.flatMap messageRawLines).map (fun l => String.mk (dropCR l)) =
      turnLines (msgs.map toTurn) := by
  induction msgs with
  | nil => rfl
  | cons m msgs ih =>
    rw [List.flatMap_cons, List.map_append, message_scanned m (h m (List.mem_cons_self _ _)),
      ih (fun x hx => h x (List.mem_cons_of_mem _ hx))]
    rfl

/-- The pieces of a text, each behind a newline, give the text behind a newline. -/
theorem flatten_splitNL (x : List Char) :
    ((splitNL x).map (fun b => '\n' :: b)).flatten = '\n' :: x := by
  induction x with
  | nil => rfl
  | cons c x ih =>
    by_cases hc : c = '\n'
    · subst hc
      rw [splitNL_cons_newline, List.map_cons, List.flatten_cons, ih]
      rfl
    · obtain ⟨q, qs, h1, h2⟩ := splitNL_cons_other c x hc
      rw [h1] at ih
      rw [h2]
      simp only [List.map_cons, List.flatten_cons, List.cons_append, List.cons.injEq,
        true_and] at ih ⊢
      rw [ih]

/-- The turn of a message with role "You" or "Response" and trimmed content has
that message. -/
theorem toTurn_message (m : Message) (hrole : m.Role = "You" ∨ m.Role = "Response")
    (htrim : TrimSpace m.Content = m.Content) : (toTurn m).message = m := by
  have hrole2 : (toTurn m).role = m.Role := by
    unfold toTurn Turn.role
    rcases hrole with h | h
    · simp [h]
    · simp [h]
  have hdata : (String.intercalate "\n" (toTurn m).lines).data =
      '\n' :: (m.Content.data ++ ['\n']) := by
    unfold toTurn
    simp only [String.intercalate, intercalate_go_data]
    have hmap : (((splitNL m.Content.data).map String.mk ++ [""]).map
        (fun a : String => ("\n" : String).data ++ a.data)) =
        (splitNL m.Content.data).map (fun b => '\n' :: b) ++ [['\n']] := by
      simp [List.map_map]
    rw [hmap, List.flatten_append, flatten_splitNL]
    rfl
  have hcontent : TrimSpace (String.intercalate "\n" (toTurn m).lines) = m.Content := by
    have h1 : TrimSpace (String.intercalate "\n" (toTurn m).lines) = TrimSpace m.Content := by
      unfold TrimSpace
      rw [hdata, trimChars_cons_space _ _ isSpace_newline,
        trimChars_append_space _ _ isSpace_newline]
    rw [h1, htrim]
  unfold Turn.message
  rw [hrole2, hcontent]

/-- The turn of a message has lines, and they are content lines if the lines of
the content are. -/
theorem toTurn_lines (m : Message)
    (h : ∀ l ∈ splitNL m.Content.data, contentLine (String.mk l)) :
    (toTurn m).lines ≠ [] ∧ ∀ l ∈ (toTurn m).lines, contentLine l := by
  unfold toTurn
  refine ⟨by simp, ?_⟩
  intro l hl
  simp only [List.mem_cons, List.mem_append, List.mem_map, List.mem_singleton,
    List.not_mem_nil, or_false] at hl
  rcases hl with rfl | ⟨p, hp, rfl⟩ | rfl
  · decide
  · exact h p hp
  · decide

/-- The pass over the scanned title part, if there is one, sets the title and
nothing else. -/
theorem title_lines_fold (c : Conversation) (st : ParseState)
    (hfm : st.inFrontMatter = false) (hrole : st.currentRole = "")
    (hbuf : st.currentContent = "") (hmsgs : st.conv.Messages = []) (ht : st.conv.Title = "") :
    wellFormed ((if c.Title ≠ "" then ["# " ++ c.Title, ""] else []).foldl parseLine st) ∧
    ((if c.Title ≠ "" then ["# " ++ c.Title, ""] else []).foldl parseLine st).conv.Messages
      = [] ∧
    pending ((if c.Title ≠ "" then ["# " ++ c.Title, ""] else []).foldl parseLine st) = [] ∧
    ((if c.Title ≠ "" then ["# " ++ c.Title, ""] else []).foldl parseLine st).conv.Title
      = c.Title := by
  have hpend : ∀ s : ParseState, s.currentRole = "" → pending s = [] := by
    intro s hs
    unfold pending
    rw [if_neg (by simp [hs])]
  by_cases h : c.Title ≠ ""
  · rw [if_pos h]
    obtain ⟨s1, s2, s3, s4, s5, _⟩ := title_step st c.Title hfm
    have hblank : TrimSpace "" = "" := rfl
    rw [List.foldl_cons, List.foldl_cons, List.foldl_nil,
      parseLine_blank _ "" s3 (by rw [s1, hrole]) hblank]
    exact ⟨⟨s3, fun _ => by rw [s2, hbuf]⟩, by rw [s4, hmsgs],
      hpend _ (by rw [s1, hrole]), s5⟩
  · rw [if_neg h, List.foldl_nil]
    have h2 : c.Title = "" := by simpa using h
    exact ⟨⟨hfm, fun _ => hbuf⟩, hmsgs, hpend _ hrole, by rw [ht, h2]⟩

/-- C3 (amended). Let `ParseContent` succeed on a document `d` (in particular on an
output of `String`) with the conversation `c1`, and let `iter` be an order of
the parameters of `c1`. If no line of the text `String(c1)` is too long for the
scanner, the title of `c1` does not end in a carriage return, and no line of a
message content of `c1` equals `---`, begins with `# `, `## You` or
`### Response`, or ends in a carriage return, then `ParseContent(String(c1))`
succeeds with the same title, the same sequence of message roles and the same
per-message content as `c1`. -/
theorem roundTrip_parse (d : String) (c1 : Conversation) (iter : List (String × String))
    (h : ParseContent d = Except.ok c1)
    (hiter : iter.Perm c1.Parameters)
    (hfit : ∀ l ∈ rawLines (ConversationString c1 iter).data, fitsBuffer l = true)
    (htitle : c1.Title.data.getLast? ≠ some '\r')
    (hlines : ∀ m ∈ c1.Messages, ∀ l ∈ splitNL m.Content.data,
      contentLine (String.mk l) ∧ l.getLast? ≠ some '\r') :
    ∃ c2, ParseContent (ConversationString c1 iter) = Except.ok c2 ∧
      c2.Title = c1.Title ∧
      c2.Messages.map (fun m => m.Role) = c1.Messages.map (fun m => m.Role) ∧
      c2.Messages.map (fun m => m.Content) = c1.Messages.map (fun m => m.Content) := by
  obtain ⟨q1, q2, q3, q4, q5⟩ := parsed_properties d c1 h
  have hiter2 : ∀ p ∈ iter, '\n' ∉ p.1.data ∧ '\n' ∉ p.2.data :=
    fun p hp => q4 p (hiter.subset hp)
  have hraw := rawLines_ConversationString c1 iter q3 q2 hiter2
  have hscan : scanLines (ConversationString c1 iter) =
      (frontMatterRawLines c1 iter).map (fun l => String.mk (dropCR l)) ++
        ((if c1.Title ≠ "" then ["# " ++ c1.Title, ""] else []) ++
          turnLines (c1.Messages.map toTurn)) := by
    rw [scanLines_of_fit _ hfit, hraw, List.map_append, List.map_append,
      title_scanned c1 htitle,
      messages_scanned c1.Messages (fun m hm l hl => (hlines m hm l hl).2), List.append_assoc]
  obtain ⟨f1, f2, f3, f4, f5⟩ := frontMatter_block_fold _ (frontMatter_scanned c1 iter)
  obtain ⟨t1, t2, t3, t4⟩ := title_lines_fold c1 _ f1 f2 f3 f4 f5
  obtain ⟨u1, u2, u3, _⟩ := turns_fold (c1.Messages.map toTurn) _ t1 (by
    intro tn htn
    obtain ⟨m, hm, rfl⟩ := List.mem_map.mp htn
    exact toTurn_lines m (fun l hl => (hlines m hm l hl).1))
  have hmap : (c1.Messages.map toTurn).map Turn.message = c1.Messages := by
    rw [List.map_map]
    conv_rhs => rw [← List.map_id c1.Messages]
    apply List.map_congr_left
    intro m hm
    exact toTurn_message m (q1 m hm).1 (q1 m hm).2
  have hloop : parseLoop (scanLines (ConversationString c1 iter)) =
      (turnLines (c1.Messages.map toTurn)).foldl parseLine
        ((if c1.Title ≠ "" then ["# " ++ c1.Title, ""] else []).foldl parseLine
          (((frontMatterRawLines c1 iter).map (fun l => String.mk (dropCR l))).foldl
            parseLine initState)) := by
    unfold parseLoop
    rw [hscan, List.foldl_append, List.foldl_append]
  have hmsgs : (closeLast (parseLoop (scanLines (ConversationString c1 iter)))).Messages =
      c1.Messages := by
    rw [closeLast_messages, hloop, u2, t2, t3, hmap]
    rfl
  have htitle2 : (closeLast (parseLoop (scanLines (ConversationString c1 iter)))).Title =
      c1.Title := by
    rw [(closeLast_fields _).1, hloop, u3, t4]
  refine ⟨closeLast (parseLoop (scanLines (ConversationString c1 iter))), ?_, htitle2,
    by rw [hmsgs], by rw [hmsgs]⟩
  unfold ParseContent finish
  have hlen : (closeLast (parseLoop (scanLines (ConversationString c1 iter)))).Messages.length
      ≠ 0 := by
    rw [hmsgs]
    intro h0
    exact q5 (List.length_eq_zero.mp h0)
  simp only [hlen, if_false]

/-- Witness for C3: a conversation with model, title and two messages, one of two lines. -/
theorem roundTrip_parse_witness :
    ∃ c2, ParseContent (ConversationString
        { Title := "T", Prompt := "", Model := "m", ProjectDirectory := "", Parameters := [],
          Messages := [{ Role := "You", Content := "A\nB" }, { Role := "Response", Content := "C" }],
          ReferenceMaterial := [], IncludeFiles := false, ResourceRequests := [] } [])
        = Except.ok c2 ∧
      c2.Title = "T" ∧
      c2.Messages.map (fun m => m.Role) = ["You", "Response"] ∧
      c2.Messages.map (fun m => m.Content) = ["A\nB", "C"] :=
  roundTrip_parse "---\nmodel: m\n---\n# T\n## You\nA\nB\n### Response\nC"
    { Title := "T", Prompt := "", Model := "m", ProjectDirectory := "", Parameters := [],
      Messages := [{ Role := "You", Content := "A\nB" }, { Role := "Response", Content := "C" }],
      ReferenceMaterial := [], IncludeFiles := false, ResourceRequests := [] } []
    rfl (List.Perm.refl _) (by decide) (by decide) (by decide)

/-- C3 as stated fails. The document `String` writes for the message You:" # foo"
parses to the content "# foo"; serialised again, the line `# foo` is read as a
title: the second parse has title "foo" and content "". Likewise a title or a
content line that ends in a carriage return loses it in the second parse. -/
theorem roundTrip_parse_fails :
    ConversationString
        { Title := "", Prompt := "", Model := "", ProjectDirectory := "", Parameters := [],
          Messages := [{ Role := "You", Content := " # foo" }],
          ReferenceMaterial := [], IncludeFiles := false, ResourceRequests := [] } []
      = "## You\n\n # foo\n\n" ∧
    ParseContent "## You\n\n # foo\n\n" =
      Except.ok
        { Title := "", Prompt := "", Model := "", ProjectDirectory := "", Parameters := [],
          Messages := [{ Role := "You", Content := "# foo" }],
          ReferenceMaterial := [], IncludeFiles := false, ResourceRequests := [] } ∧
    ParseContent (ConversationString
        { Title := "", Prompt := "", Model := "", ProjectDirectory := "", Parameters := [],
          Messages := [{ Role := "You", Content := "# foo" }],
          ReferenceMaterial := [], IncludeFiles := false, ResourceRequests := [] } []) =
      Except.ok
        { Title := "foo", Prompt := "", Model := "", ProjectDirectory := "", Parameters := [],
          Messages := [{ Role := "You", Content := "" }],
          ReferenceMaterial := [], IncludeFiles := false, ResourceRequests := [] } ∧
    ("foo" : String) ≠ "" ∧ ([""] : List String) ≠ ["# foo"] ∧
    ConversationString
        { Title := "T\r\r", Prompt := "", Model := "", ProjectDirectory := "", Parameters := [],
          Messages := [{ Role := "You", Content := "a\r\r\nb" }],
          ReferenceMaterial := [], IncludeFiles := false, ResourceRequests := [] } []
      = "# T\r\r\n\n## You\n\na\r\r\nb\n\n" ∧
    ParseContent "# T\r\r\n\n## You\n\na\r\r\nb\n\n" =
      Except.ok
        { Title := "T\r", Prompt := "", Model := "", ProjectDirectory := "", Parameters := [],
          Messages := [{ Role := "You", Content := "a\r\nb" }],
          ReferenceMaterial := [], IncludeFiles := false, ResourceRequests := [] } ∧
    ParseContent (ConversationString
        { Title := "T\r", Prompt := "", Model := "", ProjectDirectory := "", Parameters := [],
          Messages := [{ Role := "You", Content := "a\r\nb" }],
          ReferenceMaterial := [], IncludeFiles := false, ResourceRequests := [] } []) =
      Except.ok
        { Title := "T", Prompt := "", Model := "", ProjectDirectory := "", Parameters := [],
          Messages := [{ Role := "You", Content := "a\nb" }],
          ReferenceMaterial := [], IncludeFiles := false, ResourceRequests := [] } ∧
    ("T" : String) ≠ "T\r" ∧ (["a\nb"] : List String) ≠ ["a\r\nb"] :=
  ⟨rfl, rfl, rfl, by decide, by decide, rfl, rfl, rfl, by decide, by decide⟩

/-! ## C3: a serialised line that grows past the scanner's buffer -/

/-- A run of `n` letters `x` has `n` bytes. -/
theorem utf8Len_replicate_x (n : Nat) : String.utf8Len (List.replicate n 'x') = n := by
  induction n with
  | zero => rfl
  | succ n ih =>
    rw [List.replicate_succ, String.utf8Len_cons, ih]
    rfl

/-- The long run has no newline. -/
theorem longRun_no_newline : '\n' ∉ longRun := by
  unfold longRun
  intro h
  have := List.eq_of_mem_replicate h
  revert this
  decide

/-- The long run has 65530 bytes. -/
theorem longRun_utf8Len : String.utf8Len longRun = 65530 := by
  unfold longRun
  exact utf8Len_replicate_x 65530

/-- The long run begins with the letter `x`. -/
theorem longRun_cons : ∃ t, longRun = 'x' :: t := by
  unfold longRun
  exact ⟨List.replicate 65529 'x', rfl⟩

/-- A text that begins and ends with characters that are no white space is trimmed. -/
theorem trimChars_of_ends (y : List Char) (c : Char) (t : List Char) (c' : Char)
    (t' : List Char) (h1 : y = c :: t) (h2 : isSpace c = false) (h3 : y.reverse = c' :: t')
    (h4 : isSpace c' = false) : trimChars y = y := by
  have e1 : y.dropWhile isSpace = y := by
    rw [h1, List.dropWhile_cons]
    simp [h2]
  have e2 : y.reverse.dropWhile isSpace = y.reverse := by
    rw [h3, List.dropWhile_cons]
    simp [h4]
  unfold trimChars
  rw [e1, e2, List.reverse_reverse]

/-- The value `x…x: c` read backwards. -/
theorem longValue_reverse :
    (longRun ++ [':', ' ', 'c']).reverse = 'c' :: (' ' :: ':' :: longRun.reverse) := by
  rw [List.reverse_append]
  rfl

/-- The value `x…x: c` begins with the letter `x`. -/
theorem longValue_cons (t : List Char) (ht : longRun = 'x' :: t) :
    longRun ++ [':', ' ', 'c'] = 'x' :: (t ++ [':', ' ', 'c']) := by
  rw [ht]
  rfl

/-- The letter `x` is no white space. -/
theorem isSpace_x : isSpace 'x' = false := by decide

/-- The letter `c` is no white space. -/
theorem isSpace_c : isSpace 'c' = false := by decide

/-- The value `x…x: c` is trimmed. -/
theorem longValue_trimmed : trimChars (longRun ++ [':', ' ', 'c']) = longRun ++ [':', ' ', 'c'] := by
  obtain ⟨t, ht⟩ := longRun_cons
  exact trimChars_of_ends _ 'x' (t ++ [':', ' ', 'c']) 'c' (' ' :: ':' :: longRun.reverse)
    (longValue_cons t ht) isSpace_x longValue_reverse isSpace_c

/-- The parameter of `longKeyConversation` has no newline. -/
theorem longKey_no_newline :
    ∀ p ∈ longKeyConversation.Parameters, '\n' ∉ p.1.data ∧ '\n' ∉ p.2.data := by
  intro p hp
  have hp2 : p = (String.mk ('a' :: ':' :: longRun), "c") := by
    unfold longKeyConversation at hp
    exact List.mem_singleton.mp hp
  rw [hp2]
  constructor
  · intro h
    rcases List.mem_cons.mp h with h | h
    · revert h; decide
    · rcases List.mem_cons.mp h with h | h
      · revert h; decide
      · exact longRun_no_newline h
  · intro h
    rcases List.mem_cons.mp h with h | h
    · revert h; decide
    · cases h

/-- The conversation `longKeyConversation` has no model. -/
theorem longKey_model : longKeyConversation.Model = "" := by
  unfold longKeyConversation
  rfl

/-- The conversation `longKeyConversation` has no title. -/
theorem longKey_title : longKeyConversation.Title = "" := by
  unfold longKeyConversation
  rfl

/-- The parameters of `longKeyConversation`. -/
theorem longKey_parameters :
    longKeyConversation.Parameters = [(String.mk ('a' :: ':' :: longRun), "c")] := by
  unfold longKeyConversation
  rfl

/-- The messages of `longKeyConversation`. -/
theorem longKey_messages :
    longKeyConversation.Messages = [{ Role := "You", Content := "hi" }] := by
  unfold longKeyConversation
  rfl

/-- The raw lines of the serialised `longKeyConversation`. -/
theorem longKey_rawLines :
    rawLines (ConversationString longKeyConversation longKeyConversation.Parameters).data =
      ["---".data, 'a' :: ':' :: (longRun ++ [':', ' ', 'c']), "---".data, [],
        "## You".data, [], "hi".data, []] := by
  have hm : '\n' ∉ longKeyConversation.Model.data := by rw [longKey_model]; decide
  have ht : '\n' ∉ longKeyConversation.Title.data := by rw [longKey_title]; decide
  rw [rawLines_ConversationString _ _ hm ht longKey_no_newline]
  have h1 : frontMatterRawLines longKeyConversation longKeyConversation.Parameters =
      ["---".data, 'a' :: ':' :: (longRun ++ [':', ' ', 'c']), "---".data, []] := by
    unfold frontMatterRawLines
    rw [longKey_model, longKey_parameters, if_pos (Or.inr (List.cons_ne_nil _ _)),
      if_neg (by decide)]
    simp only [List.map_cons, List.map_nil, String.data_append, List.nil_append,
      List.cons_append, List.singleton_append]
    rw [List.append_assoc]
    rfl
  have h2 : titleRawLines longKeyConversation = [] := by
    unfold titleRawLines
    rw [longKey_title]
    rfl
  have h3 : longKeyConversation.Messages.flatMap messageRawLines =
      ["## You".data, [], "hi".data, []] := by
    rw [longKey_messages]
    rfl
  rw [h1, h2, h3]
  rfl


/-- The line `a:x…x: c` has 65535 bytes. -/
theorem longLine_utf8Len :
    String.utf8Len ('a' :: ':' :: (longRun ++ [':', ' ', 'c'])) = 65535 := by
  rw [String.utf8Len_cons, String.utf8Len_cons, String.utf8Len_append, longRun_utf8Len]
  rfl

/-- The line `a:x…x: c` fits the scanner's buffer. -/
theorem longLine_fits :
    fitsBuffer ('a' :: ':' :: (longRun ++ [':', ' ', 'c'])) = true := by
  unfold fitsBuffer
  rw [decide_eq_true_eq, String.utf8ByteSize_mk, longLine_utf8Len]
  decide

/-- The line `a: x…x: c` has 65536 bytes. -/
theorem longLine_grown_utf8Len :
    String.utf8Len ('a' :: ':' :: ' ' :: (longRun ++ [':', ' ', 'c'])) = 65536 := by
  rw [String.utf8Len_cons, String.utf8Len_cons, String.utf8Len_cons, String.utf8Len_append,
    longRun_utf8Len]
  rfl

/-- The line `a: x…x: c` does not fit the scanner's buffer. -/
theorem longLine_grown_too_long :
    fitsBuffer ('a' :: ':' :: ' ' :: (longRun ++ [':', ' ', 'c'])) = false := by
  unfold fitsBuffer
  rw [decide_eq_false_iff_not, String.utf8ByteSize_mk, longLine_grown_utf8Len]
  decide

/-- The line `a:x…x: c` ends with the letter `c`. -/
theorem longLine_last :
    ('a' :: ':' :: (longRun ++ [':', ' ', 'c'])).getLast? = some 'c' := by
  have h : 'a' :: ':' :: (longRun ++ [':', ' ', 'c']) =
      ('a' :: ':' :: (longRun ++ [':', ' '])) ++ ['c'] := by
    rw [List.cons_append, List.cons_append, List.append_assoc]
    rfl
  rw [h, List.getLast?_append_of_ne_nil _ (List.cons_ne_nil _ _)]
  rfl

/-- The line `a:x…x: c` is delivered as it is. -/
theorem longLine_dropCR :
    dropCR ('a' :: ':' :: (longRun ++ [':', ' ', 'c'])) =
      'a' :: ':' :: (longRun ++ [':', ' ', 'c']) := by
  apply dropCR_of_not_cr
  rw [longLine_last]
  decide

/-- The scanned lines of the serialised `longKeyConversation`. -/
theorem longKey_scanned :
    scanLines (ConversationString longKeyConversation longKeyConversation.Parameters) =
      ["---", String.mk ('a' :: ':' :: (longRun ++ [':', ' ', 'c'])), "---", "",
        "## You", "", "hi", ""] := by
  have hfit : ∀ l ∈ rawLines (ConversationString longKeyConversation
      longKeyConversation.Parameters).data, fitsBuffer l = true := by
    rw [longKey_rawLines]
    intro l hl
    simp only [List.mem_cons, List.mem_singleton, List.not_mem_nil, or_false] at hl
    rcases hl with rfl | rfl | rfl | rfl | rfl | rfl | rfl | rfl
    · decide
    · exact longLine_fits
    all_goals decide
  rw [scanLines_of_fit _ hfit, longKey_rawLines]
  simp only [List.map_cons, List.map_nil, longLine_dropCR]
  rfl

/-- The line `a:x…x: c` around its first colon. -/
theorem longLine_split :
    String.mk ('a' :: ':' :: (longRun ++ [':', ' ', 'c'])) =
      "a" ++ ":" ++ String.mk (longRun ++ [':', ' ', 'c']) := by
  apply String.ext
  rw [String.data_append, String.data_append]
  rfl

/-- The line `a:x…x: c` has the key `a` and the value `x…x: c`. -/
theorem longLine_keyValue :
    keyValue (String.mk ('a' :: ':' :: (longRun ++ [':', ' ', 'c']))) =
      some ("a", String.mk (longRun ++ [':', ' ', 'c'])) := by
  rw [longLine_split, keyValue_split "a" _ (by decide)]
  have h1 : TrimSpace "a" = "a" := by decide
  have h2 : TrimSpace (String.mk (longRun ++ [':', ' ', 'c'])) =
      String.mk (longRun ++ [':', ' ', 'c']) := by
    unfold TrimSpace
    rw [longValue_trimmed]
  rw [h1, h2]

/-- The line `a:x…x: c` is not the front-matter delimiter. -/
theorem longLine_ne_delimiter :
    String.mk ('a' :: ':' :: (longRun ++ [':', ' ', 'c'])) ≠ "---" := by
  intro h
  have h2 := congrArg String.data h
  have h3 : ("---" : String).data = '-' :: ['-', '-'] := rfl
  rw [h3] at h2
  have h4 := (List.cons.inj h2).1
  revert h4
  decide

/-- The state after the lines `---` and `a:x…x: c`: inside front matter, with the
parameter `a` and nothing else. -/
theorem longKey_frontMatter :
    (parseLine (parseLine initState "---")
        (String.mk ('a' :: ':' :: (longRun ++ [':', ' ', 'c'])))).inFrontMatter = true ∧
    (parseLine (parseLine initState "---")
        (String.mk ('a' :: ':' :: (longRun ++ [':', ' ', 'c'])))).currentRole = "" ∧
    (parseLine (parseLine initState "---")
        (String.mk ('a' :: ':' :: (longRun ++ [':', ' ', 'c'])))).currentContent = "" ∧
    (parseLine (parseLine initState "---")
        (String.mk ('a' :: ':' :: (longRun ++ [':', ' ', 'c'])))).conv.Messages = [] ∧
    (parseLine (parseLine initState "---")
        (String.mk ('a' :: ':' :: (longRun ++ [':', ' ', 'c'])))).conv.Title = "" ∧
    (parseLine (parseLine initState "---")
        (String.mk ('a' :: ':' :: (longRun ++ [':', ' ', 'c'])))).conv.Model = "" ∧
    (parseLine (parseLine initState "---")
        (String.mk ('a' :: ':' :: (longRun ++ [':', ' ', 'c'])))).conv.Parameters =
      [("a", String.mk (longRun ++ [':', ' ', 'c']))] := by
  have h0 : parseLine initState "---" =
      { initState with inFrontMatter := !initState.inFrontMatter } := parseLine_delimiter _
  have hstep := parseLine_inside (parseLine initState "---")
    (String.mk ('a' :: ':' :: (longRun ++ [':', ' ', 'c']))) (by rw [h0]; rfl)
    longLine_ne_delimiter
  have hconv : frontMatterLine (parseLine initState "---").conv
      (String.mk ('a' :: ':' :: (longRun ++ [':', ' ', 'c']))) =
      { (parseLine initState "---").conv with
        Parameters := mapSet (parseLine initState "---").conv.Parameters "a"
          (String.mk (longRun ++ [':', ' ', 'c'])) } := by
    rw [frontMatterLine_eq, longLine_keyValue]
    simp only []
    rw [if_neg (by decide), if_neg (by decide)]
  rw [hstep, hconv, h0]
  exact ⟨rfl, rfl, rfl, rfl, rfl, rfl, rfl⟩

/-- The serialised `longKeyConversation` parses, to a conversation without title
and model whose only parameter is `a` with the value `x…x: c`. -/
theorem longKey_parsed :
    ∃ c1, ParseContent (ConversationString longKeyConversation longKeyConversation.Parameters)
        = Except.ok c1 ∧
      c1.Title = "" ∧ c1.Model = "" ∧
      c1.Parameters = [("a", String.mk (longRun ++ [':', ' ', 'c']))] := by
  obtain ⟨f1, f2, f3, f4, f5, f6, f7⟩ := longKey_frontMatter
  have h2 := parseLine_delimiter (parseLine (parseLine initState "---")
    (String.mk ('a' :: ':' :: (longRun ++ [':', ' ', 'c']))))
  have b1 : (parseLine (parseLine (parseLine initState "---")
      (String.mk ('a' :: ':' :: (longRun ++ [':', ' ', 'c'])))) "---").inFrontMatter = false := by
    rw [h2]; simp [f1]
  have b2 : (parseLine (parseLine (parseLine initState "---")
      (String.mk ('a' :: ':' :: (longRun ++ [':', ' ', 'c'])))) "---").currentRole = "" := by
    rw [h2]; exact f2
  have b3 : (parseLine (parseLine (parseLine initState "---")
      (String.mk ('a' :: ':' :: (longRun ++ [':', ' ', 'c'])))) "---").currentContent = "" := by
    rw [h2]; exact f3
  have b4 : (parseLine (parseLine (parseLine initState "---")
      (String.mk ('a' :: ':' :: (longRun ++ [':', ' ', 'c'])))) "---").conv.Messages = [] := by
    rw [h2]; exact f4
  have b5 : (parseLine (parseLine (parseLine initState "---")
      (String.mk ('a' :: ':' :: (longRun ++ [':', ' ', 'c'])))) "---").conv.Title = "" := by
    rw [h2]; exact f5
  have b6 : (parseLine (parseLine (parseLine initState "---")
      (String.mk ('a' :: ':' :: (longRun ++ [':', ' ', 'c'])))) "---").conv.Model = "" := by
    rw [h2]; exact f6
  have b7 : (parseLine (parseLine (parseLine initState "---")
      (String.mk ('a' :: ':' :: (longRun ++ [':', ' ', 'c'])))) "---").conv.Parameters =
      [("a", String.mk (longRun ++ [':', ' ', 'c']))] := by
    rw [h2]; exact f7
  have hblank : TrimSpace "" = "" := rfl
  have hpend : pending (parseLine (parseLine (parseLine initState "---")
      (String.mk ('a' :: ':' :: (longRun ++ [':', ' ', 'c'])))) "---") = [] := by
    unfold pending
    rw [b2]
    rfl
  obtain ⟨_, u2, u3, u4, _, u6⟩ := turns_fold [{ user := true, lines := ["", "hi", ""] }]
    (parseLine (parseLine (parseLine initState "---")
      (String.mk ('a' :: ':' :: (longRun ++ [':', ' ', 'c'])))) "---")
    ⟨b1, fun _ => b3⟩ (by decide)
  have hloop : parseLoop (scanLines (ConversationString longKeyConversation
      longKeyConversation.Parameters)) =
      (turnLines [{ user := true, lines := ["", "hi", ""] }]).foldl parseLine
        (parseLine (parseLine (parseLine initState "---")
          (String.mk ('a' :: ':' :: (longRun ++ [':', ' ', 'c'])))) "---") := by
    unfold parseLoop
    rw [longKey_scanned]
    have hl : ["---", String.mk ('a' :: ':' :: (longRun ++ [':', ' ', 'c'])), "---", "",
        "## You", "", "hi", ""] =
        ["---", String.mk ('a' :: ':' :: (longRun ++ [':', ' ', 'c'])), "---", ""] ++
          turnLines [{ user := true, lines := ["", "hi", ""] }] := rfl
    rw [hl, List.foldl_append, List.foldl_cons, List.foldl_cons, List.foldl_cons,
      List.foldl_cons, List.foldl_nil, parseLine_blank _ "" b1 b2 hblank]
  obtain ⟨c1, c2, _, c4, _⟩ := closeLast_fields (parseLoop (scanLines
    (ConversationString longKeyConversation longKeyConversation.Parameters)))
  have hmsgs : (closeLast (parseLoop (scanLines (ConversationString longKeyConversation
      longKeyConversation.Parameters)))).Messages.length ≠ 0 := by
    rw [closeLast_messages, hloop, u2, b4, hpend]
    decide
  refine ⟨closeLast (parseLoop (scanLines (ConversationString longKeyConversation
    longKeyConversation.Parameters))), ?_, ?_, ?_, ?_⟩
  · unfold ParseContent finish
    simp only [hmsgs, if_false]
  · rw [c1, hloop, u3, b5]
  · rw [c2, hloop, u4, b6]
  · rw [c4, hloop, u6, b7]

/-- The serialised form of a conversation without title and model whose only
parameter is `a` with the value `x…x: c` does not parse: its second line is
too long for the scanner. -/
theorem longKey_second_parse (c1 : Conversation) (iter : List (String × String))
    (ht : c1.Title = "") (hm : c1.Model = "")
    (hp : c1.Parameters = [("a", String.mk (longRun ++ [':', ' ', 'c']))])
    (hiter : iter.Perm c1.Parameters) :
    ParseContent (ConversationString c1 iter) = Except.error "no messages found in content" := by
  have hiter2 : iter = [("a", String.mk (longRun ++ [':', ' ', 'c']))] := by
    rw [hp] at hiter
    exact List.perm_singleton.mp hiter
  have hnl : ∀ p ∈ iter, '\n' ∉ p.1.data ∧ '\n' ∉ p.2.data := by
    intro p hpm
    rw [hiter2] at hpm
    rw [List.mem_singleton.mp hpm]
    constructor
    · decide
    · intro h
      rcases List.mem_append.mp h with h | h
      · exact longRun_no_newline h
      · revert h; decide
  have hraw := rawLines_ConversationString c1 iter (by rw [hm]; decide) (by rw [ht]; decide) hnl
  have h1 : frontMatterRawLines c1 iter =
      ["---".data, 'a' :: ':' :: ' ' :: (longRun ++ [':', ' ', 'c']), "---".data, []] := by
    unfold frontMatterRawLines
    rw [hm, hp, hiter2, if_pos (Or.inr (List.cons_ne_nil _ _)), if_neg (by decide)]
    simp only [List.map_cons, List.map_nil, String.data_append, List.nil_append,
      List.cons_append, List.singleton_append]
  have hscan : scanLines (ConversationString c1 iter) = ["---"] := by
    unfold scanLines
    rw [hraw, h1]
    have hdash : fitsBuffer ("---" : String).data = true := by decide
    simp only [List.cons_append, List.takeWhile_cons, hdash, longLine_grown_too_long, if_true,
      Bool.false_eq_true, if_false, List.map_cons, List.map_nil]
    rfl
  unfold ParseContent
  rw [hscan]
  rfl

/-- The third condition of the amended C3 is needed as well. `String` writes the
parameter `a:x…x` = `c` as a line of 65535 bytes, which parses to the key `a` and
the value `x…x: c`; `String` writes that as `a: x…x: c`, one byte more, which
the scanner does not deliver: the second parse reads the line `---` only and
finds no message. -/
theorem roundTrip_parse_too_long :
    ∃ c1, ParseContent (ConversationString longKeyConversation longKeyConversation.Parameters)
        = Except.ok c1 ∧
      ∀ iter : List (String × String), iter.Perm c1.Parameters →
        ParseContent (ConversationString c1 iter) =
          Except.error "no messages found in content" := by
  obtain ⟨c1, h1, h2, h3, h4⟩ := longKey_parsed
  exact ⟨c1, h1, fun iter hiter => longKey_second_parse c1 iter h2 h3 h4 hiter⟩

/-! ## C15: AddResponse -/

/-- C15. For every conversation `c` and every string `s`, `AddResponse` makes the
message list the previous list with exactly one message appended, whose role is
"Response" and whose content is `s`: the list is one longer, every earlier
index holds the message it held, and the new last message is that one. The
fields `Title`, `Model`, `Parameters`, `ReferenceMaterial` and
`ResourceRequests` are unchanged, as are the remaining fields `Prompt`,
`ProjectDirectory` and `IncludeFiles`. -/
theorem AddResponse_frame (c : Conversation) (s : String) :
    (AddResponse c s).Messages = c.Messages ++ [{ Role := "Response", Content := s }] ∧
    (AddResponse c s).Messages.length = c.Messages.length + 1 ∧
    (∀ i, i < c.Messages.length → (AddResponse c s).Messages[i]? = c.Messages[i]?) ∧
    (AddResponse c s).Messages[c.Messages.length]? = some { Role := "Response", Content := s } ∧
    (AddResponse c s).Title = c.Title ∧
    (AddResponse c s).Model = c.Model ∧
    (AddResponse c s).Parameters = c.Parameters ∧
    (AddResponse c s).ReferenceMaterial = c.ReferenceMaterial ∧
    (AddResponse c s).ResourceRequests = c.ResourceRequests ∧
    (AddResponse c s).Prompt = c.Prompt ∧
    (AddResponse c s).ProjectDirectory = c.ProjectDirectory ∧
    (AddResponse c s).IncludeFiles = c.IncludeFiles := by
  refine ⟨rfl, ?_, ?_, ?_, rfl, rfl, rfl, rfl, rfl, rfl, rfl, rfl⟩
  · unfold AddResponse
    simp
  · intro i hi
    unfold AddResponse
    simp only []
    exact List.getElem?_append_left hi
  · unfold AddResponse
    simp

/-! ## C14: the title -/

/-- Outside front matter a line that is no delimiter and does not begin with `# `
leaves the title unchanged. -/
theorem parseLine_not_title (st : ParseState) (line : String)
    (hfm : st.inFrontMatter = false) (hl : line ≠ "---") (h2 : HasPrefix line "# " = false) :
    (parseLine st line).conv.Title = st.conv.Title := by
  have hr := resourceLine_fields st.conv line
  unfold parseLine
  simp only [hl, hfm, h2, if_false, Bool.false_eq_true]
  split_ifs <;> simp [hr]

/-- The last title of a list of lines with one more line in front. -/
theorem lastTitle_cons (l : String) (ls : List String) (t : String) :
    lastTitle (l :: ls) t =
      if HasPrefix l "# " = true then lastTitle ls (remainder l 2) else lastTitle ls t := by
  unfold lastTitle
  by_cases h : HasPrefix l "# " = true
  · rw [if_pos h]
    simp only [List.filter_cons, h, if_true, List.getLast?_cons]
    cases (List.filter (fun l => HasPrefix l "# ") ls).getLast? <;> rfl
  · rw [if_neg h]
    simp only [List.filter_cons, h, if_false, Bool.false_eq_true]

/-- After the pass, the title is the text after `# ` of the last line outside
front matter that begins with `# `, or the title before the pass when there is
no such line. -/
theorem title_fold (lines : List String) (st : ParseState) :
    (lines.foldl parseLine st).conv.Title =
      lastTitle (outsideLines st.inFrontMatter lines) st.conv.Title := by
  induction lines generalizing st with
  | nil => rfl
  | cons l ls ih =>
    rw [List.foldl_cons, ih]
    by_cases hl : l = "---"
    · subst hl
      rw [parseLine_delimiter]
      simp [outsideLines]
    · cases hfm : st.inFrontMatter with
      | true =>
        rw [parseLine_inside st l hfm hl]
        simp [outsideLines, hl, hfm, (frontMatterLine_fields st.conv l).1]
      | false =>
        have hout : outsideLines false (l :: ls) = l :: outsideLines false ls := by
          simp [outsideLines, hl]
        rw [(parseLine_outside st l hfm hl).1, hout, lastTitle_cons]
        by_cases h2 : HasPrefix l "# " = true
        · rw [if_pos h2, parseLine_title st l hfm hl h2]
          simp only []
          rw [TrimPrefix_eq_remainder l _ h2]
          rfl
        · rw [if_neg h2, parseLine_not_title st l hfm hl (by simpa using h2)]

/-- C14, as amended. For every document that parses successfully, `Title` is the
text after the `# ` of the last line outside front matter that begins with
`# `, and it is empty when no line outside front matter begins with `# `; so
with exactly one such line `Title` is the text after its `# `. -/
theorem ParseContent_title (d : String) (c : Conversation)
    (h : ParseContent d = Except.ok c) :
    c.Title = lastTitle (outsideLines false (scanLines d)) "" ∧
    ((outsideLines false (scanLines d)).filter (fun l => HasPrefix l "# ") = [] →
      c.Title = "") ∧
    (∀ l, (outsideLines false (scanLines d)).filter (fun l => HasPrefix l "# ") = [l] →
      c.Title = remainder l 2 ∧
      c.Title = firstTitle (outsideLines false (scanLines d)) "") := by
  obtain ⟨hc, _⟩ := ParseContent_ok d c h
  have ht : c.Title = lastTitle (outsideLines false (scanLines d)) "" := by
    rw [hc, (closeLast_fields _).1]
    unfold parseLoop
    rw [title_fold]
    rfl
  refine ⟨ht, ?_, ?_⟩
  · intro hn
    rw [ht]
    unfold lastTitle
    rw [hn]
    rfl
  · intro l hl
    rw [ht]
    unfold lastTitle firstTitle
    rw [hl]
    exact ⟨rfl, rfl⟩

/-- Witness for C14: of the two title lines of "# A\n# B\n## You\nhi" the last
one gives the title. -/
theorem ParseContent_title_witness :
    ParseContent "# A\n# B\n## You\nhi" =
      Except.ok
        { Title := "B", Prompt := "", Model := "", ProjectDirectory := "", Parameters := [],
          Messages := [{ Role := "You", Content := "hi" }], ReferenceMaterial := [],
          IncludeFiles := false, ResourceRequests := [] } ∧
    ("B" : String) = lastTitle (outsideLines false (scanLines "# A\n# B\n## You\nhi")) "" :=
  ⟨rfl, (ParseContent_title "# A\n# B\n## You\nhi"
      { Title := "B", Prompt := "", Model := "", ProjectDirectory := "", Parameters := [],
        Messages := [{ Role := "You", Content := "hi" }], ReferenceMaterial := [],
        IncludeFiles := false, ResourceRequests := [] } rfl).1⟩

/-- Counterexample to C14 as stated: the document "# A\n# B\n## You\nhi" parses
successfully, its first line outside front matter that begins with `# ` is
`# A`, and `Title` is "B", not "A". -/
theorem ParseContent_title_not_first :
    ∃ d c, ParseContent d = Except.ok c ∧
      ((outsideLines false (scanLines d)).filter (fun l => HasPrefix l "# ")).head?
        = some "# A" ∧
      remainder "# A" 2 = "A" ∧
      c.Title = "B" ∧
      c.Title ≠ firstTitle (outsideLines false (scanLines d)) "" :=
  ⟨"# A\n# B\n## You\nhi",
    { Title := "B", Prompt := "", Model := "", ProjectDirectory := "", Parameters := [],
      Messages := [{ Role := "You", Content := "hi" }], ReferenceMaterial := [],
      IncludeFiles := false, ResourceRequests := [] },
    rfl, by decide, by decide, rfl, by decide⟩

/-! ## C12: headings without content -/

/-- A turn heading is no delimiter and no title line, and it is read by the
branch of `## You` or, failing that, by the branch of `### Response`. -/
theorem roleHeading_facts (h : String) (hh : roleHeading h = true) :
    h ≠ "---" ∧ HasPrefix h "# " = false ∧
    ((HasPrefix h "## You" = true) ∨
      (HasPrefix h "## You" = false ∧ HasPrefix h "### Response" = true)) := by
  unfold roleHeading at hh
  have hhead : ∃ u, h.data = '#' :: '#' :: u := by
    rcases Bool.or_eq_true _ _ ▸ hh with h1 | h1
    · obtain ⟨t, ht⟩ := List.isPrefixOf_iff_prefix.mp h1
      exact ⟨_, ht.symm⟩
    · obtain ⟨t, ht⟩ := List.isPrefixOf_iff_prefix.mp h1
      exact ⟨_, ht.symm⟩
  obtain ⟨u, hu⟩ := hhead
  refine ⟨?_, ?_, ?_⟩
  · intro he
    rw [he] at hu
    cases hu
  · unfold HasPrefix
    rw [hu]
    rfl
  · by_cases h1 : HasPrefix h "## You" = true
    · exact Or.inl h1
    · right
      have h1f : HasPrefix h "## You" = false := by simpa using h1
      rw [h1f] at hh
      exact ⟨h1f, by simpa using hh⟩

/-- Outside front matter a turn heading opens a turn; the open turn before it is
closed when its buffer is not empty. -/
theorem roleHeading_step (st : ParseState) (h : String) (hfm : st.inFrontMatter = false)
    (hh : roleHeading h = true) :
    (parseLine st h).currentRole ≠ "" ∧
    (parseLine st h).currentContent =
      (if st.currentRole ≠ "" ∧ st.currentContent.length > 0 then "" else st.currentContent) ∧
    (parseLine st h).inFrontMatter = false ∧
    (parseLine st h).conv.Messages = st.conv.Messages ++ pending st := by
  obtain ⟨h1, h2, h3⟩ := roleHeading_facts h hh
  rcases h3 with h3 | ⟨h3, h4⟩
  · obtain ⟨a1, a2, a3, a4, _⟩ := parseLine_heading st h "You" hfm h1 h2 (Or.inl ⟨h3, rfl⟩)
    exact ⟨by rw [a1]; decide, a2, a3, a4⟩
  · obtain ⟨a1, a2, a3, a4, _⟩ :=
      parseLine_heading st h "Response" hfm h1 h2 (Or.inr ⟨h3, h4, rfl⟩)
    exact ⟨by rw [a1]; decide, a2, a3, a4⟩

/-- An open turn stays open or is followed by an open turn. -/
theorem role_open_step (st : ParseState) (l : String) (h : st.currentRole ≠ "") :
    (parseLine st l).currentRole ≠ "" := by
  rcases parseLine_cases st l with ⟨c1, _, _⟩ | ⟨_, c1, _, _⟩ | ⟨c1, _, _⟩
  · rw [c1]; exact h
  · rw [c1]; exact h
  · rcases c1 with c1 | c1 <;> rw [c1] <;> decide

/-- After a turn was opened, a turn is open for the rest of the pass. -/
theorem role_open_fold (ls : List String) (st : ParseState) (h : st.currentRole ≠ "") :
    (ls.foldl parseLine st).currentRole ≠ "" := by
  induction ls generalizing st with
  | nil => exact h
  | cons l ls ih =>
    rw [List.foldl_cons]
    exact ih _ (role_open_step st l h)

/-- The pending message of a state with an open turn and a buffer that is not empty. -/
theorem pending_ne_nil (st : ParseState) (hr : st.currentRole ≠ "")
    (hc : st.currentContent.length > 0) : pending st ≠ [] := by
  unfold pending
  rw [if_pos ⟨hr, hc⟩]
  simp

/-- A state with no pending message has no open turn or an empty buffer. -/
theorem pending_eq_nil (st : ParseState) (h : pending st = []) :
    st.currentRole = "" ∨ st.currentContent.length = 0 := by
  unfold pending at h
  by_cases hr : st.currentRole = ""
  · exact Or.inl hr
  · right
    by_contra hc
    rw [if_pos ⟨hr, by omega⟩] at h
    cases h

/-- Once a message is closed or pending, one is closed or pending after every
further iteration. -/
theorem some_message_step (st : ParseState) (l : String)
    (h : st.conv.Messages ++ pending st ≠ []) :
    (parseLine st l).conv.Messages ++ pending (parseLine st l) ≠ [] := by
  rcases parseLine_cases st l with ⟨c1, c2, c3⟩ | ⟨c0, c1, c2, c3⟩ | ⟨_, c3, _⟩
  · have hp : pending (parseLine st l) = pending st := by
      unfold pending
      rw [c1, c2]
    rw [c3, hp]
    exact h
  · have hlen : (parseLine st l).currentContent.length > 0 := by
      rw [c2]
      have hl : (st.currentContent ++ (l ++ "\n")).length =
          (st.currentContent ++ (l ++ "\n")).data.length := rfl
      rw [hl]
      simp [String.data_append]
    have hp := pending_ne_nil (parseLine st l) (by rw [c1]; exact c0) hlen
    intro hnil
    exact hp (List.append_eq_nil.mp hnil).2
  · rw [c3]
    intro hnil
    exact h (List.append_eq_nil.mp hnil).1

/-- Once a message is closed or pending, one is closed or pending at the end of the pass. -/
theorem some_message_fold (ls : List String) (st : ParseState)
    (h : st.conv.Messages ++ pending st ≠ []) :
    (ls.foldl parseLine st).conv.Messages ++ pending (ls.foldl parseLine st) ≠ [] := by
  induction ls generalizing st with
  | nil => exact h
  | cons l ls ih =>
    rw [List.foldl_cons]
    exact ih _ (some_message_step st l h)

/-- Lines other than `---` leave the pass outside front matter. -/
theorem no_delimiter_fold (ls : List String) (st : ParseState)
    (hfm : st.inFrontMatter = false) (hls : ∀ l ∈ ls, l ≠ "---") :
    (ls.foldl parseLine st).inFrontMatter = false := by
  induction ls generalizing st with
  | nil => exact hfm
  | cons l ls ih =>
    rw [List.foldl_cons]
    exact ih _ (parseLine_outside st l hfm (hls l (List.mem_cons_self _ _))).1
      (fun x hx => hls x (List.mem_cons_of_mem _ hx))

/-- A heading line is a title line, which is no delimiter, or a turn heading. -/
theorem headingLine_cases (l : String) (h : headingLine l = true) :
    (l ≠ "---" ∧ HasPrefix l "# " = true) ∨ roleHeading l = true := by
  unfold headingLine at h
  rcases Bool.or_eq_true _ _ ▸ h with h1 | h1
  · left
    refine ⟨?_, h1⟩
    intro he
    rw [he] at h1
    exact absurd h1 (by decide)
  · exact Or.inr h1

/-- A state in which nothing was accumulated has no pending message. -/
theorem quiet_pending (st : ParseState) (h : quiet st) : pending st = [] := by
  unfold pending
  rw [h.2.2, if_neg]
  intro hc
  exact absurd hc.2 (by decide)

/-- A title line accumulates nothing and leaves the open role as it is. -/
theorem quiet_title_step (st : ParseState) (l : String) (hq : quiet st)
    (h1 : l ≠ "---") (h2 : HasPrefix l "# " = true) :
    quiet (parseLine st l) ∧ (parseLine st l).currentRole = st.currentRole := by
  rw [parseLine_title st l hq.1 h1 h2]
  exact ⟨⟨hq.1, by rw [← hq.2.1]; exact (resourceLine_fields st.conv l).2.2.2.2.1, hq.2.2⟩, rfl⟩

/-- A heading line accumulates nothing. -/
theorem quiet_heading_step (st : ParseState) (l : String) (hq : quiet st)
    (h : headingLine l = true) : quiet (parseLine st l) := by
  rcases headingLine_cases l h with ⟨h1, h2⟩ | h1
  · exact (quiet_title_step st l hq h1 h2).1
  · obtain ⟨_, a2, a3, a4⟩ := roleHeading_step st l hq.1 h1
    refine ⟨a3, ?_, ?_⟩
    · rw [a4, quiet_pending st hq, hq.2.1]
      rfl
    · rw [a2, hq.2.2]
      simp

/-- Heading lines accumulate nothing. -/
theorem quiet_headings_fold (ls : List String) (st : ParseState) (hq : quiet st)
    (hls : ∀ l ∈ ls, headingLine l = true) : quiet (ls.foldl parseLine st) := by
  induction ls generalizing st with
  | nil => exact hq
  | cons l ls ih =>
    rw [List.foldl_cons]
    exact ih _ (quiet_heading_step st l hq (hls l (List.mem_cons_self _ _)))
      (fun x hx => hls x (List.mem_cons_of_mem _ hx))

/-- Before the first turn heading, title lines and blank lines accumulate nothing
and open no turn. -/
theorem quiet_closed_fold (ls : List String) (st : ParseState) (hq : quiet st)
    (hrole : st.currentRole = "")
    (hls : ∀ l ∈ ls, roleHeading l = false ∧ (headingLine l = true ∨ TrimSpace l = "")) :
    quiet (ls.foldl parseLine st) := by
  induction ls generalizing st with
  | nil => exact hq
  | cons l ls ih =>
    rw [List.foldl_cons]
    obtain ⟨h1, h2⟩ := hls l (List.mem_cons_self _ _)
    have htail : ∀ x ∈ ls, roleHeading x = false ∧ (headingLine x = true ∨ TrimSpace x = "") :=
      fun x hx => hls x (List.mem_cons_of_mem _ hx)
    rcases h2 with h2 | h2
    · rcases headingLine_cases l h2 with ⟨h3, h4⟩ | h3
      · obtain ⟨q1, q2⟩ := quiet_title_step st l hq h3 h4
        exact ih _ q1 (by rw [q2]; exact hrole) htail
      · rw [h1] at h3
        cases h3
    · rw [parseLine_blank st l hq.1 hrole h2]
      exact ih st hq hrole htail

/-- Closing the last turn of a state in which nothing was accumulated gives no message. -/
theorem quiet_no_message (st : ParseState) (hq : quiet st) : (closeLast st).Messages = [] := by
  rw [closeLast_messages, hq.2.1, quiet_pending st hq]
  rfl

/-- A text that trimming empties consists of white space. -/
theorem trimChars_nil_spaces (l : List Char) (h : trimChars l = []) :
    ∀ c ∈ l, isSpace c = true := by
  induction l with
  | nil => intro c hc; cases hc
  | cons x u ih =>
    have hx : isSpace x = true := by
      by_contra hx
      have hx2 : isSpace x = false := by simpa using hx
      obtain ⟨_, t, _, _, _, h2, _, _⟩ := trimChars_decompose (x :: u) x u rfl hx2
      rw [h] at h2
      cases h2
    rw [trimChars_cons_space x u hx] at h
    intro c hc
    rcases List.mem_cons.mp hc with rfl | hc
    · exact hx
    · exact ih h c hc

/-- Trimming empties a text of white space. -/
theorem trimChars_spaces (l : List Char) (h : ∀ c ∈ l, isSpace c = true) : trimChars l = [] := by
  induction l with
  | nil => rfl
  | cons x u ih =>
    rw [trimChars_cons_space x u (h x (List.mem_cons_self _ _))]
    exact ih (fun c hc => h c (List.mem_cons_of_mem _ hc))

/-- The characters of a blank line are white space. -/
theorem blank_spaces (l : String) (h : TrimSpace l = "") : ∀ c ∈ l.data, isSpace c = true := by
  apply trimChars_nil_spaces
  have := congrArg String.data h
  simpa [TrimSpace] using this

/-- The pending message of a state that holds white space only has empty content. -/
theorem blankState_pending (st : ParseState) (h : blankState st) :
    ∀ m ∈ pending st, m.Content = "" := by
  unfold pending
  split_ifs
  · intro m hm
    rw [List.mem_singleton.mp hm]
    simp only [TrimSpace]
    rw [trimChars_spaces _ h.2.1]
  · intro m hm
    cases hm

/-- A heading line or a blank line keeps a state that holds white space only. -/
theorem blankState_step (st : ParseState) (l : String) (hb : blankState st)
    (hl : headingLine l = true ∨ TrimSpace l = "") : blankState (parseLine st l) := by
  obtain ⟨b1, b2, b3⟩ := hb
  rcases hl with hl | hl
  · rcases headingLine_cases l hl with ⟨h1, h2⟩ | h1
    · rw [parseLine_title st l b1 h1 h2]
      refine ⟨b1, b2, ?_⟩
      intro m hm
      have hmsg : (resourceLine st.conv l).Messages = st.conv.Messages :=
        (resourceLine_fields st.conv l).2.2.2.2.1
      exact b3 m (by rw [← hmsg]; exact hm)
    · obtain ⟨_, a2, a3, a4⟩ := roleHeading_step st l b1 h1
      refine ⟨a3, ?_, ?_⟩
      · rw [a2]
        split_ifs
        · intro c hc; cases hc
        · exact b2
      · rw [a4]
        intro m hm
        rcases List.mem_append.mp hm with hm | hm
        · exact b3 m hm
        · exact blankState_pending st ⟨b1, b2, b3⟩ m hm
  · rw [parseLine_content st l b1 (blank_contentLine l hl), resourceLine_blank _ _ hl]
    refine ⟨b1, ?_, b3⟩
    simp only []
    split_ifs
    · intro c hc
      rw [String.data_append, String.data_append] at hc
      rcases List.mem_append.mp hc with hc | hc
      · exact b2 c hc
      · rcases List.mem_append.mp hc with hc | hc
        · exact blank_spaces l hl c hc
        · rw [List.mem_singleton.mp hc]
          decide
    · exact b2

/-- Heading lines and blank lines keep a state that holds white space only. -/
theorem blankState_fold (ls : List String) (st : ParseState) (hb : blankState st)
    (hls : ∀ l ∈ ls, headingLine l = true ∨ TrimSpace l = "") :
    blankState (ls.foldl parseLine st) := by
  induction ls generalizing st with
  | nil => exact hb
  | cons l ls ih =>
    rw [List.foldl_cons]
    exact ih _ (blankState_step st l hb (hls l (List.mem_cons_self _ _)))
      (fun x hx => hls x (List.mem_cons_of_mem _ hx))

/-- The pass over heading lines and blank lines with no blank line after the
first turn heading produces no message. -/
theorem headings_no_message (lines : List String)
    (hl : ∀ l ∈ lines, headingLine l = true ∨ TrimSpace l = "")
    (hb : blankAfterHeading lines = false) :
    (closeLast (parseLoop lines)).Messages = [] := by
  unfold blankAfterHeading at hb
  have hsplit := List.takeWhile_append_dropWhile (fun l => !roleHeading l) lines
  have hA : ∀ l ∈ lines.takeWhile (fun l => !roleHeading l),
      roleHeading l = false ∧ (headingLine l = true ∨ TrimSpace l = "") := by
    intro l hmem
    have h1 := List.mem_takeWhile_imp hmem
    exact ⟨by simpa using h1, hl l ((List.takeWhile_sublist _).subset hmem)⟩
  have hB : ∀ l ∈ lines.dropWhile (fun l => !roleHeading l), headingLine l = true := by
    intro l hmem
    rcases hl l ((List.dropWhile_sublist _).subset hmem) with h1 | h1
    · exact h1
    · have hany : (lines.dropWhile (fun l => !roleHeading l)).any
          (fun l => decide (TrimSpace l = "")) = true :=
        List.any_eq_true.mpr ⟨l, hmem, by simpa using h1⟩
      rw [hb] at hany
      cases hany
  have hq0 : quiet initState := ⟨rfl, rfl, rfl⟩
  have hq1 := quiet_closed_fold _ initState hq0 rfl hA
  have hq2 := quiet_headings_fold _ _ hq1 hB
  rw [← List.foldl_append, hsplit] at hq2
  exact quiet_no_message _ hq2

/-- A heading line or a blank line is not the front-matter delimiter. -/
theorem heading_or_blank_ne_delimiter (l : String)
    (h : headingLine l = true ∨ TrimSpace l = "") : l ≠ "---" := by
  rcases h with h | h
  · rcases headingLine_cases l h with ⟨h1, _⟩ | h1
    · exact h1
    · exact (roleHeading_facts l h1).1
  · exact blank_ne_delimiter l h

/-- A blank line is no turn heading. -/
theorem blank_not_roleHeading (l : String) (h : TrimSpace l = "") : roleHeading l = false := by
  unfold roleHeading
  rw [blank_not_begins l "## You" '#' _ rfl (by decide) h,
    blank_not_begins l "### Response" '#' _ rfl (by decide) h]
  rfl

/-- A content line read outside front matter while a turn is open is accumulated,
and the pass ends with at least one message. -/
theorem accumulate_some_message (st : ParseState) (l : String) (post : List String)
    (hfm : st.inFrontMatter = false) (hrole : st.currentRole ≠ "") (hl : contentLine l) :
    (closeLast (post.foldl parseLine (parseLine st l))).Messages ≠ [] := by
  have hstep := parseLine_content st l hfm hl
  rw [if_pos hrole] at hstep
  have hlen : (parseLine st l).currentContent.length > 0 := by
    rw [hstep]
    have hlen2 : (st.currentContent ++ (l ++ "\n")).length =
        (st.currentContent ++ (l ++ "\n")).data.length := rfl
    simp only []
    rw [hlen2]
    simp [String.data_append]
  have hp := pending_ne_nil (parseLine st l) (by rw [hstep]; exact hrole) hlen
  rw [closeLast_messages]
  apply some_message_fold
  intro hnil
  exact hp (List.append_eq_nil.mp hnil).2

/-- The pass over heading lines and blank lines with a blank line after the first
turn heading produces a message. -/
theorem headings_some_message (lines : List String)
    (hl : ∀ l ∈ lines, headingLine l = true ∨ TrimSpace l = "")
    (hb : blankAfterHeading lines = true) :
    (closeLast (parseLoop lines)).Messages ≠ [] := by
  unfold blankAfterHeading at hb
  have hsplit : lines = lines.takeWhile (fun l => !roleHeading l) ++
      lines.dropWhile (fun l => !roleHeading l) :=
    (List.takeWhile_append_dropWhile (fun l => !roleHeading l) lines).symm
  generalize lines.takeWhile (fun l => !roleHeading l) = A at hsplit
  obtain ⟨b, hbmem, hblank⟩ := List.any_eq_true.mp hb
  have hblank2 : TrimSpace b = "" := by simpa using hblank
  cases hB : lines.dropWhile (fun l => !roleHeading l) with
  | nil => rw [hB] at hbmem; cases hbmem
  | cons h rest =>
    have hhead : roleHeading h = true := by
      have h1 := List.head_dropWhile_not (fun l => !roleHeading l) lines (by rw [hB]; simp)
      simp only [hB, List.head_cons] at h1
      simpa using h1
    rw [hB] at hbmem hsplit
    have hbrest : b ∈ rest := by
      rcases List.mem_cons.mp hbmem with rfl | h2
      · rw [blank_not_roleHeading b hblank2] at hhead
        cases hhead
      · exact h2
    obtain ⟨r1, r2, hr⟩ := List.append_of_mem hbrest
    have hne : ∀ l ∈ lines, l ≠ "---" := fun l hmem => heading_or_blank_ne_delimiter l (hl l hmem)
    have hlines : lines = (A ++ h :: r1) ++ b :: r2 := by
      rw [hsplit, hr]
      simp
    have hpre : ∀ l ∈ A ++ h :: r1, l ≠ "---" := by
      intro l hmem
      apply hne
      rw [hlines]
      exact List.mem_append_left _ hmem
    have hfm := no_delimiter_fold _ initState rfl hpre
    have hrole : ((A ++ h :: r1).foldl parseLine initState).currentRole ≠ "" := by
      rw [List.foldl_append, List.foldl_cons]
      apply role_open_fold
      exact (roleHeading_step _ h (no_delimiter_fold _ initState rfl
        (fun l hmem => hpre l (List.mem_append_left _ hmem))) hhead).1
    have hres := accumulate_some_message _ b r2 hfm hrole (blank_contentLine b hblank2)
    rw [← List.foldl_cons, ← List.foldl_append] at hres
    unfold parseLoop
    rw [hlines]
    exact hres

/-- C12, as amended. For every input whose lines are only heading lines (lines
that begin with `# `, `## You` or `### Response`) and blank lines,
`ParseContent` fails with the error "no messages found in content" exactly when
no blank line comes after the first `## You` or `### Response` heading; when it
succeeds, every message it returns has empty content. -/
theorem ParseContent_headings_only (d : String)
    (hd : ∀ l ∈ scanLines d, headingLine l = true ∨ TrimSpace l = "") :
    (ParseContent d = Except.error "no messages found in content" ↔
      blankAfterHeading (scanLines d) = false) ∧
    (∀ c, ParseContent d = Except.ok c → ∀ m ∈ c.Messages, m.Content = "") := by
  constructor
  · cases hb : blankAfterHeading (scanLines d) with
    | false =>
      have hm := headings_no_message _ hd hb
      unfold ParseContent finish
      simp [hm]
    | true =>
      have hm := headings_some_message _ hd hb
      unfold ParseContent finish
      have hlen : (closeLast (parseLoop (scanLines d))).Messages.length ≠ 0 := by
        intro h0
        exact hm (List.length_eq_zero.mp h0)
      simp [hlen]
  · intro c hc m hm
    obtain ⟨hc1, _⟩ := ParseContent_ok d c hc
    rw [hc1, closeLast_messages] at hm
    have hbs : blankState (parseLoop (scanLines d)) :=
      blankState_fold _ initState ⟨rfl, fun c hc => (by cases hc), fun m hm => (by cases hm)⟩ hd
    rcases List.mem_append.mp hm with hm | hm
    · exact hbs.2.2 m hm
    · exact blankState_pending _ hbs m hm

/-- Witness for C12: the document "# T\n\n## You\n### Response" has heading lines
and a blank line before the first turn heading only, and it does not parse. -/
theorem ParseContent_headings_only_witness :
    blankAfterHeading (scanLines "# T\n\n## You\n### Response") = false ∧
    ParseContent "# T\n\n## You\n### Response" = Except.error "no messages found in content" :=
  ⟨by decide, (ParseContent_headings_only "# T\n\n## You\n### Response" (by decide)).1.mpr
    (by decide)⟩

/-- Counterexample to C12 as stated: the lines of "## You\n\n" are a heading line
and a blank line, and `ParseContent` returns a conversation with one message of
empty content. -/
theorem ParseContent_headings_blank_ok :
    (∀ l ∈ scanLines "## You\n\n", headingLine l = true ∨ TrimSpace l = "") ∧
    ParseContent "## You\n\n" =
      Except.ok
        { Title := "", Prompt := "", Model := "", ProjectDirectory := "", Parameters := [],
          Messages := [{ Role := "You", Content := "" }], ReferenceMaterial := [],
          IncludeFiles := false, ResourceRequests := [] } :=
  ⟨by decide, rfl⟩

/-! ## C13: a turn with a line of text -/

/-- The flag after a line and further lines. -/
theorem frontMatterOpen_cons (b : Bool) (l : String) (ls : List String) :
    frontMatterOpen b (l :: ls) = frontMatterOpen (if l = "---" then !b else b) ls := rfl

/-- After the pass, `inFrontMatter` tells whether front matter is open after the lines. -/
theorem inFrontMatter_fold (ls : List String) (st : ParseState) :
    (ls.foldl parseLine st).inFrontMatter = frontMatterOpen st.inFrontMatter ls := by
  induction ls generalizing st with
  | nil => rfl
  | cons l ls ih =>
    rw [List.foldl_cons, ih, frontMatterOpen_cons]
    by_cases hl : l = "---"
    · subst hl
      rw [parseLine_delimiter, if_pos rfl]
    · rw [if_neg hl]
      cases hfm : st.inFrontMatter with
      | true => rw [parseLine_inside st l hfm hl]; simp only []; rw [hfm]
      | false => rw [(parseLine_outside st l hfm hl).1]

/-- Whether front matter is open after two runs of lines. -/
theorem frontMatterOpen_append (b : Bool) (xs ys : List String) :
    frontMatterOpen b (xs ++ ys) = frontMatterOpen (frontMatterOpen b xs) ys := by
  induction xs generalizing b with
  | nil => rfl
  | cons x xs ih =>
    rw [List.cons_append, frontMatterOpen_cons, frontMatterOpen_cons]
    exact ih _

/-- Trimming a text around a part that is not blank keeps the trimmed part. -/
theorem trimChars_around_nonblank (a x b : List Char) (hx : trimChars x ≠ []) :
    ∃ a' b', trimChars (a ++ x ++ b) = a' ++ trimChars x ++ b' := by
  rcases dropWhile_head isSpace x with h | ⟨c, t, h, hc⟩
  · exfalso
    apply hx
    unfold trimChars
    rw [h]
    rfl
  · have hsplit : x = x.takeWhile isSpace ++ c :: t := by
      rw [← h]
      exact (List.takeWhile_append_dropWhile isSpace x).symm
    have htrim : trimChars x = trimChars (c :: t) := by
      unfold trimChars
      rw [h, List.dropWhile_cons, if_neg (by simp [hc])]
    obtain ⟨a', b', hab⟩ := trimChars_around (a ++ x.takeWhile isSpace) (c :: t) b c t rfl hc
    refine ⟨a', b', ?_⟩
    rw [htrim, ← hab]
    conv_lhs => rw [hsplit]
    simp only [List.append_assoc]

/-- The trimmed buffer contains each line of text that was accumulated, up to the
line's leading and trailing white space. -/
theorem Contains_trimmed_text (a line b : String) (h : TrimSpace line ≠ "") :
    Contains (TrimSpace (a ++ line ++ "\n" ++ b)) (TrimSpace line) = true := by
  have hne : trimChars line.data ≠ [] := by
    intro h0
    apply h
    unfold TrimSpace
    rw [h0]
  unfold Contains TrimSpace
  have hdata : (a ++ line ++ "\n" ++ b).data = a.data ++ line.data ++ ('\n' :: b.data) := by
    simp [String.data_append]
  obtain ⟨a', b', hab⟩ := trimChars_around_nonblank a.data line.data ('\n' :: b.data) hne
  simp only []
  rw [hdata, hab]
  exact containsChars_block _ _ _

/-- A text that contains a text that is not empty is not empty. -/
theorem Contains_ne_empty (s sub : String) (hsub : sub ≠ "") (h : Contains s sub = true) :
    s ≠ "" := by
  intro hs
  rw [hs] at h
  unfold Contains at h
  have hd : ("" : String).data = [] := rfl
  rw [hd] at h
  unfold containsChars at h
  cases hsd : sub.data with
  | nil =>
    apply hsub
    apply String.ext
    rw [hsd]
  | cons c t =>
    rw [hsd] at h
    simp [List.isPrefixOf] at h

/-- C13, as amended. Let the lines of a document be `pre`, a heading line `h` that
begins with `## You` or `### Response`, lines `mid`, a line `l` and lines
`post`, where front matter is closed at `h` and at `l` (an even number of
`---` lines comes before each), and `l` is a non-blank line that is not `---`
and begins neither with `# ` nor with `## You` or `### Response`. Then
`ParseContent` succeeds, it returns at least one message, and one of the
messages is not empty and contains the line `l` without its leading and
trailing white space. -/
theorem ParseContent_section_message (d : String) (pre mid post : List String) (h l : String)
    (hd : scanLines d = pre ++ h :: (mid ++ l :: post))
    (hh : roleHeading h = true)
    (hfm1 : frontMatterOpen false pre = false)
    (hfm2 : frontMatterOpen false (pre ++ h :: mid) = false)
    (hl : contentLine l) (hnb : TrimSpace l ≠ "") :
    ∃ c, ParseContent d = Except.ok c ∧ 1 ≤ c.Messages.length ∧
      ∃ m ∈ c.Messages, m.Content ≠ "" ∧ Contains m.Content (TrimSpace l) = true := by
  have hfmA : (parseLoop pre).inFrontMatter = false := by
    unfold parseLoop
    rw [inFrontMatter_fold]
    exact hfm1
  have hfmB : (parseLoop (pre ++ h :: mid)).inFrontMatter = false := by
    unfold parseLoop
    rw [inFrontMatter_fold]
    exact hfm2
  have hrole : (parseLoop (pre ++ h :: mid)).currentRole ≠ "" := by
    unfold parseLoop at *
    rw [List.foldl_append, List.foldl_cons]
    exact role_open_fold _ _ (roleHeading_step _ h hfmA hh).1
  have hstep := parseLine_content (parseLoop (pre ++ h :: mid)) l hfmB hl
  rw [if_pos hrole] at hstep
  have hkept : lineKept (parseLoop (pre ++ h :: mid)).currentRole l
      (parseLoop (pre ++ h :: mid)).conv.Messages.length
      (parseLine (parseLoop (pre ++ h :: mid)) l)
      (parseLine (parseLoop (pre ++ h :: mid)) l).conv.Messages := by
    left
    rw [hstep]
    refine ⟨rfl, ?_, (parseLoop (pre ++ h :: mid)).currentContent, "", ?_⟩
    · exact congrArg List.length (resourceLine_fields _ _).2.2.2.2.1
    · apply String.ext
      simp [String.data_append]
  have hfold := lineKept_fold _ _ _ hrole post _ hkept
  obtain ⟨m, m1, _, a, b, m3⟩ := lineKept_close _ _ _ hrole _ hfold
  have hloop : parseLoop (scanLines d) =
      post.foldl parseLine (parseLine (parseLoop (pre ++ h :: mid)) l) := by
    unfold parseLoop
    rw [hd, ← List.foldl_cons, ← List.foldl_append]
    congr 1
    simp
  rw [← hloop] at m1
  have hmem : m ∈ (closeLast (parseLoop (scanLines d))).Messages := List.getElem?_mem m1
  have hlen : (closeLast (parseLoop (scanLines d))).Messages.length ≠ 0 := by
    intro h0
    rw [List.length_eq_zero.mp h0] at hmem
    cases hmem
  have hcont : Contains m.Content (TrimSpace l) = true := by
    rw [m3]
    exact Contains_trimmed_text a l b hnb
  refine ⟨closeLast (parseLoop (scanLines d)), ?_, by omega, m, hmem,
    Contains_ne_empty _ _ hnb hcont, hcont⟩
  unfold ParseContent finish
  simp only [hlen, if_false]

/-- Witness for C13: in "# T\n## You\n  hello \nmore" the line `  hello ` follows
the heading `## You`, and the message of the turn contains `hello`. -/
theorem ParseContent_section_message_witness :
    ∃ c, ParseContent "# T\n## You\n  hello \nmore" = Except.ok c ∧ 1 ≤ c.Messages.length ∧
      ∃ m ∈ c.Messages, m.Content ≠ "" ∧ Contains m.Content (TrimSpace "  hello ") = true :=
  ParseContent_section_message "# T\n## You\n  hello \nmore" ["# T"] [] ["more"] "## You"
    "  hello " rfl rfl rfl rfl (by decide) (by decide)

/-- Counterexample to C13 as stated: the `## You` section of "## You\n# hello" holds
the non-blank line `# hello`, which is read as a title, and that of
"---\n## You\nhi" holds the non-blank line `hi`, which is read as front matter;
neither document parses. -/
theorem ParseContent_section_without_message :
    scanLines "## You\n# hello" = ["## You", "# hello"] ∧
    TrimSpace "# hello" ≠ "" ∧
    ParseContent "## You\n# hello" = Except.error "no messages found in content" ∧
    scanLines "---\n## You\nhi" = ["---", "## You", "hi"] ∧
    TrimSpace "hi" ≠ "" ∧
    ParseContent "---\n## You\nhi" = Except.error "no messages found in content" :=
  ⟨rfl, by decide, rfl, rfl, by decide, rfl⟩

/-! ## C16: a `+glob` line without a space after the keyword -/

/-- A line that begins with `+glob` begins neither with `+file ` nor with `+url `. -/
theorem glob_not_file_url (line : String) (hg : HasPrefix line "+glob" = true) :
    HasPrefix line "+file " = false ∧ HasPrefix line "+url " = false := by
  unfold HasPrefix at *
  obtain ⟨t, ht⟩ := List.isPrefixOf_iff_prefix.mp hg
  rw [← ht]
  constructor <;> rfl

/-- A line that begins with `+glob` but not with `+glob ` yields one glob request
whose pattern is the whole line. -/
theorem lineRequests_glob (line : String) (hg : HasPrefix line "+glob" = true)
    (hs : HasPrefix line "+glob " = false) :
    lineRequests line = [ResourceRequest.FileGlobResourceRequest line] := by
  obtain ⟨h1, h2⟩ := glob_not_file_url line hg
  unfold lineRequests TrimPrefix
  simp [h1, h2, hg, hs]

/-- A line that begins with `+glob` is not the front-matter delimiter. -/
theorem glob_ne_delimiter (line : String) (hg : HasPrefix line "+glob" = true) :
    line ≠ "---" := by
  intro h
  rw [h] at hg
  exact absurd hg (by decide)

/-- The text after the first five characters of a line that begins with `+glob`
is not the line. -/
theorem glob_remainder_ne (line : String) (hg : HasPrefix line "+glob" = true) :
    remainder line 5 ≠ line := by
  unfold HasPrefix at hg
  obtain ⟨t, ht⟩ := List.isPrefixOf_iff_prefix.mp hg
  intro h
  have hlen := congrArg (fun s : String => s.data.length) h
  simp only [remainder, ← ht] at hlen
  simp at hlen
  omega

/-- C16. For every line that begins with `+glob` but not with `+glob ` and is read
outside front matter (the lines of the document are `pre`, the line, `post`,
and an even number of the lines `pre` are `---`), the pass records at that line one glob
request whose pattern is the entire line, the `+glob` keyword included, and not
the text after the keyword: the requests after the pass are those recorded
before the line, this request, and those of the later lines outside front
matter; a conversation that `ParseContent` returns has these requests. -/
theorem ParseContent_glob_pattern (d : String) (pre post : List String) (line : String)
    (hd : scanLines d = pre ++ line :: post)
    (hfm : frontMatterOpen false pre = false)
    (hg : HasPrefix line "+glob" = true) (hs : HasPrefix line "+glob " = false) :
    (parseLine (parseLoop pre) line).conv.ResourceRequests =
      (parseLoop pre).conv.ResourceRequests ++ [ResourceRequest.FileGlobResourceRequest line] ∧
    (parseLoop (scanLines d)).conv.ResourceRequests =
      (parseLoop pre).conv.ResourceRequests ++ [ResourceRequest.FileGlobResourceRequest line] ++
        (outsideLines false post).flatMap lineRequests ∧
    (∀ c, ParseContent d = Except.ok c →
      c.ResourceRequests =
        (parseLoop pre).conv.ResourceRequests ++
          [ResourceRequest.FileGlobResourceRequest line] ++
          (outsideLines false post).flatMap lineRequests) ∧
    remainder line 5 ≠ line := by
  have hpre : (parseLoop pre).inFrontMatter = false := by
    unfold parseLoop
    rw [inFrontMatter_fold]
    exact hfm
  obtain ⟨h1, h2⟩ := parseLine_requests (parseLoop pre) line hpre (glob_ne_delimiter line hg)
  rw [lineRequests_glob line hg hs] at h1
  have hloop : (parseLoop (scanLines d)).conv.ResourceRequests =
      (parseLoop pre).conv.ResourceRequests ++ [ResourceRequest.FileGlobResourceRequest line] ++
        (outsideLines false post).flatMap lineRequests := by
    unfold parseLoop at *
    rw [hd, List.foldl_append, List.foldl_cons, requests_fold, h1, h2]
  refine ⟨h1, hloop, ?_, glob_remainder_ne line hg⟩
  intro c hc
  obtain ⟨hc1, _⟩ := ParseContent_ok d c hc
  rw [hc1, (closeLast_fields _).2.2.2.2, hloop]

/-- Witness for C16: the lines `+globsrc/*.go` and `+glob` of a user turn are
recorded as glob requests whose patterns are the lines themselves. -/
theorem ParseContent_glob_pattern_witness :
    (parseLine (parseLoop ["## You", "hi"]) "+globsrc/*.go").conv.ResourceRequests =
      (parseLoop ["## You", "hi"]).conv.ResourceRequests ++
        [ResourceRequest.FileGlobResourceRequest "+globsrc/*.go"] ∧
    ParseContent "## You\nhi\n+globsrc/*.go\n+glob" =
      Except.ok
        { Title := "", Prompt := "", Model := "", ProjectDirectory := "", Parameters := [],
          Messages := [{ Role := "You", Content := "hi\n+globsrc/*.go\n+glob" }],
          ReferenceMaterial := [], IncludeFiles := false,
          ResourceRequests := [ResourceRequest.FileGlobResourceRequest "+globsrc/*.go",
            ResourceRequest.FileGlobResourceRequest "+glob"] } :=
  ⟨(ParseContent_glob_pattern "## You\nhi\n+globsrc/*.go\n+glob" ["## You", "hi"] ["+glob"]
      "+globsrc/*.go" rfl rfl rfl rfl).1, rfl⟩

/-! ## C11: the files of a glob request -/

/-- A file fetch that succeeds returns exactly one resource. -/
theorem FileFetch_single (env : Environment) (f pd : String) (rs : List Resource)
    (h : FileResourceRequest.Fetch env f pd = Except.ok rs) : ∃ r, rs = [r] := by
  unfold FileResourceRequest.Fetch at h
  simp only [] at h
  split at h
  · cases h
  · split at h
    · cases h
    · split at h
      · cases h
      · cases h
        exact ⟨_, rfl⟩

/-- The loop over the matches: when the fetch of every match that is not ignored
succeeds, the loop appends one resource for each match that is kept, in match
order. -/
theorem fileLoop_ok (env : Environment) (GlobIgnore : List String) (pd : String)
    (glob : List String) (acc : List Resource)
    (hfetch : ∀ f ∈ glob, (∀ ig ∈ GlobIgnore, Contains f ig = false) →
      ∃ rs, FileResourceRequest.Fetch env f pd = Except.ok rs) :
    ∃ rs, fileLoop env GlobIgnore pd glob acc = Except.ok (acc ++ rs) ∧
      List.Forall₂ (fun f r => FileResourceRequest.Fetch env f pd = Except.ok [r])
        (keptMatches GlobIgnore glob) rs := by
  induction glob generalizing acc with
  | nil => exact ⟨[], by simp [fileLoop], List.Forall₂.nil⟩
  | cons f rest ih =>
    have htail : ∀ g ∈ rest, (∀ ig ∈ GlobIgnore, Contains g ig = false) →
        ∃ rs, FileResourceRequest.Fetch env g pd = Except.ok rs :=
      fun g hg => hfetch g (List.mem_cons_of_mem _ hg)
    by_cases hig : GlobIgnore.any (fun ignore => Contains f ignore) = true
    · obtain ⟨rs, h1, h2⟩ := ih acc htail
      refine ⟨rs, ?_, ?_⟩
      · rw [fileLoop, if_pos hig]
        exact h1
      · have hk : keptMatches GlobIgnore (f :: rest) = keptMatches GlobIgnore rest := by
          unfold keptMatches
          rw [List.filter_cons_of_neg]
          simp only [List.all_eq_true, Bool.not_eq_true', not_forall]
          obtain ⟨ig, hmem, hc⟩ := List.any_eq_true.mp hig
          exact ⟨ig, hmem, by simp [hc]⟩
        rw [hk]
        exact h2
    · have hnone : ∀ ig ∈ GlobIgnore, Contains f ig = false := by
        intro ig hmem
        by_contra hc
        exact hig (List.any_eq_true.mpr ⟨ig, hmem, by simpa using hc⟩)
      obtain ⟨rs0, hrs0⟩ := hfetch f (List.mem_cons_self _ _) hnone
      obtain ⟨r, hr⟩ := FileFetch_single env f pd rs0 hrs0
      obtain ⟨rs, h1, h2⟩ := ih (acc ++ [r]) htail
      refine ⟨r :: rs, ?_, ?_⟩
      · rw [fileLoop, if_neg hig, hrs0, hr]
        simp only [List.getElem?_cons_zero]
        rw [h1, List.append_assoc]
        rfl
      · have hk : keptMatches GlobIgnore (f :: rest) = f :: keptMatches GlobIgnore rest := by
          unfold keptMatches
          rw [List.filter_cons_of_pos]
          simp only [List.all_eq_true, Bool.not_eq_true']
          exact hnone
        rw [hk]
        exact List.Forall₂.cons (by rw [hrs0, hr]) h2

/-- C11. Let the glob expansion return the list `glob` of matched paths, and let the
file fetch succeed for every matched path that contains no entry of the ignore
list. Then `FileGlobResourceRequest.Fetch` succeeds, and its result holds, in
match order, one resource for each matched path that contains no ignore entry
as a substring: the resource that the file fetch of that path returns. The
paths served are exactly the matched paths with no ignore entry in them, so a
match whose path contains an ignore entry is excluded. -/
theorem FileGlobFetch_spec (env : Environment) (GlobIgnore : List String)
    (Pattern projectDirectory : String) (glob : List String)
    (hglob : env.Glob (env.Join projectDirectory Pattern) = Except.ok glob)
    (hfetch : ∀ f ∈ glob, (∀ ig ∈ GlobIgnore, Contains f ig = false) →
      ∃ rs, FileResourceRequest.Fetch env f projectDirectory = Except.ok rs) :
    ∃ rs, FileGlobResourceRequest.Fetch env GlobIgnore Pattern projectDirectory = Except.ok rs ∧
      List.Forall₂
        (fun f r => FileResourceRequest.Fetch env f projectDirectory = Except.ok [r])
        (keptMatches GlobIgnore glob) rs ∧
      rs.length = (keptMatches GlobIgnore glob).length ∧
      (keptMatches GlobIgnore glob).Sublist glob ∧
      (∀ f, f ∈ keptMatches GlobIgnore glob ↔
        f ∈ glob ∧ ∀ ig ∈ GlobIgnore, Contains f ig = false) ∧
      (∀ f ∈ glob, (∃ ig ∈ GlobIgnore, Contains f ig = true) →
        f ∉ keptMatches GlobIgnore glob) := by
  obtain ⟨rs, h1, h2⟩ := fileLoop_ok env GlobIgnore projectDirectory glob [] hfetch
  have hmem : ∀ f, f ∈ keptMatches GlobIgnore glob ↔
      f ∈ glob ∧ ∀ ig ∈ GlobIgnore, Contains f ig = false := by
    intro f
    unfold keptMatches
    simp [List.mem_filter]
  refine ⟨rs, ?_, h2, h2.length_eq.symm, List.filter_sublist _, hmem, ?_⟩
  · unfold FileGlobResourceRequest.Fetch
    simp only [hglob]
    rw [h1, List.nil_append]
  · intro f _ hex hk
    obtain ⟨ig, hig, hc⟩ := hex
    rw [((hmem f).mp hk).2 ig hig] at hc
    cases hc

/-- Witness for C11: of the matches `/p/a.go`, `/p/vendor/b.go` and `/p/c.go`, with
the ignore list `["vendor"]`, the first and the third are fetched. -/
theorem FileGlobFetch_spec_witness :
    FileGlobResourceRequest.Fetch sampleEnvironment ["vendor"] "*.go" "/p" =
      Except.ok [{ ResourceType := "file", Name := "/p/a.go", Content := "/p/a.go" },
        { ResourceType := "file", Name := "/p/c.go", Content := "/p/c.go" }] ∧
    keptMatches ["vendor"] ["/p/a.go", "/p/vendor/b.go", "/p/c.go"] = ["/p/a.go", "/p/c.go"] ∧
    ∃ rs, FileGlobResourceRequest.Fetch sampleEnvironment ["vendor"] "*.go" "/p" = Except.ok rs ∧
      List.Forall₂
        (fun f r => FileResourceRequest.Fetch sampleEnvironment f "/p" = Except.ok [r])
        (keptMatches ["vendor"] ["/p/a.go", "/p/vendor/b.go", "/p/c.go"]) rs :=
  ⟨rfl, by decide,
    (FileGlobFetch_spec sampleEnvironment ["vendor"] "*.go" "/p"
      ["/p/a.go", "/p/vendor/b.go", "/p/c.go"] rfl (fun _ _ _ => ⟨_, rfl⟩)).imp
      (fun _ h => ⟨h.1, h.2.1⟩)⟩

/-! ## C5: the message list of a conversation that is sent -/

/-- A conversation for which `GetLastUserMessage` succeeds has a message with role "You". -/
theorem user_message_of_last (conv : Conversation) (last : String)
    (h : GetLastUserMessage conv = Except.ok last) : ∃ m ∈ conv.Messages, m.Role = "You" := by
  unfold GetLastUserMessage at h
  obtain ⟨i, hi, _, hrole, _, _⟩ :=
    (lastUserLoop_ok conv.Messages last conv.Messages.length (Nat.le_refl _)).mp h
  exact ⟨conv.Messages[i], List.getElem_mem _, hrole⟩

/-- C5. For every conversation, the message list that `sendLLMRequest` assembles
has the length and order of the conversation's messages and maps role
"Response" to "assistant" and every other role to "user"; with empty
reference material every content is passed through unchanged. `sendLLMRequest`
is called with the conversation that `readConversation` returned, and
`readConversation` returns a conversation only after `GetLastUserMessage`
succeeded on it: for every such conversation with non-empty reference material
there is a first user-role message, the block "\n\n# Relevant Material\n\n"
followed by one entry per reference item in list order is appended to its
content, and every other content is passed through unchanged, so exactly one
message carries the block. -/
theorem sendLLMRequest_messages_spec (conv : Conversation) :
    (sendLLMRequestMessages conv).length = conv.Messages.length ∧
    (sendLLMRequestMessages conv).map (fun m => m.Role) =
      conv.Messages.map (fun m => if m.Role = "Response" then "assistant" else "user") ∧
    (∀ last, GetLastUserMessage conv = Except.ok last → conv.ReferenceMaterial ≠ [] →
      ∃ pre m post, conv.Messages = pre ++ m :: post ∧
        (∀ p ∈ pre, p.Role = "Response") ∧ m.Role ≠ "Response" ∧
        sendLLMRequestMessages conv =
          pre.map plainMessage
            ++ { Role := "user", Content := m.Content ++ referenceBlock conv.ReferenceMaterial }
              :: post.map plainMessage ∧
        blockInsertions conv = 1) ∧
    (conv.ReferenceMaterial = [] →
      sendLLMRequestMessages conv = conv.Messages.map plainMessage) := by
  obtain ⟨g1, g2, g3, _, g5⟩ := sendLLMRequest_messages_cases conv
  refine ⟨g1, g2, ?_, g5⟩
  intro last hcall hrefs
  obtain ⟨u, hu, hrole⟩ := user_message_of_last conv last hcall
  rcases first_user_split conv.Messages with hall | ⟨pre, m, post, h1, h2, h3⟩
  · have hr := hall u hu
    rw [hrole] at hr
    exact absurd hr (by decide)
  · obtain ⟨k1, k2⟩ := g3 hrefs pre m post h1 h2 h3
    exact ⟨pre, m, post, h1, h2, h3, k1, k2⟩

/-- Witness for C5: the conversation of the specification's example, two user
turns, one response and one reference item. -/
theorem sendLLMRequest_messages_spec_witness :
    sendLLMRequestMessages
        { Title := "", Prompt := "", Model := "", ProjectDirectory := "", Parameters := [],
          Messages := [{ Role := "You", Content := "First" },
            { Role := "Response", Content := "Reply" }, { Role := "You", Content := "Second" }],
          ReferenceMaterial := [{ Name := "a.go", Content := "package a", Typ := "file" }],
          IncludeFiles := false, ResourceRequests := [] }
      = [{ Role := "user", Content := "First" ++
            referenceBlock [{ Name := "a.go", Content := "package a", Typ := "file" }] },
          { Role := "assistant", Content := "Reply" }, { Role := "user", Content := "Second" }] ∧
    ∃ pre m post,
      ([{ Role := "You", Content := "First" }, { Role := "Response", Content := "Reply" },
        { Role := "You", Content := "Second" }] : List Message) = pre ++ m :: post ∧
      (∀ p ∈ pre, p.Role = "Response") ∧ m.Role ≠ "Response" ∧
      sendLLMRequestMessages
          { Title := "", Prompt := "", Model := "", ProjectDirectory := "", Parameters := [],
            Messages := [{ Role := "You", Content := "First" },
              { Role := "Response", Content := "Reply" }, { Role := "You", Content := "Second" }],
            ReferenceMaterial := [{ Name := "a.go", Content := "package a", Typ := "file" }],
            IncludeFiles := false, ResourceRequests := [] }
        = pre.map plainMessage
            ++ { Role := "user", Content := m.Content ++
                  referenceBlock [{ Name := "a.go", Content := "package a", Typ := "file" }] }
              :: post.map plainMessage ∧
      blockInsertions
          { Title := "", Prompt := "", Model := "", ProjectDirectory := "", Parameters := [],
            Messages := [{ Role := "You", Content := "First" },
              { Role := "Response", Content := "Reply" }, { Role := "You", Content := "Second" }],
            ReferenceMaterial := [{ Name := "a.go", Content := "package a", Typ := "file" }],
            IncludeFiles := false, ResourceRequests := [] } = 1 :=
  ⟨rfl,
    (sendLLMRequest_messages_spec
      { Title := "", Prompt := "", Model := "", ProjectDirectory := "", Parameters := [],
        Messages := [{ Role := "You", Content := "First" },
          { Role := "Response", Content := "Reply" }, { Role := "You", Content := "Second" }],
        ReferenceMaterial := [{ Name := "a.go", Content := "package a", Typ := "file" }],
        IncludeFiles := false, ResourceRequests := [] }).2.2.1 "Second" rfl (by decide)⟩

/-! ## Documents with a line that is too long for the scanner -/

/-- A text that is not empty and has no newline is its only raw line. -/
theorem rawLines_no_newline (x : List Char) (hne : x ≠ []) (h : '\n' ∉ x) :
    rawLines x = [x] := by
  have hs := splitNL_no_newline x h
  rcases splitNL_rawLines x with h1 | h1
  · rw [← h1, hs]
  · rw [hs] at h1
    cases hr : rawLines x with
    | nil =>
      rw [hr] at h1
      simp only [List.nil_append, List.cons.injEq, and_true] at h1
      exact absurd h1 hne
    | cons a as =>
      rw [hr] at h1
      have hlen := congrArg List.length h1
      simp at hlen

/-- When every raw line fits the buffer, the scanner delivers the lines of the text. -/
theorem scanLines_eq_documentLines (d : String)
    (h : ∀ l ∈ rawLines d.data, fitsBuffer l = true) : scanLines d = documentLines d :=
  scanLines_of_fit d h

/-- The line of 65536 bytes has no newline. -/
theorem tooLongLine_no_newline : '\n' ∉ tooLongLine := by
  unfold tooLongLine
  intro h
  rcases List.mem_cons.mp h with h | h
  · revert h; decide
  · rcases List.mem_cons.mp h with h | h
    · revert h; decide
    · rcases List.mem_cons.mp h with h | h
      · revert h; decide
      · rcases List.mem_append.mp h with h | h
        · exact longRun_no_newline h
        · revert h; decide

/-- The line of 65536 bytes does not fit the scanner's buffer. -/
theorem tooLongLine_too_long : fitsBuffer tooLongLine = false := by
  unfold tooLongLine
  exact longLine_grown_too_long

/-- The line of 65536 bytes ends with the letter `c`. -/
theorem tooLongLine_last : tooLongLine.getLast? = some 'c' := by
  have h : tooLongLine = ('a' :: ':' :: ' ' :: (longRun ++ [':', ' '])) ++ ['c'] := by
    unfold tooLongLine
    rw [List.cons_append, List.cons_append, List.cons_append, List.append_assoc]
    rfl
  rw [h, List.getLast?_append_of_ne_nil _ (List.cons_ne_nil _ _)]
  rfl

/-- The line of 65536 bytes has no trailing carriage return. -/
theorem tooLongLine_dropCR : dropCR tooLongLine = tooLongLine := by
  apply dropCR_of_not_cr
  rw [tooLongLine_last]
  decide

/-- The line of 65536 bytes is no delimiter, title or heading. -/
theorem tooLongLine_contentLine : contentLine (String.mk tooLongLine) :=
  contentLine_of_head _ 'a' (':' :: ' ' :: (longRun ++ [':', ' ', 'c'])) rfl
    (by decide) (by decide)

/-- The line of 65536 bytes is not blank. -/
theorem tooLongLine_nonblank : TrimSpace (String.mk tooLongLine) ≠ "" := by
  intro h
  rcases blank_head _ h with h0 | ⟨c, u, h1, h2⟩
  · have h3 : (String.mk tooLongLine).data = 'a' :: (':' :: ' ' :: (longRun ++ [':', ' ', 'c'])) :=
      rfl
    rw [h3] at h0
    cases h0
  · have h3 : (String.mk tooLongLine).data = 'a' :: (':' :: ' ' :: (longRun ++ [':', ' ', 'c'])) :=
      rfl
    rw [h3] at h1
    have h4 := (List.cons.inj h1).1
    rw [← h4] at h2
    revert h2
    decide

/-- The raw lines of the turn with the line of 65536 bytes. -/
theorem tooLongTurn_rawLines : rawLines tooLongTurn.data = ["## You".data, tooLongLine] := by
  have hd : tooLongTurn.data = "## You".data ++ '\n' :: tooLongLine := rfl
  rw [hd, rawLines_line _ _ (by decide),
    rawLines_no_newline tooLongLine (by unfold tooLongLine; exact List.cons_ne_nil _ _)
      tooLongLine_no_newline]

/-- The scanner delivers the heading of the turn with the line of 65536 bytes and
nothing else. -/
theorem tooLongTurn_scanned : scanLines tooLongTurn = ["## You"] := by
  unfold scanLines
  rw [tooLongTurn_rawLines]
  have h1 : fitsBuffer ("## You" : String).data = true := by decide
  simp only [List.takeWhile_cons, h1, tooLongLine_too_long, if_true, Bool.false_eq_true,
    if_false, List.map_cons, List.map_nil]
  rfl

/-! ## C2: documents of turns -/

/-- C2, as amended. Let the lines of a document be an optional title line
`# <title>` followed by `k ≥ 1` turns, each a heading line `## You` or
`### Response` followed by content lines of which at least one is non-blank and
none equals `---` or begins with `# `, `## You` or `### Response`, and let
every line of the document be shorter than 65536 bytes. Then `ParseContent`
succeeds with exactly `k` messages, whose roles follow the headings and whose
contents are each turn's lines joined by newlines and trimmed, and with `Title`
equal to the title text (empty without title line). -/
theorem ParseContent_turns (d : String) (title : Option String) (ts : List Turn)
    (hd : documentLines d = titleLines title ++ turnLines ts)
    (hfit : ∀ l ∈ rawLines d.data, fitsBuffer l = true)
    (hk : 1 ≤ ts.length)
    (hts : ∀ t ∈ ts, (∃ l ∈ t.lines, TrimSpace l ≠ "") ∧ ∀ l ∈ t.lines, contentLine l) :
    ∃ c, ParseContent d = Except.ok c ∧
      c.Messages.length = ts.length ∧
      c.Messages.map (fun m => m.Role) = ts.map (fun t => if t.user then "You" else "Response") ∧
      c.Messages.map (fun m => m.Content) =
        ts.map (fun t => TrimSpace (String.intercalate "\n" t.lines)) ∧
      c.Title = title.getD "" := by
  have hs : scanLines d = titleLines title ++ turnLines ts := by
    rw [scanLines_eq_documentLines d hfit]
    exact hd
  exact turns_scanned d title ts hs hk hts

/-- Witness for C2: the document "# T\n## You\nA\n### Response\nB\n## You\nC" gives title
"T" and the three messages You:"A", Response:"B", You:"C". -/
theorem ParseContent_turns_witness :
    ∃ c, ParseContent "# T\n## You\nA\n### Response\nB\n## You\nC" = Except.ok c ∧
      c.Messages.length = 3 ∧
      c.Messages.map (fun m => m.Role) = ["You", "Response", "You"] ∧
      c.Messages.map (fun m => m.Content) = ["A", "B", "C"] ∧
      c.Title = "T" :=
  ParseContent_turns "# T\n## You\nA\n### Response\nB\n## You\nC" (some "T")
    [{ user := true, lines := ["A"] }, { user := false, lines := ["B"] },
      { user := true, lines := ["C"] }]
    (by rfl) (by decide) (by decide) (by decide)

/-- Counterexample to C2 as stated: the document `tooLongTurn` consists of the
heading `## You` and one content line, which is non-blank and no delimiter,
title or heading, but has 65536 bytes; the scanner stops at that line and
`ParseContent` fails instead of returning one message. -/
theorem ParseContent_turns_too_long :
    documentLines tooLongTurn =
      titleLines none ++ turnLines [{ user := true, lines := [String.mk tooLongLine] }] ∧
    (∀ t ∈ [({ user := true, lines := [String.mk tooLongLine] } : Turn)],
      (∃ l ∈ t.lines, TrimSpace l ≠ "") ∧ ∀ l ∈ t.lines, contentLine l) ∧
    ParseContent tooLongTurn = Except.error "no messages found in content" := by
  refine ⟨?_, ?_, ?_⟩
  · unfold documentLines
    rw [tooLongTurn_rawLines]
    simp only [List.map_cons, List.map_nil, tooLongLine_dropCR]
    rfl
  · intro t ht
    rw [List.mem_singleton.mp ht]
    refine ⟨⟨_, List.mem_singleton.mpr rfl, tooLongLine_nonblank⟩, ?_⟩
    intro l hl
    rw [List.mem_singleton.mp hl]
    exact tooLongLine_contentLine
  · unfold ParseContent
    rw [tooLongTurn_scanned]
    rfl

/-! ## C7: the lines of a parsed and serialised document -/

/-- C7, as amended. Let the lines of a document have no `---` line, let the only
non-blank line before the first turn heading be one line `# <title>` with
non-blank title, let each of the `k ≥ 1` turns be a line `## You` or
`### Response` followed by content lines of which at least one is non-blank and
none begins with `# `, `## You` or `### Response`, and let every line of the
document be shorter than 65536 bytes. Then the document parses, and the text
`String(ParseContent(d))` and `d` have the same sequence of non-blank lines
after each line is trimmed: the equality of `normalizeSpace` that
`TestContentRoundTrip` checks. -/
theorem roundTrip_lines (d : String) (blanks1 blanks2 : List String) (t : String)
    (ts : List Turn)
    (hd : documentLines d = blanks1 ++ ["# " ++ t] ++ blanks2 ++ turnLines ts)
    (hfit : ∀ l ∈ rawLines d.data, fitsBuffer l = true)
    (hb1 : ∀ l ∈ blanks1, TrimSpace l = "") (hb2 : ∀ l ∈ blanks2, TrimSpace l = "")
    (ht : TrimSpace t ≠ "") (hk : 1 ≤ ts.length)
    (hts : ∀ tn ∈ ts, (∃ l ∈ tn.lines, TrimSpace l ≠ "") ∧ ∀ l ∈ tn.lines, contentLine l) :
    ∃ c, ParseContent d = Except.ok c ∧
      ∀ iter : List (String × String),
        normalizeSpace (ConversationString c iter) = normalizeSpace d := by
  have hs : scanLines d = blanks1 ++ ["# " ++ t] ++ blanks2 ++ turnLines ts := by
    rw [scanLines_eq_documentLines d hfit]
    exact hd
  obtain ⟨c, hc, hall⟩ := roundTrip_scanned d blanks1 blanks2 t ts hs hb1 hb2 ht hk hts
  exact ⟨c, hc, fun iter => (hall iter).2 hfit⟩

/-- Witness for C7: a document with a title, blank lines and two turns. -/
theorem roundTrip_lines_witness :
    ∃ c, ParseContent "# Test Chat\n\n## You\n\nHello there\n\n### Response\n\nHi!" =
        Except.ok c ∧
      ∀ iter : List (String × String),
        normalizeSpace (ConversationString c iter) =
          normalizeSpace "# Test Chat\n\n## You\n\nHello there\n\n### Response\n\nHi!" :=
  roundTrip_lines "# Test Chat\n\n## You\n\nHello there\n\n### Response\n\nHi!"
    [] [""] "Test Chat"
    [{ user := true, lines := ["", "Hello there", ""] }, { user := false, lines := ["", "Hi!"] }]
    (by rfl) (by decide) (by decide) (by decide) (by decide) (by decide) (by decide)

/-- The raw lines of the document with the line of 65536 bytes. -/
theorem tooLongDocument_rawLines :
    rawLines tooLongDocument.data =
      ["# T".data, "## You".data, "hi".data, tooLongLine, "after".data] := by
  have hd : tooLongDocument.data = "# T".data ++ '\n' :: ("## You".data ++ '\n' ::
      ("hi".data ++ '\n' :: (tooLongLine ++ '\n' :: "after".data))) := rfl
  rw [hd, rawLines_line _ _ (by decide), rawLines_line _ _ (by decide),
    rawLines_line _ _ (by decide), rawLines_line _ _ tooLongLine_no_newline,
    rawLines_no_newline _ (by decide) (by decide)]

/-- The pieces of the document with the line of 65536 bytes. -/
theorem tooLongDocument_pieces :
    splitNL tooLongDocument.data =
      ["# T".data, "## You".data, "hi".data, tooLongLine, "after".data] := by
  have hd : tooLongDocument.data = "# T".data ++ '\n' :: ("## You".data ++ '\n' ::
      ("hi".data ++ '\n' :: (tooLongLine ++ '\n' :: "after".data))) := rfl
  rw [hd, splitNL_append_newline _ _ (by decide), splitNL_append_newline _ _ (by decide),
    splitNL_append_newline _ _ (by decide), splitNL_append_newline _ _ tooLongLine_no_newline,
    splitNL_no_newline _ (by decide)]

/-- The scanner delivers the lines of the document up to the line of 65536 bytes. -/
theorem tooLongDocument_scanned : scanLines tooLongDocument = ["# T", "## You", "hi"] := by
  unfold scanLines
  rw [tooLongDocument_rawLines]
  have h1 : fitsBuffer ("# T" : String).data = true := by decide
  have h2 : fitsBuffer ("## You" : String).data = true := by decide
  have h3 : fitsBuffer ("hi" : String).data = true := by decide
  simp only [List.takeWhile_cons, h1, h2, h3, tooLongLine_too_long, if_true,
    Bool.false_eq_true, if_false, List.map_cons, List.map_nil]
  rfl

/-- The line `after` is among the non-blank trimmed lines of the document with the
line of 65536 bytes. -/
theorem tooLongDocument_after : "after" ∈ normalizeSpace tooLongDocument := by
  unfold normalizeSpace trimmedPieces
  rw [tooLongDocument_pieces]
  apply List.mem_map.mpr
  refine ⟨"after".data, ?_, rfl⟩
  apply List.mem_filter.mpr
  refine ⟨?_, by decide⟩
  apply List.mem_map.mpr
  refine ⟨"after".data, ?_, by decide⟩
  exact List.mem_cons_of_mem _ (List.mem_cons_of_mem _ (List.mem_cons_of_mem _
    (List.mem_cons_of_mem _ (List.mem_singleton.mpr rfl))))

/-- Counterexample to C7 as stated: the document `tooLongDocument` has the title
line `# T` and one turn `## You` with the content lines `hi`, a line of 65536
bytes and `after`. The scanner stops at the long line, so the document parses
to the message `hi` alone, and the serialised text lacks the line `after` that
the document has. -/
theorem roundTrip_lines_too_long :
    documentLines tooLongDocument =
      [] ++ ["# " ++ "T"] ++ [] ++
        turnLines [{ user := true, lines := ["hi", String.mk tooLongLine, "after"] }] ∧
    (∀ tn ∈ [({ user := true, lines := ["hi", String.mk tooLongLine, "after"] } : Turn)],
      (∃ l ∈ tn.lines, TrimSpace l ≠ "") ∧ ∀ l ∈ tn.lines, contentLine l) ∧
    ∃ c, ParseContent tooLongDocument = Except.ok c ∧
      ∀ iter : List (String × String),
        "after" ∈ normalizeSpace tooLongDocument ∧
        "after" ∉ normalizeSpace (ConversationString c iter) ∧
        normalizeSpace (ConversationString c iter) ≠ normalizeSpace tooLongDocument := by
  refine ⟨?_, ?_, ?_⟩
  · unfold documentLines
    rw [tooLongDocument_rawLines]
    simp only [List.map_cons, List.map_nil, tooLongLine_dropCR]
    rfl
  · intro tn htn
    rw [List.mem_singleton.mp htn]
    refine ⟨⟨"hi", List.mem_cons_self _ _, by decide⟩, ?_⟩
    intro l hl
    simp only [List.mem_cons, List.mem_singleton, List.not_mem_nil, or_false] at hl
    rcases hl with rfl | rfl | rfl
    · decide
    · exact tooLongLine_contentLine
    · decide
  · have hparse : ParseContent tooLongDocument =
        Except.ok
          { Title := "T", Prompt := "", Model := "", ProjectDirectory := "", Parameters := [],
            Messages := [{ Role := "You", Content := "hi" }], ReferenceMaterial := [],
            IncludeFiles := false, ResourceRequests := [] } := by
      unfold ParseContent
      rw [tooLongDocument_scanned]
      rfl
    refine ⟨_, hparse, ?_⟩
    intro iter
    have hser : normalizeSpace (ConversationString
        { Title := "T", Prompt := "", Model := "", ProjectDirectory := "", Parameters := [],
          Messages := [{ Role := "You", Content := "hi" }], ReferenceMaterial := [],
          IncludeFiles := false, ResourceRequests := [] } iter) = ["# T", "## You", "hi"] := by
      rfl
    have hnot : "after" ∉ normalizeSpace (ConversationString
        { Title := "T", Prompt := "", Model := "", ProjectDirectory := "", Parameters := [],
          Messages := [{ Role := "You", Content := "hi" }], ReferenceMaterial := [],
          IncludeFiles := false, ResourceRequests := [] } iter) := by
      rw [hser]
      decide
    refine ⟨tooLongDocument_after, hnot, ?_⟩
    intro heq
    apply hnot
    rw [heq]
    exact tooLongDocument_after

end AiStdio
